import Mathlib

/-!
# Employee dashboard

A shallow embedding of the employee dashboard:

* `src/services/api.js` (`fetchEmployees`, `parseSalary`);
* the camera controller of `src/pages/EmployeeDetails.jsx` (`startCamera`,
  `stopCamera`, `capturePhoto`, `retake`, the unmount cleanup);
* the auth store of `src/context/AuthContext.jsx`, the form of
  `src/pages/Login.jsx` and the routes of `src/App.jsx`;
* the list view and the summary figures of `src/pages/Dashboard.jsx`, the
  series of `src/pages/SalaryChart.jsx`, the markers of `src/pages/CityMap.jsx`
  and the fetch effect the three pages share;
* `src/utils/cityCoordinates.js` (`getCityCoords`) and `src/utils/formatters.js`
  (`titleCase`);

together with the JavaScript operations these functions rely on
(`||`, `!`, `typeof`, `String(...)`, `Number(...)`, `?.`, indexing, `sort`,
`trim`, `split`, `Math.round`, `Math.max`).

Conventions of the embedding:

* a JavaScript value is a `JSVal`; objects are association lists in which the
  first binding of a key is the property's value;
* a Number is a `JSNum`: `NaN`, an infinity, or a finite value carried as the
  exact rational it denotes (`-0` is identified with `0`); every operation that
  rounds in IEEE-754 binary64 rounds explicitly through `toDouble`;
* a string is a `String`, a sequence of Unicode characters without lone
  surrogates; where JavaScript compares UTF-16 code units, as the default
  `sort` does, the code units are computed by `codeUnits`;
* `String.prototype.toLowerCase` is a parameter of the functions that call it;
* code that can throw returns `Except Thrown _`; `console.warn` and
  `console.error` have no effect on the result and are left out.
-/

namespace EmployeeDashboard

/-! ## Numbers -/

/-- JavaScript Number values: `NaN`, `±Infinity`, or a finite value. -/
inductive JSNum where
  | nan
  | inf (neg : Bool)
  | fin (q : ℚ)
  deriving DecidableEq

namespace JSNum

/-- The test `Number.isNaN(x)`. -/
def isNaN : JSNum → Bool
  | nan => true
  | _ => false

/-- The comparison `x >= 0` of JavaScript (false for `NaN`). -/
def geZero : JSNum → Bool
  | nan => false
  | inf neg => !neg
  | fin q => decide (0 ≤ q)

/-- The comparison `x < 0` of JavaScript (false for `NaN`). -/
def ltZero : JSNum → Bool
  | nan => false
  | inf neg => neg
  | fin q => decide (q < 0)

end JSNum

/-- Number of binary digits of `n`, by halving at most `fuel` times. -/
def bitLenAux : Nat → Nat → Nat
  | 0, _ => 0
  | fuel + 1, n => if n = 0 then 0 else bitLenAux fuel (n / 2) + 1

/-- Number of binary digits of `n` (`0` for `0`). -/
def bitLen (n : Nat) : Nat := bitLenAux n n

/-- The integer `e` with `2 ^ e ≤ q < 2 ^ (e + 1)`, for `q > 0`. -/
def floorLog2 (q : ℚ) : ℤ :=
  let e0 : ℤ := (bitLen q.num.natAbs : ℤ) - (bitLen q.den : ℤ)
  if (2 : ℚ) ^ e0 ≤ q then e0 else e0 - 1

/-- Nearest integer, a tie going to the even neighbour. -/
def roundHalfEven (q : ℚ) : ℤ :=
  let f := ⌊q⌋
  let d := q - f
  if d < 1 / 2 then f
  else if 1 / 2 < d then f + 1
  else if f % 2 = 0 then f else f + 1

/-- Rounding of a real (here rational) value to IEEE-754 binary64, round to
nearest, ties to even: 53 significant bits, least exponent `-1074`, overflow to
an infinity from `2 ^ 1024` on. -/
def toDouble (q : ℚ) : JSNum :=
  if q = 0 then .fin 0
  else
    let a := |q|
    let u : ℤ := max (floorLog2 a - 52) (-1074)
    let v : ℚ := (roundHalfEven (a / (2 : ℚ) ^ u) : ℚ) * (2 : ℚ) ^ u
    if (2 : ℚ) ^ (1024 : ℤ) ≤ v then .inf (decide (q < 0))
    else .fin (if q < 0 then -v else v)

/-! ## `Number(string)`: the `StringNumericLiteral` grammar -/

/-- The characters `StrWhiteSpaceChar` of the grammar: white space and line
terminators. -/
def isStrWhiteSpaceChar (c : Char) : Bool :=
  let n := c.toNat
  n == 0x09 || n == 0x0A || n == 0x0B || n == 0x0C || n == 0x0D || n == 0x20
    || n == 0xA0 || n == 0x1680 || (0x2000 ≤ n && n ≤ 0x200A) || n == 0x2028
    || n == 0x2029 || n == 0x202F || n == 0x205F || n == 0x3000 || n == 0xFEFF

/-- Removal of leading and trailing white space. -/
def trimWhiteSpace (cs : List Char) : List Char :=
  ((cs.dropWhile isStrWhiteSpaceChar).reverse.dropWhile isStrWhiteSpaceChar).reverse

/-- The decimal digits `0` to `9`. -/
def isDecimalDigit (c : Char) : Bool :=
  decide (48 ≤ c.toNat ∧ c.toNat ≤ 57)

/-- Value of one digit in the given base (`none` when it is not a digit of
that base). -/
def digitValue (base : Nat) (c : Char) : Option Nat :=
  let v : Option Nat :=
    if isDecimalDigit c then some (c.toNat - 48)
    else if 97 ≤ c.toNat ∧ c.toNat ≤ 102 then some (c.toNat - 87)
    else if 65 ≤ c.toNat ∧ c.toNat ≤ 70 then some (c.toNat - 55)
    else none
  v.filter (fun d => d < base)

/-- Value of a string of decimal digits, most significant first. -/
def natOfDigits (ds : List Char) : Nat :=
  ds.foldl (fun acc c => 10 * acc + (c.toNat - 48)) 0

/-- The production `DecimalDigits`: a non-empty string of decimal digits. -/
def decimalDigits (ds : List Char) : Option Nat :=
  if ds ≠ [] ∧ ds.all isDecimalDigit = true then some (natOfDigits ds) else none

/-- Value of a non-empty string of digits of the given base. -/
def radixDigits (base : Nat) (ds : List Char) : Option Nat :=
  if ds = [] then none
  else ds.foldl (fun acc c => acc.bind fun a => (digitValue base c).map fun d => a * base + d)
    (some 0)

/-- The mathematical value of a numeric literal, before rounding. -/
inductive MathValue where
  | infinity (neg : Bool)
  | finite (q : ℚ)
  deriving DecidableEq

/-- The optional `ExponentPart` that ends a decimal literal: nothing, or `e` /
`E`, an optional sign and `DecimalDigits`. -/
def parseExponent : List Char → Option ℤ
  | [] => some 0
  | c :: t =>
    if c = 'e' ∨ c = 'E' then
      match t with
      | '+' :: ds => (decimalDigits ds).map fun n => (n : ℤ)
      | '-' :: ds => (decimalDigits ds).map fun n => -(n : ℤ)
      | ds => (decimalDigits ds).map fun n => (n : ℤ)
    else none

/-- The production `StrUnsignedDecimalLiteral`: `Infinity`, or digits with an
optional fraction and exponent, at least one digit before or after the point. -/
def parseUnsignedDecimal (cs : List Char) : Option MathValue :=
  if cs = ['I', 'n', 'f', 'i', 'n', 'i', 't', 'y'] then some (.infinity false)
  else
    let ip := cs.takeWhile isDecimalDigit
    let r1 := cs.dropWhile isDecimalDigit
    let fp := match r1 with
      | '.' :: t => t.takeWhile isDecimalDigit
      | _ => []
    let r2 := match r1 with
      | '.' :: t => t.dropWhile isDecimalDigit
      | _ => r1
    if ip = [] ∧ fp = [] then none
    else
      (parseExponent r2).map fun e =>
        .finite ((natOfDigits (ip ++ fp) : ℚ) * (10 : ℚ) ^ (e - (fp.length : ℤ)))

/-- The production `NonDecimalIntegerLiteral`: `0x`, `0o` or `0b` (either case)
followed by digits of that base. -/
def parseNonDecimal : List Char → Option MathValue
  | '0' :: c :: ds =>
    let base : Option Nat :=
      if c = 'x' ∨ c = 'X' then some 16
      else if c = 'o' ∨ c = 'O' then some 8
      else if c = 'b' ∨ c = 'B' then some 2
      else none
    base.bind fun b => (radixDigits b ds).map fun n => .finite (n : ℚ)
  | _ => none

/-- The production `StrNumericLiteral`: a non-decimal integer literal, or a
decimal literal with an optional sign. -/
def parseStrNumericLiteral (cs : List Char) : Option MathValue :=
  match parseNonDecimal cs with
  | some v => some v
  | none =>
    match cs with
    | '+' :: t => parseUnsignedDecimal t
    | '-' :: t =>
      (parseUnsignedDecimal t).map fun v =>
        match v with
        | .infinity neg => .infinity (!neg)
        | .finite q => .finite (-q)
    | _ => parseUnsignedDecimal cs

/-- The production `StringNumericLiteral`: optional white space around an
optional `StrNumericLiteral`; the empty literal has value `0`. -/
def parseStringNumericLiteral (s : String) : Option MathValue :=
  let cs := trimWhiteSpace s.toList
  if cs = [] then some (.finite 0) else parseStrNumericLiteral cs

/-- Whether the string is a numeric literal, that is, whether `Number` of it
is not `NaN`. -/
def isNumericLiteral (s : String) : Bool :=
  (parseStringNumericLiteral s).isSome

/-- The conversion `Number(s)` of a string `s` (the abstract operation
`StringToNumber`). -/
def stringToNumber (s : String) : JSNum :=
  match parseStringNumericLiteral s with
  | none => .nan
  | some (.infinity neg) => .inf neg
  | some (.finite q) => toDouble q

/-! ## `String(number)`: the shortest decimal that reads back -/

/-- Number of decimal digits of `n`, by dividing at most `fuel` times. -/
def decLenAux : Nat → Nat → Nat
  | 0, _ => 0
  | fuel + 1, n => if n = 0 then 0 else decLenAux fuel (n / 10) + 1

/-- Number of decimal digits of `n` (`0` for `0`). -/
def decLen (n : Nat) : Nat := decLenAux n n

/-- The integer `n` with `10 ^ (n - 1) ≤ q < 10 ^ n`, for `q > 0`. -/
def decimalExponent (q : ℚ) : ℤ :=
  let e0 : ℤ := (decLen q.num.natAbs : ℤ) - (decLen q.den : ℤ)
  if q < (10 : ℚ) ^ e0 then e0 else e0 + 1

/-- The `k`-digit integers `s`, paired with `n`, for which `s * 10 ^ (n - k)`
rounds to the double of `x`: only the two neighbours of `x` can qualify. -/
def digitCandidates (x : ℚ) (k : Nat) (n : ℤ) : List (Nat × ℤ) :=
  let p : ℚ := (10 : ℚ) ^ (n - (k : ℤ))
  let s := ⌊x / p⌋.toNat
  let ok : Nat → Bool := fun t =>
    decide (10 ^ (k - 1) ≤ t ∧ t < 10 ^ k ∧ toDouble ((t : ℚ) * p) = toDouble x)
  ([s, s + 1].filter ok).map fun t => (t, n)

/-- Distance from `x` of the decimal `s * 10 ^ (n - k)`. -/
def candidateDistance (x : ℚ) (k : Nat) (c : Nat × ℤ) : ℚ :=
  |(c.1 : ℚ) * (10 : ℚ) ^ (c.2 - (k : ℤ)) - x|

/-- The candidate closest to `x`, an even `s` winning a tie. -/
def pickClosest (x : ℚ) (k : Nat) : List (Nat × ℤ) → Option (Nat × ℤ)
  | [] => none
  | c :: cs =>
    some (cs.foldl (fun best d =>
      if candidateDistance x k d < candidateDistance x k best
          ∨ (candidateDistance x k d = candidateDistance x k best
              ∧ d.1 % 2 = 0 ∧ best.1 % 2 ≠ 0)
      then d else best) c)

/-- Search for the least number of digits `k`, from the given `k` on: the
result is `(s, k, n)`. -/
def shortestDigits (x : ℚ) (n0 : ℤ) : Nat → Nat → Nat × Nat × ℤ
  | 0, k => (⌊x / (10 : ℚ) ^ (n0 - (k : ℤ))⌋.toNat, k, n0)
  | fuel + 1, k =>
    match pickClosest x k (digitCandidates x k n0 ++ digitCandidates x k (n0 + 1)) with
    | some (s, n) => (s, k, n)
    | none => shortestDigits x n0 fuel (k + 1)

/-- Layout of the digits `s` (`k` of them) with decimal exponent `n`, as
`Number.prototype.toString` prescribes for radix 10. -/
def formatDigits (s k : Nat) (n : ℤ) : String :=
  let ds := Nat.toDigits 10 s
  if (k : ℤ) ≤ n ∧ n ≤ 21 then String.mk (ds ++ List.replicate (n - (k : ℤ)).toNat '0')
  else if 0 < n ∧ n ≤ 21 then String.mk (ds.take n.toNat ++ '.' :: ds.drop n.toNat)
  else if -6 < n ∧ n ≤ 0 then String.mk ('0' :: '.' :: List.replicate (-n).toNat '0' ++ ds)
  else
    let e := n - 1
    let es := (if e < 0 then '-' else '+') :: Nat.toDigits 10 e.natAbs
    if k = 1 then String.mk (ds ++ 'e' :: es)
    else String.mk (ds.take 1 ++ '.' :: ds.drop 1 ++ 'e' :: es)

/-- The conversion `String(x)` of a positive finite `x`. -/
def positiveToString (x : ℚ) : String :=
  match shortestDigits x (decimalExponent x) 17 1 with
  | (s, k, n) => formatDigits s k n

/-- The conversion `String(x)` of a Number `x` (the operation
`Number::toString`, radix 10). -/
def numberToString : JSNum → String
  | .nan => "NaN"
  | .inf neg => if neg then "-Infinity" else "Infinity"
  | .fin q =>
    if q = 0 then "0"
    else if q < 0 then "-" ++ positiveToString (-q)
    else positiveToString q

/-! ## Values -/

/-- JavaScript values as this program meets them: the values of a parsed JSON
payload, and `undefined`. An object is the list of its own properties. -/
inductive JSVal where
  | undefined
  | null
  | bool (b : Bool)
  | num (n : JSNum)
  | str (s : String)
  | arr (xs : List JSVal)
  | obj (ps : List (String × JSVal))

/-- What a `throw` can carry in this program. -/
inductive Thrown where
  /-- A `TypeError` raised by the runtime. -/
  | typeError
  /-- The error with which the HTTP client rejects: its own message, and the
  `data` of `error.response` when a response was received. -/
  | requestError (message : String) (responseData : Option JSVal)
  /-- The value of `new Error(message)`. -/
  | error (message : String)

namespace JSVal

/-- The test `typeof v === 'number'`. -/
def isNumber : JSVal → Bool
  | num _ => true
  | _ => false

/-- The test `Array.isArray(v)`. -/
def isArray : JSVal → Bool
  | arr _ => true
  | _ => false

/-- Whether `v` is `undefined` or `null`. -/
def isNullish : JSVal → Bool
  | undefined => true
  | null => true
  | _ => false

/-- The conversion `ToBoolean`: `undefined`, `null`, `false`, `0`, `NaN` and
the empty string are falsy, every other value is truthy. -/
def truthy : JSVal → Bool
  | undefined => false
  | null => false
  | bool b => b
  | num .nan => false
  | num (.inf _) => true
  | num (.fin q) => decide (q ≠ 0)
  | str s => decide (s ≠ "")
  | arr _ => true
  | obj _ => true

/-- The operator `a || b`. -/
def or (a b : JSVal) : JSVal :=
  if a.truthy then a else b

end JSVal

/-- The first binding of `key` among the own properties `ps`. -/
def lookupKey (key : String) : List (String × JSVal) → Option JSVal
  | [] => none
  | (k, v) :: ps => if k = key then some v else lookupKey key ps

namespace JSVal

/-- The optional chain `v?.key`, for a key that no built-in prototype defines
(`TABLE_DATA`, `data`, `message` here): `undefined` when `v` is `undefined` or
`null`, the own property of an object, and `undefined` on every other value. -/
def optField (v : JSVal) (key : String) : JSVal :=
  match v with
  | obj ps => (lookupKey key ps).getD undefined
  | _ => undefined

/-- The element read `v[i]` for a non-negative integer `i`: the element of an
array, the one-character string of a string, the own property with the decimal
key of an object, `undefined` out of range and on numbers and booleans; the read
throws on `undefined` and `null`. -/
def getIndex (v : JSVal) (i : Nat) : Except Thrown JSVal :=
  match v with
  | undefined => .error .typeError
  | null => .error .typeError
  | arr xs => .ok (xs.getD i undefined)
  | str s => .ok (match s.toList.get? i with
      | some c => str (String.singleton c)
      | none => undefined)
  | obj ps => .ok ((lookupKey (Nat.repr i) ps).getD undefined)
  | _ => .ok undefined

end JSVal

/-- Whether the own properties `ps` include the key `toString`. -/
def hasOwnToString : List (String × JSVal) → Bool
  | [] => false
  | (k, _) :: ps => k == "toString" || hasOwnToString ps

mutual

/-- The conversion `String(v)` (the operation `ToString`). An array converts as
`join(',')` does. A plain object converts to `[object Object]` through the
inherited `toString`; an own property `toString` of a parsed payload is never
callable and the inherited `valueOf` returns the object itself, so that
conversion throws a `TypeError`. -/
def JSVal.toStr : JSVal → Except Thrown String
  | .undefined => .ok "undefined"
  | .null => .ok "null"
  | .bool b => .ok (if b then "true" else "false")
  | .num n => .ok (numberToString n)
  | .str s => .ok s
  | .arr xs =>
    match elemStrings xs with
    | .ok parts => .ok (",".intercalate parts)
    | .error e => .error e
  | .obj ps => if hasOwnToString ps then .error .typeError else .ok "[object Object]"
termination_by structural v => v

/-- The strings that `Array.prototype.join` puts together: the empty string
for an `undefined` or `null` element, `ToString` of every other element, in
order; the first conversion that throws ends the join. -/
def elemStrings : List JSVal → Except Thrown (List String)
  | [] => .ok []
  | x :: xs =>
    match (if x.isNullish then .ok "" else JSVal.toStr x) with
    | .error e => .error e
    | .ok a =>
      match elemStrings xs with
      | .error e => .error e
      | .ok parts => .ok (a :: parts)
termination_by structural xs => xs

end

mutual

/-- Structural equality test on values. -/
def JSVal.beq : JSVal → JSVal → Bool
  | .undefined, .undefined => true
  | .null, .null => true
  | .bool a, .bool b => a == b
  | .num a, .num b => decide (a = b)
  | .str a, .str b => decide (a = b)
  | .arr a, .arr b => beqList a b
  | .obj a, .obj b => beqProps a b
  | _, _ => false
termination_by structural a => a

/-- Structural equality test on lists of values. -/
def beqList : List JSVal → List JSVal → Bool
  | [], [] => true
  | x :: xs, y :: ys => x.beq y && beqList xs ys
  | _, _ => false
termination_by structural a => a

/-- Structural equality test on property lists. -/
def beqProps : List (String × JSVal) → List (String × JSVal) → Bool
  | [], [] => true
  | (k, x) :: xs, (l, y) :: ys => decide (k = l) && x.beq y && beqProps xs ys
  | _, _ => false
termination_by structural a => a

end

/-! ## `src/services/api.js` -/

/-- The record that `fetchEmployees` builds for one row. The four fields taken
with `row[i] || ''` keep whatever truthy value the row holds. -/
structure Employee where
  id : String
  name : JSVal
  position : JSVal
  city : JSVal
  startDate : JSVal
  salary : JSNum

/-- The call `s.replace(/[$,]/g, '')`: every `$` and every `,` removed. -/
def stripCurrency (s : String) : String :=
  String.mk (s.toList.filter fun c => c != '$' && c != ',')

/-- The function `parseSalary` of `api.js`. -/
def parseSalary (raw : JSVal) : Except Thrown JSNum :=
  match raw with
  | .num n => .ok n
  | _ =>
    if !raw.truthy then .ok (.fin 0)
    else do
      let cleaned := stripCurrency (← raw.toStr)
      let num := stringToNumber cleaned
      pure (if num.isNaN then .fin 0 else num)

/-- The callback that `fetchEmployees` maps over the rows. -/
def normalizeRow (row : JSVal) : Except Thrown Employee := do
  let id ← ((← row.getIndex 3).or (.str "")).toStr
  let name := (← row.getIndex 0).or (.str "")
  let position := (← row.getIndex 1).or (.str "")
  let city := (← row.getIndex 2).or (.str "")
  let startDate := (← row.getIndex 4).or (.str "")
  let salary ← parseSalary (← row.getIndex 5)
  pure { id, name, position, city, startDate, salary }

/-- The call `rows.map(callback)`: the records in row order; the first callback that
throws ends the map. -/
def mapRows : List JSVal → Except Thrown (List Employee)
  | [] => .ok []
  | row :: rows =>
    match normalizeRow row with
    | .error e => .error e
    | .ok r =>
      match mapRows rows with
      | .error e => .error e
      | .ok rs => .ok (r :: rs)

/-- How the awaited request of `fetchEmployees` settles: fulfilled with a
response whose `data` is the parsed body, or rejected with an error. -/
inductive HttpResult where
  | fulfilled (data : JSVal)
  | rejected (error : Thrown)

/-- The text `fetchEmployees` falls back on. -/
def fallbackMessage : String :=
  "Unable to load employee data. Please try again later."

/-- The `try` block of `fetchEmployees`. -/
def fetchEmployeesTry (r : HttpResult) : Except Thrown (List Employee) :=
  match r with
  | .rejected e => .error e
  | .fulfilled payload =>
    match (payload.optField "TABLE_DATA").optField "data" with
    | .arr rows => mapRows rows
    | _ => .ok []

/-- The chain `error.response?.data?.message` for a caught error. -/
def serverMessage : Thrown → JSVal
  | .requestError _ (some data) => data.optField "message"
  | _ => .undefined

/-- The `catch` block of `fetchEmployees`:
`throw new Error(error.response?.data?.message || fallback)`; the `Error`
constructor converts its argument with `ToString`. -/
def fetchEmployeesCatch (error : Thrown) : Except Thrown (List Employee) :=
  match ((serverMessage error).or (.str fallbackMessage)).toStr with
  | .ok message => .error (.error message)
  | .error e => .error e

/-- The function `fetchEmployees` of `api.js`, as a function of how its
request settles. -/
def fetchEmployees (r : HttpResult) : Except Thrown (List Employee) :=
  match fetchEmployeesTry r with
  | .ok records => .ok records
  | .error e => fetchEmployeesCatch e

/-! ## The camera controller of `src/pages/EmployeeDetails.jsx` -/

/-- State of the controller and of the media environment around it.

`cameraActive`, `cameraError`, `capturedImage` are the three `useState` cells,
`videoRef` tells whether `videoRef.current` is the mounted `<video>` element,
`streamRef` is `streamRef.current` (a stream is named by the number of the
grant that produced it). `mounted` tells whether the page is still mounted,
`pending` counts the `getUserMedia` requests not answered yet, `granted` the
streams handed out so far, and `live` lists the streams whose tracks run. -/
structure Camera where
  cameraActive : Bool
  cameraError : String
  capturedImage : Option String
  videoRef : Bool
  streamRef : Option Nat
  mounted : Bool
  pending : Nat
  granted : Nat
  live : List Nat
  deriving DecidableEq

namespace Camera

/-- The controller when the page mounts. -/
def initial : Camera :=
  { cameraActive := false, cameraError := "", capturedImage := none, videoRef := false,
    streamRef := none, mounted := true, pending := 0, granted := 0, live := [] }

/-- The setter `setCameraActive(b)`: a state setter of an unmounted component does
nothing. -/
def setCameraActive (b : Bool) (s : Camera) : Camera :=
  if s.mounted then { s with cameraActive := b } else s

/-- The setter `setCameraError(msg)`. -/
def setCameraError (msg : String) (s : Camera) : Camera :=
  if s.mounted then { s with cameraError := msg } else s

/-- The setter `setCapturedImage(img)`. -/
def setCapturedImage (img : Option String) (s : Camera) : Camera :=
  if s.mounted then { s with capturedImage := img } else s

/-- Truthiness of `capturedImage`, as the JSX tests it. -/
def hasImage (s : Camera) : Bool :=
  match s.capturedImage with
  | some url => decide (url ≠ "")
  | none => false

/-- The text `startCamera` records for a rejected request. -/
def cameraErrorMessage (name message : String) : String :=
  if name = "NotAllowedError" ∨ name = "PermissionDeniedError" then
    "Camera permission was denied. Please allow camera access in your browser settings and try again."
  else if name = "NotFoundError" then "No camera found on this device."
  else "Camera error: " ++ message

/-- The function `startCamera` up to its `await`: error and image are cleared and one
request is made. -/
def startCameraRequest (s : Camera) : Camera :=
  { setCapturedImage none (setCameraError "" s) with pending := s.pending + 1 }

/-- The function `startCamera` after its `await` when the request is granted: the new
stream, live, is stored in `streamRef.current` and the camera is set active. -/
def startCameraGranted (s : Camera) : Camera :=
  setCameraActive true
    { s with streamRef := some s.granted, granted := s.granted + 1,
             live := s.live ++ [s.granted], pending := s.pending - 1 }

/-- The function `startCamera` after its `await` when the request is rejected. -/
def startCameraRejected (name message : String) (s : Camera) : Camera :=
  setCameraError (cameraErrorMessage name message) { s with pending := s.pending - 1 }

/-- The function `stopCamera`. -/
def stopCamera (s : Camera) : Camera :=
  setCameraActive false
    (match s.streamRef with
     | some id => { s with live := s.live.filter (fun j => j != id), streamRef := none }
     | none => s)

/-- The call `canvas.toDataURL('image/png')`: a data URL around the encoded
frame. -/
def toDataURL (frame : String) : String :=
  "data:" ++ frame

/-- The function `capturePhoto`; `frame` is what the canvas encodes. -/
def capturePhoto (frame : String) (s : Camera) : Camera :=
  if !s.videoRef then s
  else stopCamera (setCapturedImage (some (toDataURL frame)) s)

/-- The function `retake`. -/
def retake (s : Camera) : Camera :=
  startCameraRequest (setCapturedImage none s)

/-- The cleanup of the mount effect, run when the page is left. -/
def unmount (s : Camera) : Camera :=
  { stopCamera s with mounted := false, videoRef := false }

/-- The render that follows an event: the `<video>` element is mounted exactly
when `cameraActive && !capturedImage`. -/
def commit (s : Camera) : Camera :=
  if s.mounted then { s with videoRef := s.cameraActive && !s.hasImage } else s

end Camera

/-- User actions and media events on the employee-details page. -/
inductive CameraEvent where
  | clickOpenCamera
  | clickCapture (frame : String)
  | clickCancel
  | clickRetake
  | leavePage
  | streamGranted
  | streamDenied (name message : String)
  deriving DecidableEq

namespace Camera

/-- Whether the event can happen: a button can be clicked when the JSX renders
it, a request can be answered when one is pending. -/
def enabled (s : Camera) : CameraEvent → Bool
  | .clickOpenCamera => s.mounted && !s.cameraActive && !s.hasImage
  | .clickCapture _ => s.mounted && s.cameraActive && !s.hasImage
  | .clickCancel => s.mounted && s.cameraActive && !s.hasImage
  | .clickRetake => s.mounted && s.hasImage
  | .leavePage => s.mounted
  | .streamGranted => decide (0 < s.pending)
  | .streamDenied _ _ => decide (0 < s.pending)

/-- The handler bound to each event. -/
def handle (s : Camera) : CameraEvent → Camera
  | .clickOpenCamera => startCameraRequest s
  | .clickCapture frame => capturePhoto frame s
  | .clickCancel => stopCamera s
  | .clickRetake => retake s
  | .leavePage => unmount s
  | .streamGranted => startCameraGranted s
  | .streamDenied name message => startCameraRejected name message s

/-- One event, when it can happen: its handler, then the render. -/
def step (s : Camera) (e : CameraEvent) : Option Camera :=
  if s.enabled e then some (commit (s.handle e)) else none

/-- A sequence of events from a state. -/
def run : Camera → List CameraEvent → Option Camera
  | s, [] => some s
  | s, e :: es =>
    match s.step e with
    | some t => run t es
    | none => none

end Camera

/-! ## Vocabulary of the statements -/

mutual

/-- Whether `String(v)` can be computed: neither `v` nor, through arrays, an
element of `v` is an object with an own property `toString`. -/
def JSVal.convertible : JSVal → Bool
  | .arr xs => convertibleList xs
  | .obj ps => !hasOwnToString ps
  | _ => true
termination_by structural v => v

/-- Every value of the list is convertible. -/
def convertibleList : List JSVal → Bool
  | [] => true
  | x :: xs => x.convertible && convertibleList xs
termination_by structural xs => xs

end

/-- A payload of the documented shape, `{ TABLE_DATA: { data: rows } }`. -/
def tablePayload (rows : List JSVal) : JSVal :=
  .obj [("TABLE_DATA", .obj [("data", .arr rows)])]

/-- Position `i` of a row given by its fields, `undefined` past the end. -/
def fieldOf (fields : List JSVal) (i : Nat) : JSVal :=
  fields.getD i .undefined

/-- A falsy value (`undefined`, `null`, `''`, `0`, `NaN`, `false`) becomes the
empty string, every other value is kept. -/
def blankIfFalsy (v : JSVal) : JSVal :=
  if v.truthy then v else .str ""

/-- The record described for a row, in the words of the statement: `name`,
`position`, `city`, `startDate` are positions 0, 1, 2 and 4 with falsy values
blanked, `id` is the string form of position 3 blanked likewise, `salary` is
`parseSalary` of position 5. -/
def RecordOfRow (fields : List JSVal) (r : Employee) : Prop :=
  JSVal.toStr (blankIfFalsy (fieldOf fields 3)) = .ok r.id
    ∧ r.name = blankIfFalsy (fieldOf fields 0)
    ∧ r.position = blankIfFalsy (fieldOf fields 1)
    ∧ r.city = blankIfFalsy (fieldOf fields 2)
    ∧ r.startDate = blankIfFalsy (fieldOf fields 4)
    ∧ parseSalary (fieldOf fields 5) = .ok r.salary

/-- Position `i` of an element of the rows array, whatever the element is:
`row[i]`, and `undefined` where that read throws. -/
def rowField (row : JSVal) (i : Nat) : JSVal :=
  match row.getIndex i with
  | .ok v => v
  | .error _ => .undefined

/-- What every reachable state of the controller satisfies: the `<video>`
element is mounted exactly while the page is mounted, the camera is active and
no image is shown; and an active camera holds a stream. -/
def CameraInvariant (s : Camera) : Prop :=
  s.videoRef = (s.mounted && s.cameraActive && !s.hasImage)
    ∧ (s.mounted = true → s.cameraActive = true → s.streamRef.isSome = true)

/-- Whether the event is the answer to a stream request (a grant or a
denial), as opposed to a user action. -/
def CameraEvent.isAnswer : CameraEvent → Bool
  | .streamGranted => true
  | .streamDenied _ _ => true
  | _ => false

/-- The requesting situation that follows `retake`: no captured image, no
error, camera not active, and a stream request pending. -/
def Requesting (s : Camera) : Prop :=
  s.capturedImage = none ∧ s.cameraError = "" ∧ s.cameraActive = false ∧ 0 < s.pending

/-! ## The auth store of `src/context/AuthContext.jsx` -/

/-- The user name that `login` accepts. -/
def VALID_USERNAME : String := "testuser"

/-- The password that `login` accepts. -/
def VALID_PASSWORD : String := "Test123"

/-- State of the auth store: the `useState` cell `authenticated` (exposed as
`isAuthenticated`) and the value that `sessionStorage` holds under
`SESSION_KEY`, `none` when the key is absent. -/
structure AuthState where
  authenticated : Bool
  session : Option String
  deriving DecidableEq

/-- What `login` returns: `{ success: true }` or `{ success: false, message }`. -/
structure LoginResult where
  success : Bool
  message : Option String
  deriving DecidableEq

/-- The initial state of `AuthProvider`: the persisted value is read once and
compared with `'true'`. -/
def AuthState.init (stored : Option String) : AuthState :=
  { authenticated := decide (stored = some "true"), session := stored }

/-- The function `login` of the auth store: its result and the state it
leaves. -/
def login (username password : String) (s : AuthState) : LoginResult × AuthState :=
  if username = VALID_USERNAME ∧ password = VALID_PASSWORD then
    ({ success := true, message := none }, { authenticated := true, session := some "true" })
  else
    ({ success := false, message := some "Invalid username or password. Please try again." }, s)

/-- The function `logout` of the auth store. -/
def logout (_s : AuthState) : AuthState :=
  { authenticated := false, session := none }

/-- A call on the auth store. -/
inductive AuthCall where
  | login (username password : String)
  | logout
  deriving DecidableEq

/-- The state after one call. -/
def AuthState.call (s : AuthState) : AuthCall → AuthState
  | .login username password => (login username password s).2
  | .logout => logout s

/-- The state after a sequence of calls. -/
def AuthState.calls (s : AuthState) (cs : List AuthCall) : AuthState :=
  cs.foldl AuthState.call s

/-! ## The routes of `src/App.jsx` and `src/components/ProtectedRoute.jsx` -/

/-- The page components. -/
inductive Page where
  | login
  | dashboard
  | employeeDetails
  | photoResult
  | salaryChart
  | cityMap
  deriving DecidableEq

/-- What a route element renders: a page, or `<Navigate to=... replace />`. -/
inductive Rendered where
  | page (p : Page)
  | navigate (target : String)
  deriving DecidableEq

/-- The segments of a path, split at every `/`. -/
def splitSlash : List Char → List (List Char)
  | [] => [[]]
  | c :: cs =>
    if c = '/' then [] :: splitSlash cs
    else
      match splitSlash cs with
      | seg :: rest => (c :: seg) :: rest
      | [] => [[c]]

/-- Removal of the empty segments that trailing slashes leave. -/
def dropTrailingEmpty (segs : List (List Char)) : List (List Char) :=
  (segs.reverse.dropWhile fun seg => seg.isEmpty).reverse

/-- Lower-casing of the letters `A` to `Z`. -/
def asciiLower (cs : List Char) : List Char :=
  cs.map Char.toLower

/-- Whether one segment of a pattern matches one segment of a path: a
parameter such as `:id` matches any non-empty segment, a literal segment
matches itself whatever the case of its letters. -/
def segmentMatches (pattern seg : List Char) : Bool :=
  match pattern with
  | ':' :: _ => !seg.isEmpty
  | _ => asciiLower pattern == asciiLower seg

/-- Whether all segments match, one by one. -/
def segmentsMatch : List (List Char) → List (List Char) → Bool
  | [], [] => true
  | p :: ps, s :: ss => segmentMatches p s && segmentsMatch ps ss
  | _, _ => false

/-- The path matching of the router, as react-router documents it: the
pattern `*` matches every path; any other pattern matches a path that has the
same segments, compared without regard to the case of letters, trailing
slashes put aside. -/
def matchPath (pattern path : String) : Bool :=
  if pattern = "*" then true
  else
    segmentsMatch (dropTrailingEmpty (splitSlash pattern.toList))
      (dropTrailingEmpty (splitSlash path.toList))

/-- The component `ProtectedRoute`. -/
def ProtectedRoute (isAuthenticated : Bool) (children : Rendered) : Rendered :=
  if !isAuthenticated then .navigate "/login" else children

/-- The route table of `App`: each pattern with its element. -/
def routes (isAuthenticated : Bool) : List (String × Rendered) :=
  [("/login", .page .login),
   ("/dashboard", ProtectedRoute isAuthenticated (.page .dashboard)),
   ("/employee/:id", ProtectedRoute isAuthenticated (.page .employeeDetails)),
   ("/photo-result", ProtectedRoute isAuthenticated (.page .photoResult)),
   ("/salary-chart", ProtectedRoute isAuthenticated (.page .salaryChart)),
   ("/city-map", ProtectedRoute isAuthenticated (.page .cityMap)),
   ("*", .navigate "/login")]

/-- The element of the first route of the table whose pattern matches. -/
def firstMatch (path : String) : List (String × Rendered) → Option Rendered
  | [] => none
  | (pattern, element) :: rest =>
    if matchPath pattern path then some element else firstMatch path rest

/-- What `App` renders at a path. The patterns of the table exclude one
another, the catch-all apart, which ranks last: the route react-router picks is
the first that matches. -/
def App (isAuthenticated : Bool) (path : String) : Rendered :=
  (firstMatch path (routes isAuthenticated)).getD (.navigate "/login")

/-! ## The list view of `src/pages/Dashboard.jsx`

`String.prototype.toLowerCase` follows the Unicode case mappings, which are not
modelled: the functions that call it take it as the parameter `toLowerCase`.
`asciiLowerCase` is its restriction to the letters `A` to `Z`, with which it
agrees on every string of ASCII characters. -/

/-- Lower-casing of the letters `A` to `Z` of a string. -/
def asciiLowerCase (s : String) : String :=
  String.mk (asciiLower s.toList)

namespace JSVal

/-- The test `typeof v === 'string'`. -/
def isString : JSVal → Bool
  | str _ => true
  | _ => false

/-- The characters of a string value (the empty string for any other value). -/
def asString : JSVal → String
  | str s => s
  | _ => ""

/-- The method call `v.toLowerCase()`: only a string has the method, on any
other value the call throws a `TypeError`. -/
def callToLowerCase (toLowerCase : String → String) : JSVal → Except Thrown String
  | str s => .ok (toLowerCase s)
  | _ => .error .typeError

end JSVal

/-- The method `s.includes(t)`: whether `t` occurs in `s` as a substring. -/
def includes (s t : String) : Bool :=
  decide (t.toList <:+: s.toList)

/-- The call `array.map(f)` for a callback that may throw: the results in order;
the first call that throws ends the map. -/
def mapThrowing {α β : Type} (f : α → Except Thrown β) : List α → Except Thrown (List β)
  | [] => .ok []
  | a :: l =>
    match f a with
    | .error e => .error e
    | .ok b =>
      match mapThrowing f l with
      | .error e => .error e
      | .ok bs => .ok (b :: bs)

/-- The call `array.filter(f)` for a callback that may throw: the elements
kept, in order; the first call that throws ends the filter. -/
def filterThrowing {α : Type} (f : α → Except Thrown Bool) : List α → Except Thrown (List α)
  | [] => .ok []
  | a :: l =>
    match f a with
    | .error e => .error e
    | .ok keep =>
      match filterThrowing f l with
      | .error e => .error e
      | .ok kept => .ok (if keep then a :: kept else kept)

/-- The elements of `new Set(xs)` in insertion order: each value once, at its
first occurrence. -/
def distinct : List String → List String
  | [] => []
  | x :: xs => x :: (distinct xs).filter fun y => y != x

/-- The UTF-16 code units of a character: one for a character below `U+10000`,
else a surrogate pair. -/
def utf16Units (c : Char) : List Nat :=
  if c.toNat < 0x10000 then [c.toNat]
  else [0xD800 + (c.toNat - 0x10000) / 0x400, 0xDC00 + (c.toNat - 0x10000) % 0x400]

/-- The UTF-16 code units of a string, which are what JavaScript compares. -/
def codeUnits (s : String) : List Nat :=
  (s.toList.map utf16Units).flatten

/-- Whether the code units `a` come no later than `b` in lexicographic order; a
proper prefix comes first. -/
def unitsLe : List Nat → List Nat → Bool
  | [], _ => true
  | _ :: _, [] => false
  | x :: xs, y :: ys => if x < y then true else if y < x then false else unitsLe xs ys

/-- The order of the default `sort` on strings: `a` comes no later than `b`. -/
def codeUnitLe (a b : String) : Prop :=
  unitsLe (codeUnits a) (codeUnits b) = true

instance : DecidableRel codeUnitLe :=
  fun a b => inferInstanceAs (Decidable (unitsLe (codeUnits a) (codeUnits b) = true))

/-- The memo `cities` of the dashboard:
`[...new Set(employees.map(e => (e.city || '').toLowerCase()))].filter(Boolean).sort()`.
The default `sort` orders strings by their code units; it is stable, so that
its result is the one that insertion sort computes. -/
def cities (toLowerCase : String → String) (employees : List Employee) :
    Except Thrown (List String) :=
  match mapThrowing (fun e => (e.city.or (.str "")).callToLowerCase toLowerCase) employees with
  | .error e => .error e
  | .ok lowered =>
    .ok (List.insertionSort codeUnitLe ((distinct lowered).filter fun c => c != ""))

/-- The sign of `Number(a) - Number(b)` as `sort` reads it: `-1`, `0` or `1`,
a `NaN` difference counting as `0`. The difference of two doubles rounds to a
double of the same sign, so the sign is that of the exact difference. -/
def JSNum.diffSign : JSNum → JSNum → ℤ
  | .nan, _ => 0
  | _, .nan => 0
  | .inf n, .inf m => if n = m then 0 else if n then -1 else 1
  | .inf n, .fin _ => if n then -1 else 1
  | .fin _, .inf m => if m then 1 else -1
  | .fin x, .fin y => if x < y then -1 else if y < x then 1 else 0

/-- The order that `sort((a, b) => Number(a.salary) - Number(b.salary))`
sorts by: `a` may stand before `b` unless the comparator is positive. -/
def salaryAscending (a b : Employee) : Prop :=
  JSNum.diffSign a.salary b.salary ≤ 0

/-- The order that `sort((a, b) => Number(b.salary) - Number(a.salary))`
sorts by. -/
def salaryDescending (a b : Employee) : Prop :=
  JSNum.diffSign b.salary a.salary ≤ 0

instance : DecidableRel salaryAscending := fun a b =>
  inferInstanceAs (Decidable (JSNum.diffSign a.salary b.salary ≤ 0))

instance : DecidableRel salaryDescending := fun a b =>
  inferInstanceAs (Decidable (JSNum.diffSign b.salary a.salary ≤ 0))

/-- The text search of `displayedEmployees`: skipped for an empty term,
otherwise the employees whose lower-cased name includes the lower-cased term. -/
def searchFilter (toLowerCase : String → String) (searchTerm : String)
    (result : List Employee) : Except Thrown (List Employee) :=
  if searchTerm = "" then .ok result
  else
    filterThrowing (fun e =>
      match (e.name.or (.str "")).callToLowerCase toLowerCase with
      | .error x => .error x
      | .ok name => .ok (includes name (toLowerCase searchTerm))) result

/-- The city filter of `displayedEmployees`: skipped for an empty selection,
otherwise the employees whose lower-cased city is the selected value. -/
def cityFilterStep (toLowerCase : String → String) (cityFilter : String)
    (result : List Employee) : Except Thrown (List Employee) :=
  if cityFilter = "" then .ok result
  else
    filterThrowing (fun e =>
      match (e.city.or (.str "")).callToLowerCase toLowerCase with
      | .error x => .error x
      | .ok city => .ok (decide (city = cityFilter))) result

/-- The salary sort of `displayedEmployees`. `Array.prototype.sort` is stable
and, for a consistent comparator, returns the one stable sorted arrangement,
which insertion sort computes. -/
def salarySort (sortDirection : String) (result : List Employee) : List Employee :=
  if sortDirection = "asc" then List.insertionSort salaryAscending result
  else if sortDirection = "desc" then List.insertionSort salaryDescending result
  else result

/-- The memo `displayedEmployees` of the dashboard: search, then city filter,
then sort, on a copy of `employees`. -/
def displayedEmployees (toLowerCase : String → String) (employees : List Employee)
    (searchTerm cityFilter sortDirection : String) : Except Thrown (List Employee) :=
  match searchFilter toLowerCase searchTerm employees with
  | .error e => .error e
  | .ok found =>
    match cityFilterStep toLowerCase cityFilter found with
    | .error e => .error e
    | .ok inCity => .ok (salarySort sortDirection inCity)

/-- The function `toggleSort`: none, then ascending, then descending, then
none. -/
def toggleSort (prev : String) : String :=
  if prev = "" then "asc" else if prev = "asc" then "desc" else ""

/-- An employee with the given name, city and salary and otherwise empty
fields. -/
def employeeWith (name city : String) (salary : ℚ) : Employee :=
  { id := "", name := .str name, position := .str "", city := .str city,
    startDate := .str "", salary := .fin salary }

/-- The comparison `a <= b` of JavaScript numbers (false when either is
`NaN`). -/
def JSNum.le : JSNum → JSNum → Bool
  | .nan, _ => false
  | _, .nan => false
  | .inf n, .inf m => n || !m
  | .inf n, .fin _ => n
  | .fin _, .inf m => !m
  | .fin x, .fin y => decide (x ≤ y)

/-- Whether the employee passes the search, in the words of the statement: the
term is empty, or the name contains it as a substring, both lower-cased. -/
def matchesSearch (toLowerCase : String → String) (searchTerm : String) (e : Employee) :
    Bool :=
  decide (searchTerm = "") || includes (toLowerCase e.name.asString) (toLowerCase searchTerm)

/-- Whether the employee passes the city selection, in the words of the
statement: nothing is selected, or the lower-cased city is the selected option
(an option of the control is the lower-cased form of a city). -/
def matchesCity (toLowerCase : String → String) (cityFilter : String) (e : Employee) :
    Bool :=
  decide (cityFilter = "") || decide (toLowerCase e.city.asString = cityFilter)

/-! ## The summary statistics of `src/pages/Dashboard.jsx` -/

/-- The value of `Number(x) || 0` for a number `x`: `0` in place of `NaN`. -/
def numberOrZero (n : JSNum) : JSNum :=
  if (JSVal.num n).truthy then n else .fin 0

/-- The sum `a + b` of two numbers: exact, then rounded to a double. -/
def JSNum.add : JSNum → JSNum → JSNum
  | .nan, _ => .nan
  | _, .nan => .nan
  | .inf n, .inf m => if n = m then .inf n else .nan
  | .inf n, .fin _ => .inf n
  | .fin _, .inf m => .inf m
  | .fin x, .fin y => toDouble (x + y)

/-- The quotient `x / n` of a number by the length `n` of an array: exact,
then rounded to a double. -/
def JSNum.divCount (x : JSNum) (n : Nat) : JSNum :=
  match x with
  | .nan => .nan
  | .inf s => .inf s
  | .fin q => if n = 0 then (if q = 0 then .nan else .inf (decide (q < 0))) else toDouble (q / n)

/-- The function `Math.round`: the nearest integer, a tie going up. -/
def mathRound : JSNum → JSNum
  | .nan => .nan
  | .inf s => .inf s
  | .fin q => .fin ⌊q + 1 / 2⌋

/-- The larger of two numbers as `Math.max` takes it: `NaN` if either is. -/
def JSNum.max2 (a b : JSNum) : JSNum :=
  match a, b with
  | .nan, _ => .nan
  | _, .nan => .nan
  | a, b => if JSNum.le a b then b else a

/-- The call `Math.max(...xs)`: `-Infinity` for no argument. -/
def mathMax (xs : List JSNum) : JSNum :=
  xs.foldl JSNum.max2 (.inf true)

/-- The three summary figures. -/
structure Stats where
  total : Nat
  avg : JSNum
  max : JSNum
  deriving DecidableEq

/-- The memo `stats` of the dashboard, computed from `employees` alone. -/
def stats (employees : List Employee) : Stats :=
  if employees.length = 0 then { total := 0, avg := .fin 0, max := .fin 0 }
  else
    let salaries := employees.map fun e => numberOrZero e.salary
    { total := employees.length
      avg := mathRound ((salaries.foldl JSNum.add (.fin 0)).divCount salaries.length)
      max := mathMax salaries }

/-- The summary cards of a render of the dashboard with the given controls:
the memo `stats` depends on `employees` only, so the controls do not enter. -/
def summaryCards (employees : List Employee) (_searchTerm _cityFilter _sortDirection : String) :
    Stats :=
  stats employees

/-! ## The city coordinates of `src/utils/cityCoordinates.js` and the markers of `src/pages/CityMap.jsx` -/

/-- What the read `CITY_COORDS[key] || DEFAULT_COORDS` can yield: one of the
coordinate objects written in the file, or a member that the table inherits
from `Object.prototype` (a function, or the prototype object itself). -/
inductive Coords where
  | point (lat lng : JSNum)
  | inherited (key : String)
  deriving DecidableEq

/-- The property `coords.lat`; `none` stands for `undefined`. -/
def Coords.lat : Coords → Option JSNum
  | .point lat _ => some lat
  | .inherited _ => none

/-- The property `coords.lng`; `none` stands for `undefined`. -/
def Coords.lng : Coords → Option JSNum
  | .point _ lng => some lng
  | .inherited _ => none

/-- The own properties of the object literal `CITY_COORDS`, in source order;
a decimal literal denotes the double nearest to it. -/
def CITY_COORDS : List (String × Coords) :=
  [ ("edinburgh", .point (toDouble 55.9533) (toDouble (-3.1883))),
    ("tokyo", .point (toDouble 35.6762) (toDouble 139.6503)),
    ("san francisco", .point (toDouble 37.7749) (toDouble (-122.4194))),
    ("london", .point (toDouble 51.5074) (toDouble (-0.1278))),
    ("new york", .point (toDouble 40.7128) (toDouble (-74.0060))),
    ("singapore", .point (toDouble 1.3521) (toDouble 103.8198)),
    ("sydney", .point (toDouble (-33.8688)) (toDouble 151.2093)),
    ("mumbai", .point (toDouble 19.0760) (toDouble 72.8777)),
    ("delhi", .point (toDouble 28.7041) (toDouble 77.1025)),
    ("new delhi", .point (toDouble 28.6139) (toDouble 77.2090)),
    ("bangalore", .point (toDouble 12.9716) (toDouble 77.5946)),
    ("bengaluru", .point (toDouble 12.9716) (toDouble 77.5946)),
    ("hyderabad", .point (toDouble 17.3850) (toDouble 78.4867)),
    ("ahmedabad", .point (toDouble 23.0225) (toDouble 72.5714)),
    ("chennai", .point (toDouble 13.0827) (toDouble 80.2707)),
    ("kolkata", .point (toDouble 22.5726) (toDouble 88.3639)),
    ("pune", .point (toDouble 18.5204) (toDouble 73.8567)),
    ("jaipur", .point (toDouble 26.9124) (toDouble 75.7873)),
    ("surat", .point (toDouble 21.1702) (toDouble 72.8311)),
    ("lucknow", .point (toDouble 26.8467) (toDouble 80.9462)),
    ("kanpur", .point (toDouble 26.4499) (toDouble 80.3319)),
    ("nagpur", .point (toDouble 21.1458) (toDouble 79.0882)),
    ("indore", .point (toDouble 22.7196) (toDouble 75.8577)),
    ("bhopal", .point (toDouble 23.2599) (toDouble 77.4126)),
    ("noida", .point (toDouble 28.5355) (toDouble 77.3910)),
    ("gurgaon", .point (toDouble 28.4595) (toDouble 77.0266)),
    ("gurugram", .point (toDouble 28.4595) (toDouble 77.0266)),
    ("chandigarh", .point (toDouble 30.7333) (toDouble 76.7794)),
    ("kochi", .point (toDouble 9.9312) (toDouble 76.2673)) ]

/-- The coordinate `DEFAULT_COORDS` for cities the table does not list. -/
def DEFAULT_COORDS : Coords := .point (toDouble 30.0) (toDouble 10.0)

/-- The property names every object literal inherits from `Object.prototype`:
each holds a function, and `__proto__` the prototype object itself, so each
value is truthy. -/
def OBJECT_PROTOTYPE_KEYS : List String :=
  [ "constructor", "__defineGetter__", "__defineSetter__", "hasOwnProperty",
    "__lookupGetter__", "__lookupSetter__", "isPrototypeOf", "propertyIsEnumerable",
    "toString", "valueOf", "__proto__", "toLocaleString" ]

/-- The read `CITY_COORDS[key]`: an own property of the table if there is one,
else an inherited one; `none` stands for `undefined`. -/
def cityCoordsGet (key : String) : Option Coords :=
  match CITY_COORDS.lookup key with
  | some c => some c
  | none => if key ∈ OBJECT_PROTOTYPE_KEYS then some (.inherited key) else none

/-- The function `getCityCoords`. A falsy name gives the default; a truthy value
that is not a string has no method `trim`, so the call throws a `TypeError`;
whatever the table read yields is an object or a function, hence truthy, and
is returned in place of the default. -/
def getCityCoords (toLowerCase : String → String) (cityName : JSVal) : Except Thrown Coords :=
  if !cityName.truthy then .ok DEFAULT_COORDS
  else
    match cityName with
    | .str s =>
      let key := toLowerCase (String.mk (trimWhiteSpace s.toList))
      .ok ((cityCoordsGet key).getD DEFAULT_COORDS)
    | _ => .error .typeError

/-- A marker of the map: the record together with the `lat` and `lng` that
were read off the coordinate; `none` stands for `undefined`. -/
structure Marker where
  employee : Employee
  lat : Option JSNum
  lng : Option JSNum

/-- The array `markers` of the map page: the records with a truthy city, each
with the coordinates looked up for its city. -/
def markers (toLowerCase : String → String) (employees : List Employee) :
    Except Thrown (List Marker) :=
  mapThrowing
    (fun emp =>
      match getCityCoords toLowerCase emp.city with
      | .error e => .error e
      | .ok coords => .ok { employee := emp, lat := coords.lat, lng := coords.lng })
    (employees.filter fun emp => emp.city.truthy)

/-! ## The fetching page views: `Dashboard.jsx`, `SalaryChart.jsx`, `CityMap.jsx` -/

/-- The property `err.message` of a caught value. The text of a `TypeError` is
chosen by the engine; it is passed in as `typeErrorText`. -/
def Thrown.message (typeErrorText : String) : Thrown → String
  | .typeError => typeErrorText
  | .requestError message _ => message
  | .error message => message

/-- The state of a page view that fetches: its three `useState` cells
`employees`, `loading` and `error`, and the flag `cancelled` that the closure
of its effect holds. -/
structure PageView where
  employees : List Employee
  loading : Bool
  error : String
  cancelled : Bool

namespace PageView

/-- The view as it is mounted: `useState([])`, `useState(true)`,
`useState('')` and `let cancelled = false`. -/
def initial : PageView :=
  { employees := [], loading := true, error := "", cancelled := false }

/-- The cleanup of the effect, run when the view is left:
`() => { cancelled = true; }`. -/
def cleanup (v : PageView) : PageView :=
  { v with cancelled := true }

/-- The rest of `load` once `await fetchEmployees()` has settled with
`outcome`: the `try`, `catch` and `finally` blocks, each guarded by
`!cancelled`. The view stores `keep data` of the data it receives. -/
def load (keep : List Employee → List Employee) (typeErrorText : String)
    (outcome : Except Thrown (List Employee)) (v : PageView) : PageView :=
  let settled :=
    match outcome with
    | .ok data => if !v.cancelled then { v with employees := keep data } else v
    | .error err => if !v.cancelled then { v with error := err.message typeErrorText } else v
  if !settled.cancelled then { settled with loading := false } else settled

end PageView

/-- The effect of the dashboard: `setEmployees(data)`. -/
def Dashboard.load : String → Except Thrown (List Employee) → PageView → PageView :=
  PageView.load fun data => data

/-- The effect of the salary chart: `setEmployees(data.slice(0, 10))`. -/
def SalaryChart.load : String → Except Thrown (List Employee) → PageView → PageView :=
  PageView.load fun data => data.take 10

/-- The effect of the city map: `setEmployees(data)`. -/
def CityMap.load : String → Except Thrown (List Employee) → PageView → PageView :=
  PageView.load fun data => data

/-- What a fetching page shows. -/
inductive Screen where
  | spinner
  | errorWithRetry (text : String)
  | content (employees : List Employee)

/-- The guards of a fetching page: the spinner while `loading`, the error text
with the Retry button when `error` is truthy, that is, not the empty string,
else the normal view of `employees`. -/
def PageView.render (v : PageView) : Screen :=
  if v.loading then .spinner
  else if v.error ≠ "" then .errorWithRetry v.error
  else .content v.employees

/-! ## The chart series of `src/pages/SalaryChart.jsx` -/

/-- A point of the series: `{ name, salary }`. -/
structure ChartPoint where
  name : String
  salary : JSNum
  deriving DecidableEq

/-- The part of `s` before its first space character, `s.split(' ')[0]`. -/
def splitSpaceFirst (s : String) : String :=
  String.mk (s.toList.takeWhile fun c => c != ' ')

/-- The label `emp.name?.split(' ')[0] || 'N/A'`. The optional call yields
`undefined` for a nullish name; a string is split at its space characters; any
other value has no method `split`, so the call throws a `TypeError`. -/
def chartLabel : JSVal → Except Thrown String
  | .undefined => .ok "N/A"
  | .null => .ok "N/A"
  | .str s => .ok (if splitSpaceFirst s = "" then "N/A" else splitSpaceFirst s)
  | _ => .error .typeError

/-- The array `chartData`: one point for each stored employee. -/
def chartData (employees : List Employee) : Except Thrown (List ChartPoint) :=
  mapThrowing
    (fun emp =>
      match chartLabel emp.name with
      | .error e => .error e
      | .ok label => .ok { name := label, salary := numberOrZero emp.salary })
    employees

/-- The state of the salary chart page: the fetching view and the cell
`chartType`. -/
structure SalaryChartView where
  page : PageView
  chartType : String

/-- The buttons `Bar Chart` and `Pie Chart`: `setChartType(t)`. -/
def SalaryChartView.setChartType (t : String) (v : SalaryChartView) : SalaryChartView :=
  { v with chartType := t }

/-- The series that the rendering of either type is given: `data={chartData}`
in `BarChart` and in `Pie` alike. -/
def SalaryChartView.series (v : SalaryChartView) : Except Thrown (List ChartPoint) :=
  chartData v.page.employees

/-- The first whitespace-delimited token of a string, in the words of the
statement: leading white space skipped, then the characters up to the next
white space. -/
def firstToken (s : String) : String :=
  String.mk ((s.toList.dropWhile isStrWhiteSpaceChar).takeWhile fun c => !isStrWhiteSpaceChar c)

/-! ## The function `titleCase` of `src/utils/formatters.js` -/

/-- The class `\w` of a regular expression without the `u` flag: the letters
`A` to `Z` and `a` to `z`, the digits and the underscore. -/
def isWordChar (c : Char) : Bool :=
  ('a' ≤ c && c ≤ 'z') || ('A' ≤ c && c ≤ 'Z') || ('0' ≤ c && c ≤ '9') || c == '_'

/-- The call `.replace(/\b\w/g, (char) => char.toUpperCase())` on the characters
that follow a character which is a word character or not, as `prevWord` tells:
`\b\w` matches a word character that does not follow a word character, and the
upper-case form of a word character is that of its ASCII letter. -/
def capitalizeFrom (prevWord : Bool) : List Char → List Char
  | [] => []
  | c :: cs =>
    (if isWordChar c && !prevWord then c.toUpper else c) :: capitalizeFrom (isWordChar c) cs

/-- The function `titleCase`. A falsy argument gives the empty string; a truthy
value that is not a string has no method `toLowerCase`, so the call throws. -/
def titleCase (toLowerCase : String → String) (str : JSVal) : Except Thrown String :=
  if !str.truthy then .ok ""
  else
    match str with
    | .str s => .ok (String.mk (capitalizeFrom false (toLowerCase s).toList))
    | _ => .error .typeError

/-! ## The login form of `src/pages/Login.jsx` -/

/-- The method `s.trim()`: white space and line terminators removed at both
ends. -/
def jsTrim (s : String) : String :=
  String.mk (trimWhiteSpace s.toList)

/-- What a submit of the login form does: whether `login` of the auth store
was called, the error the form shows afterwards (`setError('')` comes first),
whether it navigates to `/dashboard`, and the state of the auth store. -/
structure Submitted where
  loginCalled : Bool
  error : String
  navigated : Bool
  auth : AuthState
  deriving DecidableEq

/-- The function `handleSubmit` for the values `username` and `password` of the
two fields. -/
def handleSubmit (username password : String) (s : AuthState) : Submitted :=
  if jsTrim username = "" ∨ jsTrim password = "" then
    { loginCalled := false, error := "Please fill in both fields.", navigated := false,
      auth := s }
  else
    let result := login (jsTrim username) password s
    if result.1.success then
      { loginCalled := true, error := "", navigated := true, auth := result.2 }
    else
      { loginCalled := true, error := result.1.message.getD "", navigated := false,
        auth := result.2 }

/-! # Theorems -/

/-! ## Decidable equality of values -/

mutual

theorem JSVal.eq_of_beq : ∀ a b : JSVal, a.beq b = true → a = b
  | .undefined, b, h => by cases b <;> simp [JSVal.beq] at h ⊢
  | .null, b, h => by cases b <;> simp [JSVal.beq] at h ⊢
  | .bool x, b, h => by cases b <;> simp [JSVal.beq] at h ⊢; exact h
  | .num x, b, h => by cases b <;> simp [JSVal.beq] at h ⊢; exact h
  | .str x, b, h => by cases b <;> simp [JSVal.beq] at h ⊢; exact h
  | .arr xs, .arr ys, h => by
    simp only [JSVal.beq] at h; rw [eq_of_beqList xs ys h]
  | .arr _, .undefined, h | .arr _, .null, h | .arr _, .bool _, h | .arr _, .num _, h
  | .arr _, .str _, h | .arr _, .obj _, h => by simp [JSVal.beq] at h
  | .obj xs, .obj ys, h => by
    simp only [JSVal.beq] at h; rw [eq_of_beqProps xs ys h]
  | .obj _, .undefined, h | .obj _, .null, h | .obj _, .bool _, h | .obj _, .num _, h
  | .obj _, .str _, h | .obj _, .arr _, h => by simp [JSVal.beq] at h

theorem eq_of_beqList : ∀ a b : List JSVal, beqList a b = true → a = b
  | [], [], _ => rfl
  | [], _ :: _, h => by simp [beqList] at h
  | _ :: _, [], h => by simp [beqList] at h
  | x :: xs, y :: ys, h => by
    simp only [beqList, Bool.and_eq_true] at h
    rw [JSVal.eq_of_beq x y h.1, eq_of_beqList xs ys h.2]

theorem eq_of_beqProps : ∀ a b : List (String × JSVal), beqProps a b = true → a = b
  | [], [], _ => rfl
  | [], _ :: _, h => by simp [beqProps] at h
  | _ :: _, [], h => by simp [beqProps] at h
  | (k, x) :: xs, (l, y) :: ys, h => by
    simp only [beqProps, Bool.and_eq_true, decide_eq_true_eq] at h
    rw [h.1.1, JSVal.eq_of_beq x y h.1.2, eq_of_beqProps xs ys h.2]

end

mutual

theorem JSVal.beq_self : ∀ a : JSVal, a.beq a = true
  | .undefined => rfl
  | .null => rfl
  | .bool x => by simp [JSVal.beq]
  | .num x => by simp [JSVal.beq]
  | .str x => by simp [JSVal.beq]
  | .arr xs => by simp only [JSVal.beq]; exact beqList_self xs
  | .obj xs => by simp only [JSVal.beq]; exact beqProps_self xs

theorem beqList_self : ∀ a : List JSVal, beqList a a = true
  | [] => rfl
  | x :: xs => by
    simp only [beqList, Bool.and_eq_true]
    exact ⟨JSVal.beq_self x, beqList_self xs⟩

theorem beqProps_self : ∀ a : List (String × JSVal), beqProps a a = true
  | [] => rfl
  | (k, x) :: xs => by
    simp only [beqProps, Bool.and_eq_true, decide_eq_true_eq]
    exact ⟨⟨trivial, JSVal.beq_self x⟩, beqProps_self xs⟩

end

instance : DecidableEq JSVal := fun a b =>
  decidable_of_iff (a.beq b = true) ⟨JSVal.eq_of_beq a b, fun h => h ▸ JSVal.beq_self a⟩

deriving instance DecidableEq for Thrown
deriving instance DecidableEq for Except
deriving instance DecidableEq for Employee
deriving instance DecidableEq for HttpResult

/-! ## The number conversions on known values -/

/-- The model of `Number(string)` on literals of every form of the grammar. -/
theorem stringToNumber_known_values :
    stringToNumber "320800" = .fin 320800
    ∧ stringToNumber " 12.5e1 " = .fin 125
    ∧ stringToNumber "" = .fin 0
    ∧ stringToNumber ".5" = .fin (1 / 2)
    ∧ stringToNumber "-5" = .fin (-5)
    ∧ stringToNumber "0x1F" = .fin 31
    ∧ stringToNumber "-Infinity" = .inf true
    ∧ stringToNumber "1e400" = .inf false
    ∧ stringToNumber "0.1" = .fin (3602879701896397 / 36028797018963968)
    ∧ stringToNumber "abc" = .nan
    ∧ stringToNumber "." = .nan
    ∧ stringToNumber "1 2" = .nan
    ∧ stringToNumber "-0x1F" = .nan := by
  decide!

/-- The model of `String(number)` on values of every layout. -/
theorem numberToString_known_values :
    numberToString (.fin 0) = "0"
    ∧ numberToString (.fin 7) = "7"
    ∧ numberToString (.fin (-25 / 2)) = "-12.5"
    ∧ numberToString (stringToNumber "0.1") = "0.1"
    ∧ numberToString (stringToNumber "0.000001") = "0.000001"
    ∧ numberToString (stringToNumber "1e-7") = "1e-7"
    ∧ numberToString (stringToNumber "1e21") = "1e+21"
    ∧ numberToString (stringToNumber "123456789012345680000") = "123456789012345680000"
    ∧ numberToString (.fin (2 ^ 60)) = "1152921504606847000"
    ∧ numberToString (stringToNumber "1.7976931348623157e308") = "1.7976931348623157e+308"
    ∧ numberToString .nan = "NaN" := by
  decide!

/-! ## Conversions and the row transform -/

mutual

theorem JSVal.toStr_ok_of_convertible :
    ∀ v : JSVal, v.convertible = true → ∃ s, v.toStr = .ok s
  | .undefined, _ => ⟨_, by rw [JSVal.toStr]⟩
  | .null, _ => ⟨_, by rw [JSVal.toStr]⟩
  | .bool _, _ => ⟨_, by rw [JSVal.toStr]⟩
  | .num _, _ => ⟨_, by rw [JSVal.toStr]⟩
  | .str _, _ => ⟨_, by rw [JSVal.toStr]⟩
  | .arr xs, h => by
    simp only [JSVal.convertible] at h
    obtain ⟨parts, hp⟩ := elemStrings_ok_of_convertible xs h
    exact ⟨_, by rw [JSVal.toStr, hp]⟩
  | .obj ps, h => by
    simp only [JSVal.convertible, Bool.not_eq_true'] at h
    exact ⟨"[object Object]", by simp [JSVal.toStr, h]⟩

theorem elemStrings_ok_of_convertible :
    ∀ xs : List JSVal, convertibleList xs = true → ∃ parts, elemStrings xs = .ok parts
  | [], _ => ⟨_, by rw [elemStrings]⟩
  | x :: xs, h => by
    simp only [convertibleList, Bool.and_eq_true] at h
    obtain ⟨a, ha⟩ := JSVal.toStr_ok_of_convertible x h.1
    obtain ⟨b, hb⟩ := elemStrings_ok_of_convertible xs h.2
    by_cases hn : x.isNullish = true <;> simp [elemStrings, hn, ha, hb]

end

theorem toDouble_ne_nan (q : ℚ) : toDouble q ≠ .nan := by
  unfold toDouble
  split
  · simp
  · simp only []
    split <;> simp

theorem stringToNumber_eq_nan_iff (s : String) :
    stringToNumber s = .nan ↔ isNumericLiteral s = false := by
  unfold stringToNumber isNumericLiteral
  cases h : parseStringNumericLiteral s with
  | none => simp
  | some v =>
    cases v with
    | infinity neg => simp
    | finite q => simpa using toDouble_ne_nan q

theorem parseSalary_str (s : String) (hs : s ≠ "") :
    parseSalary (.str s) =
      .ok (if (stringToNumber (stripCurrency s)).isNaN then .fin 0
           else stringToNumber (stripCurrency s)) := by
  simp [parseSalary, JSVal.truthy, hs, JSVal.toStr, bind, Except.bind, pure, Except.pure]

theorem parseSalary_ok_of_convertible (v : JSVal) (h : v.convertible = true) :
    ∃ n, parseSalary v = .ok n := by
  obtain ⟨s, hs⟩ := JSVal.toStr_ok_of_convertible v h
  cases v <;>
    simp [parseSalary, hs, bind, Except.bind, pure, Except.pure] <;>
    split <;> simp

mutual

theorem JSVal.toStr_error_eq :
    ∀ (v : JSVal) (e : Thrown), v.toStr = .error e → e = .typeError
  | .undefined, e, h => by rw [JSVal.toStr] at h; cases h
  | .null, e, h => by rw [JSVal.toStr] at h; cases h
  | .bool _, e, h => by rw [JSVal.toStr] at h; cases h
  | .num _, e, h => by rw [JSVal.toStr] at h; cases h
  | .str _, e, h => by rw [JSVal.toStr] at h; cases h
  | .arr xs, e, h => by
    rw [JSVal.toStr] at h
    cases hx : elemStrings xs with
    | ok parts => rw [hx] at h; cases h
    | error e' =>
      rw [hx] at h
      cases h
      exact elemStrings_error_eq xs e hx
  | .obj ps, e, h => by
    rw [JSVal.toStr] at h
    split at h
    · cases h; rfl
    · cases h

theorem elemStrings_error_eq :
    ∀ (xs : List JSVal) (e : Thrown), elemStrings xs = .error e → e = .typeError
  | [], e, h => by rw [elemStrings] at h; cases h
  | x :: xs, e, h => by
    rw [elemStrings] at h
    by_cases hn : x.isNullish = true
    · simp only [hn, if_true] at h
      cases hx : elemStrings xs with
      | ok parts => rw [hx] at h; cases h
      | error e' =>
        rw [hx] at h
        cases h
        exact elemStrings_error_eq xs e hx
    · simp only [hn] at h
      cases hv : JSVal.toStr x with
      | error e' =>
        rw [hv] at h
        cases h
        exact JSVal.toStr_error_eq x e hv
      | ok a =>
        rw [hv] at h
        cases hx : elemStrings xs with
        | ok parts => rw [hx] at h; cases h
        | error e' =>
          rw [hx] at h
          cases h
          exact elemStrings_error_eq xs e hx

end

theorem JSNum.geZero_of_not_ltZero (n : JSNum) (hnan : n.isNaN = false)
    (hneg : n.ltZero = false) : n.geZero = true := by
  cases n with
  | nan => simp [JSNum.isNaN] at hnan
  | inf neg => simpa [JSNum.ltZero, JSNum.geZero] using hneg
  | fin q => simpa [JSNum.ltZero, JSNum.geZero] using hneg

theorem blankIfFalsy_not_nullish (v : JSVal) : (blankIfFalsy v).isNullish = false := by
  unfold blankIfFalsy
  split
  · next h => cases v <;> simp_all [JSVal.truthy, JSVal.isNullish]
  · rfl

theorem or_blank_eq (v : JSVal) : v.or (.str "") = blankIfFalsy v := rfl

/-- The row transform on an array row, spelled out field by field. -/
theorem normalizeRow_arr (fields : List JSVal) :
    normalizeRow (.arr fields) =
      match JSVal.toStr (blankIfFalsy (fieldOf fields 3)) with
      | .error e => .error e
      | .ok id =>
        match parseSalary (fieldOf fields 5) with
        | .error e => .error e
        | .ok salary =>
          .ok { id := id, name := blankIfFalsy (fieldOf fields 0),
                position := blankIfFalsy (fieldOf fields 1),
                city := blankIfFalsy (fieldOf fields 2),
                startDate := blankIfFalsy (fieldOf fields 4), salary := salary } := by
  simp only [normalizeRow, JSVal.getIndex, bind, Except.bind, pure, Except.pure, or_blank_eq,
    fieldOf]
  cases JSVal.toStr (blankIfFalsy (fields.getD 3 .undefined)) with
  | error e => rfl
  | ok id =>
    cases parseSalary (fields.getD 5 .undefined) with
    | error e => rfl
    | ok salary => rfl

theorem blankIfFalsy_convertible (v : JSVal) (h : v.convertible = true) :
    (blankIfFalsy v).convertible = true := by
  unfold blankIfFalsy
  split
  · exact h
  · simp [JSVal.convertible]

theorem normalizeRow_arr_ok (fields : List JSVal)
    (h3 : (fieldOf fields 3).convertible = true) (h5 : (fieldOf fields 5).convertible = true) :
    ∃ r, normalizeRow (.arr fields) = .ok r ∧ RecordOfRow fields r := by
  obtain ⟨id, hid⟩ := JSVal.toStr_ok_of_convertible _ (blankIfFalsy_convertible _ h3)
  obtain ⟨salary, hsal⟩ := parseSalary_ok_of_convertible _ h5
  refine ⟨_, by rw [normalizeRow_arr, hid, hsal], ?_⟩
  exact ⟨hid, rfl, rfl, rfl, rfl, hsal⟩

theorem mapRows_arr_ok (rows : List (List JSVal))
    (hconv : ∀ fields ∈ rows,
      (fieldOf fields 3).convertible = true ∧ (fieldOf fields 5).convertible = true) :
    ∃ records, mapRows (rows.map JSVal.arr) = .ok records
      ∧ List.Forall₂ RecordOfRow rows records := by
  induction rows with
  | nil => exact ⟨[], rfl, List.Forall₂.nil⟩
  | cons fields rest ih =>
    obtain ⟨r, hr, hrec⟩ :=
      normalizeRow_arr_ok fields (hconv fields (List.mem_cons_self _ _)).1
        (hconv fields (List.mem_cons_self _ _)).2
    obtain ⟨rs, hrs, hall⟩ := ih fun f hf => hconv f (List.mem_cons_of_mem _ hf)
    exact ⟨r :: rs, by simp [mapRows, hr, hrs], List.Forall₂.cons hrec hall⟩

theorem fetchEmployees_of_rows (payload : JSVal) (rows : List JSVal) (records : List Employee)
    (hshape : (payload.optField "TABLE_DATA").optField "data" = .arr rows)
    (hmap : mapRows rows = .ok records) :
    fetchEmployees (.fulfilled payload) = .ok records := by
  simp [fetchEmployees, fetchEmployeesTry, hshape, hmap]

/-! ## Claims on `fetchEmployees` and `parseSalary` -/

/-- C1, as amended. For every successful response whose `TABLE_DATA.data` is an
array of arrays in which every id field (position 3) and salary field
(position 5) can be converted to a string, `fetchEmployees` returns exactly one
record per row, in row order: `name`, `position`, `city` and `startDate` are
positions 0, 1, 2 and 4 of the row with every falsy value (missing, `null`,
`''`, `0`, `NaN`, `false`) replaced by the empty string, `id` is the string
form of position 3 after the same replacement, and `salary` is `parseSalary`
of position 5. -/
theorem C1_fetchEmployees_records (payload : JSVal) (rows : List (List JSVal))
    (hshape : (payload.optField "TABLE_DATA").optField "data" = .arr (rows.map JSVal.arr))
    (hconv : ∀ fields ∈ rows,
      (fieldOf fields 3).convertible = true ∧ (fieldOf fields 5).convertible = true) :
    ∃ records, fetchEmployees (.fulfilled payload) = .ok records
      ∧ List.Forall₂ RecordOfRow rows records := by
  obtain ⟨records, hmap, hall⟩ := mapRows_arr_ok rows hconv
  exact ⟨records, fetchEmployees_of_rows payload _ records hshape hmap, hall⟩

/-- Witness of C1: a payload of two rows, the second one short. -/
theorem C1_fetchEmployees_records_witness :
    ∃ records,
      fetchEmployees (.fulfilled (tablePayload
        [.arr [.str "Ann", .str "Dev", .str "Pune", .str "7", .str "2020/01/01",
               .str "$320,800"],
         .arr [.str "Bob", .null]])) = .ok records
      ∧ List.Forall₂ RecordOfRow
        [[.str "Ann", .str "Dev", .str "Pune", .str "7", .str "2020/01/01", .str "$320,800"],
         [.str "Bob", .null]] records :=
  C1_fetchEmployees_records _
    [[.str "Ann", .str "Dev", .str "Pune", .str "7", .str "2020/01/01", .str "$320,800"],
     [.str "Bob", .null]] (by decide) (by decide)

/-- Counterexample to C1 as stated: the id field `0` is neither missing nor
empty and its string form is `"0"`, yet the record's `id` is the empty
string. -/
theorem C1_counterexample_id_zero :
    fetchEmployees (.fulfilled (tablePayload
      [.arr [.str "Ann", .str "Dev", .str "Pune", .num (.fin 0), .str "2020/01/01",
             .str "$320,800"]]))
      = .ok [{ id := "", name := .str "Ann", position := .str "Dev", city := .str "Pune",
               startDate := .str "2020/01/01", salary := .fin 320800 }]
    ∧ JSVal.toStr (.num (.fin 0)) = .ok "0" := by
  decide!

/-- C2, as amended. For every API row (of any length, six fields in
particular), the record produced by normalization has a string `id`, and
`name`, `position`, `city`, `startDate` that are neither `null` nor
`undefined`, and a salary that is a number; the salary is greater than or equal
to 0 whenever the salary field, if a number, is itself greater than or equal to
0 and, if not a number, does not read as a negative number once every `$` and
`,` is removed. -/
theorem C2_normalizeRow_record (fields : List JSVal) (r : Employee)
    (h : normalizeRow (.arr fields) = .ok r) :
    r.name.isNullish = false ∧ r.position.isNullish = false ∧ r.city.isNullish = false
      ∧ r.startDate.isNullish = false
      ∧ ((∀ n, fieldOf fields 5 = .num n → n.geZero = true) →
          (∀ s, (fieldOf fields 5).isNumber = false → (fieldOf fields 5).toStr = .ok s →
            (stringToNumber (stripCurrency s)).ltZero = false) →
          r.salary.geZero = true) := by
  rw [normalizeRow_arr] at h
  cases hid : JSVal.toStr (blankIfFalsy (fieldOf fields 3)) with
  | error e => simp [hid] at h
  | ok id =>
    cases hsal : parseSalary (fieldOf fields 5) with
    | error e => simp [hid, hsal] at h
    | ok salary =>
      simp only [hid, hsal, Except.ok.injEq] at h
      subst h
      refine ⟨blankIfFalsy_not_nullish _, blankIfFalsy_not_nullish _,
        blankIfFalsy_not_nullish _, blankIfFalsy_not_nullish _, ?_⟩
      intro hnum hstr
      simp only
      generalize fieldOf fields 5 = raw at hsal hnum hstr
      cases raw with
      | num n =>
        simp only [parseSalary, Except.ok.injEq] at hsal
        exact hsal ▸ hnum n rfl
      | undefined | null | bool _ | str _ | arr _ | obj _ =>
        simp only [parseSalary] at hsal
        split at hsal
        · simp only [Except.ok.injEq] at hsal
          subst hsal
          decide
        · simp only [bind, Except.bind, pure, Except.pure] at hsal
          split at hsal
          · simp at hsal
          · next s hs =>
            simp only [Except.ok.injEq] at hsal
            have hneg := hstr s rfl hs
            split at hsal
            · subst hsal
              decide
            · next hnan =>
              subst hsal
              exact JSNum.geZero_of_not_ltZero _ (by simpa using hnan) hneg

/-- Witness of C2: a full row with a well-formed salary text. -/
theorem C2_normalizeRow_record_witness :
    normalizeRow (.arr [.str "Ann", .str "Dev", .str "Pune", .str "7", .str "2020/01/01",
        .str "$320,800"])
      = .ok { id := "7", name := .str "Ann", position := .str "Dev", city := .str "Pune",
              startDate := .str "2020/01/01", salary := .fin 320800 }
    ∧ (JSVal.str "Ann").isNullish = false
    ∧ (JSNum.fin 320800).geZero = true :=
  have h : normalizeRow (.arr [.str "Ann", .str "Dev", .str "Pune", .str "7",
        .str "2020/01/01", .str "$320,800"])
      = .ok { id := "7", name := .str "Ann", position := .str "Dev", city := .str "Pune",
              startDate := .str "2020/01/01", salary := .fin 320800 } := by decide!
  ⟨h, (C2_normalizeRow_record _ _ h).1,
    (C2_normalizeRow_record _ _ h).2.2.2.2
      (by intro n hn; simp [fieldOf] at hn)
      (by
        intro s _ hs
        have hs' : s = "$320,800" := by
          simp only [fieldOf, List.getD_cons_succ, List.getD_cons_zero] at hs
          rw [JSVal.toStr] at hs
          exact (Except.ok.inj hs).symm
        subst hs'
        decide!)⟩

/-- Counterexample to C2 as stated: a row of six fields whose salary field is
the number `-5` is normalized to a record whose salary is `-5`, which is not
greater than or equal to 0. -/
theorem C2_counterexample_negative_salary :
    normalizeRow (.arr [.str "Ann", .str "Dev", .str "Pune", .str "7", .str "2020/01/01",
        .num (.fin (-5))])
      = .ok { id := "7", name := .str "Ann", position := .str "Dev", city := .str "Pune",
              startDate := .str "2020/01/01", salary := .fin (-5) }
    ∧ (JSNum.fin (-5)).geZero = false := by
  decide!

theorem rowField_arr (fields : List JSVal) (i : Nat) :
    rowField (.arr fields) i = fieldOf fields i := rfl

/-- The row transform on any element that is neither `null` nor `undefined`. -/
theorem normalizeRow_ok_of_not_nullish (row : JSVal) (hrow : row.isNullish = false)
    (h3 : (rowField row 3).convertible = true) (h5 : (rowField row 5).convertible = true) :
    ∃ r, normalizeRow row = .ok r := by
  have hget : ∀ i, row.getIndex i = .ok (rowField row i) := by
    intro i
    cases row <;> simp_all [JSVal.isNullish, rowField, JSVal.getIndex]
  obtain ⟨id, hid⟩ := JSVal.toStr_ok_of_convertible _ (blankIfFalsy_convertible _ h3)
  obtain ⟨salary, hsal⟩ := parseSalary_ok_of_convertible _ h5
  refine ⟨{ id := id, name := blankIfFalsy (rowField row 0),
            position := blankIfFalsy (rowField row 1), city := blankIfFalsy (rowField row 2),
            startDate := blankIfFalsy (rowField row 4), salary := salary }, ?_⟩
  simp only [normalizeRow, hget, bind, Except.bind, pure, Except.pure, or_blank_eq, hid, hsal]

theorem mapRows_ok (rows : List JSVal)
    (hrows : ∀ row ∈ rows, row.isNullish = false ∧ (rowField row 3).convertible = true
      ∧ (rowField row 5).convertible = true) :
    ∃ records, mapRows rows = .ok records ∧ records.length = rows.length := by
  induction rows with
  | nil => exact ⟨[], rfl, rfl⟩
  | cons row rest ih =>
    obtain ⟨hn, h3, h5⟩ := hrows row (List.mem_cons_self _ _)
    obtain ⟨r, hr⟩ := normalizeRow_ok_of_not_nullish row hn h3 h5
    obtain ⟨rs, hrs, hlen⟩ := ih fun x hx => hrows x (List.mem_cons_of_mem _ hx)
    exact ⟨r :: rs, by simp [mapRows, hr, hrs], by simp [hlen]⟩

/-- C3, as amended. For every successful response whose `TABLE_DATA.data` is an
array none of whose elements is `null` (or `undefined`) and in which positions
3 and 5 of every element can be converted to a string, whatever else the
elements are (rows shorter than six fields, rows with `null` fields, numbers,
strings or objects in place of rows), the per-row transform does not throw and
`fetchEmployees` returns one record per element. -/
theorem C3_fetchEmployees_total (payload : JSVal) (rows : List JSVal)
    (hshape : (payload.optField "TABLE_DATA").optField "data" = .arr rows)
    (hrows : ∀ row ∈ rows, row.isNullish = false ∧ (rowField row 3).convertible = true
      ∧ (rowField row 5).convertible = true) :
    ∃ records, fetchEmployees (.fulfilled payload) = .ok records
      ∧ records.length = rows.length := by
  obtain ⟨records, hmap, hlen⟩ := mapRows_ok rows hrows
  exact ⟨records, fetchEmployees_of_rows payload rows records hshape hmap, hlen⟩

/-- Witness of C3: a short row, a row of `null` fields, a number, a string and
an object in place of rows. -/
theorem C3_fetchEmployees_total_witness :
    ∃ records,
      fetchEmployees (.fulfilled (tablePayload
        [.arr [.str "Ann"], .arr [.null, .null, .null, .null, .null, .null],
         .num (.fin 5), .str "abcdefgh", .obj [("3", .num (.fin 7))]])) = .ok records
      ∧ records.length
          = [JSVal.arr [.str "Ann"], .arr [.null, .null, .null, .null, .null, .null],
             .num (.fin 5), .str "abcdefgh", .obj [("3", .num (.fin 7))]].length :=
  C3_fetchEmployees_total _ _ (by decide) (by decide)

/-- Counterexample to C3 as stated: with a `null` element in the rows array
the per-row transform throws, and `fetchEmployees` fails with the fallback
message instead of returning records. -/
theorem C3_counterexample_null_row :
    normalizeRow .null = .error .typeError
    ∧ fetchEmployees (.fulfilled (tablePayload
        [.arr [.str "Ann", .str "Dev", .str "Pune", .str "7", .str "2020/01/01",
               .str "$320,800"], .null]))
      = .error (.error "Unable to load employee data. Please try again later.") := by
  decide!

/-- C4. For every successful response whose payload has no `TABLE_DATA.data`
or holds a value there that is not an array (a `null`, string or otherwise
non-object payload included), `fetchEmployees` returns the empty sequence and
does not fail. -/
theorem C4_fetchEmployees_soft_degrade (payload : JSVal)
    (h : ((payload.optField "TABLE_DATA").optField "data").isArray = false) :
    fetchEmployees (.fulfilled payload) = .ok [] := by
  unfold fetchEmployees fetchEmployeesTry
  cases hrows : (payload.optField "TABLE_DATA").optField "data" <;>
    simp_all [JSVal.isArray]

/-- Witness of C4: a `null` payload, a string payload, a payload without
`data`, and a payload whose `data` is an object. -/
theorem C4_fetchEmployees_soft_degrade_witness :
    fetchEmployees (.fulfilled .null) = .ok []
    ∧ fetchEmployees (.fulfilled (.str "<html>")) = .ok []
    ∧ fetchEmployees (.fulfilled (.obj [("TABLE_DATA", .obj [])])) = .ok []
    ∧ fetchEmployees (.fulfilled (.obj [("TABLE_DATA", .obj [("data", .obj [])])])) = .ok [] :=
  ⟨C4_fetchEmployees_soft_degrade _ (by decide), C4_fetchEmployees_soft_degrade _ (by decide),
    C4_fetchEmployees_soft_degrade _ (by decide), C4_fetchEmployees_soft_degrade _ (by decide)⟩

/-- C6. For every input that is missing (`undefined`, `null`, the empty
string) and for every string that is not a numeric literal after all `$` and
`,` characters are removed, `parseSalary` returns 0 and does not throw. -/
theorem C6_parseSalary_default (raw : JSVal)
    (h : raw = .undefined ∨ raw = .null ∨ raw = .str ""
      ∨ ∃ s, raw = .str s ∧ isNumericLiteral (stripCurrency s) = false) :
    parseSalary raw = .ok (.fin 0) := by
  rcases h with h | h | h | ⟨s, h, hlit⟩
  · subst h; rfl
  · subst h; rfl
  · subst h; rfl
  · subst h
    by_cases hs : s = ""
    · subst hs; rfl
    · rw [parseSalary_str s hs, (stringToNumber_eq_nan_iff _).2 hlit]
      rfl

/-- Witness of C6: the text `abc`. -/
theorem C6_parseSalary_default_witness :
    parseSalary (.str "abc") = .ok (.fin 0) :=
  C6_parseSalary_default (.str "abc") (Or.inr (Or.inr (Or.inr ⟨"abc", rfl, by decide⟩)))

theorem fetchEmployees_rejected (e : Thrown) :
    fetchEmployees (.rejected e) = fetchEmployeesCatch e := rfl

/-- C7, as amended. Whenever the request fails, `fetchEmployees` fails, and
never with the raw transport error. When the message field of the server's
error response is truthy (present and not empty, `null`, `0` or `false`) the
error's message is the string form of that field (the field itself when it is
a non-empty string); when it is absent or falsy the message is the fixed text
`Unable to load employee data. Please try again later.` -/
theorem C7_fetchEmployees_failure (error : Thrown) :
    (∀ records, fetchEmployees (.rejected error) ≠ .ok records)
    ∧ (∀ message response,
        fetchEmployees (.rejected error) ≠ .error (.requestError message response))
    ∧ ((serverMessage error).truthy = false →
        fetchEmployees (.rejected error)
          = .error (.error "Unable to load employee data. Please try again later."))
    ∧ (∀ text, (serverMessage error).truthy = true → (serverMessage error).toStr = .ok text →
        fetchEmployees (.rejected error) = .error (.error text))
    ∧ (∀ text, text ≠ "" → serverMessage error = .str text →
        fetchEmployees (.rejected error) = .error (.error text)) := by
  have hmsg : ∀ v : JSVal,
      (match v.toStr with
        | .ok message => (.error (.error message) : Except Thrown (List Employee))
        | .error e => .error e)
        = (match v.toStr with
          | .ok message => .error (.error message)
          | .error _ => .error .typeError) := by
    intro v
    cases hv : v.toStr with
    | ok message => rfl
    | error e => rw [JSVal.toStr_error_eq v e hv]
  have key : ∀ m : JSVal,
      (match (m.or (.str fallbackMessage)).toStr with
        | .ok message => (.error (.error message) : Except Thrown (List Employee))
        | .error e => .error e)
        = if m.truthy = true then
            (match m.toStr with
              | .ok message => .error (.error message)
              | .error _ => .error .typeError)
          else .error (.error "Unable to load employee data. Please try again later.") := by
    intro m
    by_cases ht : m.truthy = true
    · simp only [JSVal.or, ht, if_true]
      exact hmsg m
    · simp only [JSVal.or, ht]
      simp [JSVal.toStr, fallbackMessage]
  rw [fetchEmployees_rejected]
  unfold fetchEmployeesCatch
  rw [key]
  generalize serverMessage error = m
  refine ⟨?_, ?_, ?_, ?_, ?_⟩
  · intro records
    split
    · cases m.toStr <;> simp
    · simp
  · intro message response
    split
    · cases m.toStr <;> simp
    · simp
  · intro hf
    simp [hf]
  · intro text ht htext
    simp [ht, htext]
  · intro text hne htext
    subst htext
    simp [JSVal.truthy, hne, JSVal.toStr]

/-- Counterexample to C7 as stated: the server's error response supplies a
message field, the empty string, and the error the caller receives carries
the fixed text, not that field. -/
theorem C7_counterexample_empty_message :
    serverMessage (.requestError "Request failed with status code 500"
        (some (.obj [("message", .str "")]))) = .str ""
    ∧ fetchEmployees (.rejected (.requestError "Request failed with status code 500"
        (some (.obj [("message", .str "")]))))
      = .error (.error "Unable to load employee data. Please try again later.") := by
  decide

/-! ## Salary texts made of digits, `$` and `,` -/

theorem bitLenAux_spec : ∀ fuel n : Nat, 0 < n → n ≤ fuel →
    1 ≤ bitLenAux fuel n ∧ 2 ^ (bitLenAux fuel n - 1) ≤ n
  | 0, n, hpos, hle => by omega
  | fuel + 1, n, hpos, hle => by
    have hn : n ≠ 0 := by omega
    simp only [bitLenAux, hn, if_false]
    refine ⟨by omega, ?_⟩
    simp only [Nat.add_sub_cancel]
    by_cases h2 : n / 2 = 0
    · have : bitLenAux fuel (n / 2) = 0 := by
        rw [h2]; cases fuel <;> simp [bitLenAux]
      rw [this]; simpa using hpos
    · have hpos2 : 0 < n / 2 := Nat.pos_of_ne_zero h2
      obtain ⟨h1, hpow⟩ := bitLenAux_spec fuel (n / 2) hpos2 (by omega)
      calc 2 ^ bitLenAux fuel (n / 2)
          = 2 ^ (bitLenAux fuel (n / 2) - 1) * 2 := by
            rw [← Nat.pow_succ]; congr 1; omega
        _ ≤ n / 2 * 2 := Nat.mul_le_mul_right 2 hpow
        _ ≤ n := Nat.div_mul_le_self n 2

theorem bitLen_spec (n : Nat) (hpos : 0 < n) :
    1 ≤ bitLen n ∧ 2 ^ (bitLen n - 1) ≤ n :=
  bitLenAux_spec n n hpos (Nat.le_refl n)

theorem floorLog2_natCast (n : Nat) (hpos : 0 < n) :
    floorLog2 (n : ℚ) = ((bitLen n - 1 : ℕ) : ℤ) := by
  obtain ⟨h1, hpow⟩ := bitLen_spec n hpos
  have hone : bitLen 1 = 1 := by decide
  have he : ((bitLen n : ℤ) - (bitLen 1 : ℤ)) = ((bitLen n - 1 : ℕ) : ℤ) := by
    rw [hone]; omega
  unfold floorLog2
  simp only [Rat.num_natCast, Int.natAbs_ofNat, Rat.den_natCast, he, zpow_natCast]
  rw [if_pos]
  exact_mod_cast hpow

theorem roundHalfEven_intCast (k : ℤ) : roundHalfEven (k : ℚ) = k := by
  unfold roundHalfEven
  simp

/-- Every natural number up to `2 ^ 53` is a double. -/
theorem toDouble_natCast (n : Nat) (hle : n ≤ 2 ^ 53) : toDouble (n : ℚ) = .fin (n : ℚ) := by
  by_cases h0 : n = 0
  · subst h0; simp [toDouble]
  have hpos : 0 < n := Nat.pos_of_ne_zero h0
  have hq0 : (n : ℚ) ≠ 0 := by exact_mod_cast h0
  have hqpos : (0 : ℚ) < (n : ℚ) := by exact_mod_cast hpos
  obtain ⟨h1, hpow⟩ := bitLen_spec n hpos
  have hbits : bitLen n - 1 ≤ 53 := by
    by_contra hgt
    have h54 : 54 ≤ bitLen n - 1 := by omega
    have : 2 ^ 54 ≤ 2 ^ (bitLen n - 1) := Nat.pow_le_pow_right (by decide) h54
    have : (2 : ℕ) ^ 53 < 2 ^ 54 := by decide
    omega
  have hquot : ∃ k : ℤ,
      (n : ℚ) / (2 : ℚ) ^ (max (((bitLen n - 1 : ℕ) : ℤ) - 52) (-1074)) = (k : ℚ) := by
    by_cases h53 : bitLen n - 1 = 53
    · have hn : n = 2 ^ 53 := by
        rw [h53] at hpow
        omega
      refine ⟨2 ^ 52, ?_⟩
      rw [h53, hn]
      norm_num
    · have hu : max (((bitLen n - 1 : ℕ) : ℤ) - 52) (-1074)
          = -((52 - (bitLen n - 1) : ℕ) : ℤ) := by
        omega
      refine ⟨(n : ℤ) * 2 ^ (52 - (bitLen n - 1)), ?_⟩
      rw [hu, zpow_neg, zpow_natCast]
      push_cast
      field_simp
  obtain ⟨k, hk⟩ := hquot
  have h2 : (2 : ℚ) ^ (max (((bitLen n - 1 : ℕ) : ℤ) - 52) (-1074)) ≠ 0 :=
    zpow_ne_zero _ (by norm_num)
  have hv : (k : ℚ) * (2 : ℚ) ^ (max (((bitLen n - 1 : ℕ) : ℤ) - 52) (-1074)) = (n : ℚ) := by
    rw [← hk]; field_simp
  have hbig : ¬ ((2 : ℚ) ^ (1024 : ℤ) ≤ (n : ℚ)) := by
    have h1 : (n : ℚ) ≤ 2 ^ 53 := by exact_mod_cast hle
    have h2 : (2 : ℚ) ^ 53 < (2 : ℚ) ^ (1024 : ℤ) := by norm_num
    intro h
    linarith
  unfold toDouble
  simp only [hq0, if_false, abs_of_pos hqpos, floorLog2_natCast n hpos, hk,
    roundHalfEven_intCast, hv, hbig, not_lt.2 hqpos.le]

theorem isStrWhiteSpaceChar_of_digit (c : Char) (h : isDecimalDigit c = true) :
    isStrWhiteSpaceChar c = false := by
  simp only [isDecimalDigit, decide_eq_true_eq] at h
  simp only [isStrWhiteSpaceChar, Bool.or_eq_false_iff, beq_eq_false_iff_ne, ne_eq,
    Bool.and_eq_false_imp, decide_eq_true_eq, decide_eq_false_iff_not]
  omega

theorem dropWhile_eq_self {α : Type} (p : α → Bool) :
    ∀ l : List α, (∀ a, l.head? = some a → p a = false) → l.dropWhile p = l
  | [], _ => rfl
  | a :: l, h => by simp [List.dropWhile, h a rfl]

theorem trimWhiteSpace_digits (ds : List Char) (hall : ∀ c ∈ ds, isDecimalDigit c = true) :
    trimWhiteSpace ds = ds := by
  unfold trimWhiteSpace
  rw [dropWhile_eq_self _ ds, dropWhile_eq_self _ ds.reverse, List.reverse_reverse]
  · intro a ha
    exact isStrWhiteSpaceChar_of_digit a
      (hall a (List.mem_reverse.1 (List.mem_of_mem_head? ha)))
  · intro a ha
    exact isStrWhiteSpaceChar_of_digit a (hall a (List.mem_of_mem_head? ha))

theorem parseNonDecimal_digits (ds : List Char) (hall : ∀ c ∈ ds, isDecimalDigit c = true) :
    parseNonDecimal ds = none := by
  unfold parseNonDecimal
  split
  · next c rest =>
    have hc : isDecimalDigit c = true := hall c (by simp)
    have hx : ¬ (c = 'x' ∨ c = 'X') := by
      rintro (h | h) <;> · subst h; exact absurd hc (by decide)
    have ho : ¬ (c = 'o' ∨ c = 'O') := by
      rintro (h | h) <;> · subst h; exact absurd hc (by decide)
    have hb : ¬ (c = 'b' ∨ c = 'B') := by
      rintro (h | h) <;> · subst h; exact absurd hc (by decide)
    simp [hx, ho, hb]
  · rfl

theorem parseUnsignedDecimal_digits (ds : List Char) (hne : ds ≠ [])
    (hall : ∀ c ∈ ds, isDecimalDigit c = true) :
    parseUnsignedDecimal ds = some (.finite (natOfDigits ds : ℚ)) := by
  have hinf : ds ≠ ['I', 'n', 'f', 'i', 'n', 'i', 't', 'y'] := by
    intro h
    exact absurd (hall 'I' (by simp [h])) (by decide)
  have htake : ds.takeWhile isDecimalDigit = ds := List.takeWhile_eq_self_iff.2 hall
  have hdrop : ds.dropWhile isDecimalDigit = [] := List.dropWhile_eq_nil_iff.2 hall
  unfold parseUnsignedDecimal
  simp [hinf, htake, hdrop, hne, parseExponent]

theorem parseStringNumericLiteral_digits (ds : List Char) (hne : ds ≠ [])
    (hall : ∀ c ∈ ds, isDecimalDigit c = true) :
    parseStringNumericLiteral (String.mk ds) = some (.finite (natOfDigits ds : ℚ)) := by
  have hlist : (String.mk ds).toList = ds := rfl
  unfold parseStringNumericLiteral
  simp only [hlist, trimWhiteSpace_digits ds hall, hne, if_false]
  unfold parseStrNumericLiteral
  rw [parseNonDecimal_digits ds hall]
  simp only
  split
  · next t => exact absurd (hall '+' (by simp)) (by decide)
  · next t => exact absurd (hall '-' (by simp)) (by decide)
  · exact parseUnsignedDecimal_digits ds hne hall

theorem stripCurrency_digits (s : String)
    (hchars : ∀ c ∈ s.toList, isDecimalDigit c = true ∨ c = '$' ∨ c = ',') :
    stripCurrency s = String.mk (s.toList.filter isDecimalDigit) := by
  unfold stripCurrency
  congr 1
  apply List.filter_congr
  intro c hc
  rcases hchars c hc with h | h | h
  · rw [h]
    have h1 : c ≠ '$' := by intro h'; subst h'; exact absurd h (by decide)
    have h2 : c ≠ ',' := by intro h'; subst h'; exact absurd h (by decide)
    simp [h1, h2]
  · subst h; decide
  · subst h; decide

/-- C5, as amended. For every string made of at least one decimal digit with
any number of `$` and `,` characters inserted anywhere, `parseSalary` returns
the double nearest to the natural number the digits denote, which is that
number itself whenever it is at most `2 ^ 53 = 9007199254740992`
(`parseSalary("$320,800") = 320800`); and for every input that is already a
number, `parseSalary` returns that number unchanged. -/
theorem C5_parseSalary_digits (s : String) (n : JSNum)
    (hchars : ∀ c ∈ s.toList, isDecimalDigit c = true ∨ c = '$' ∨ c = ',')
    (hdigit : ∃ c ∈ s.toList, isDecimalDigit c = true) :
    parseSalary (.str s)
        = .ok (toDouble (natOfDigits (s.toList.filter isDecimalDigit) : ℚ))
    ∧ (natOfDigits (s.toList.filter isDecimalDigit) ≤ 2 ^ 53 →
        parseSalary (.str s)
          = .ok (.fin (natOfDigits (s.toList.filter isDecimalDigit) : ℚ)))
    ∧ parseSalary (.num n) = .ok n := by
  obtain ⟨d, hd, hdd⟩ := hdigit
  have hs : s ≠ "" := by
    intro h; subst h; simp at hd
  have hne : s.toList.filter isDecimalDigit ≠ [] :=
    List.ne_nil_of_mem (List.mem_filter.2 ⟨hd, hdd⟩)
  have hall : ∀ c ∈ s.toList.filter isDecimalDigit, isDecimalDigit c = true :=
    fun c hc => (List.mem_filter.1 hc).2
  have hnum : stringToNumber (stripCurrency s)
      = toDouble (natOfDigits (s.toList.filter isDecimalDigit) : ℚ) := by
    rw [stripCurrency_digits s hchars]
    unfold stringToNumber
    rw [parseStringNumericLiteral_digits _ hne hall]
  have hmain : parseSalary (.str s)
      = .ok (toDouble (natOfDigits (s.toList.filter isDecimalDigit) : ℚ)) := by
    rw [parseSalary_str s hs, hnum]
    have hnan := toDouble_ne_nan (natOfDigits (s.toList.filter isDecimalDigit) : ℚ)
    cases hval : toDouble (natOfDigits (s.toList.filter isDecimalDigit) : ℚ) with
    | nan => exact absurd hval hnan
    | inf neg => rfl
    | fin q => rfl
  refine ⟨hmain, ?_, rfl⟩
  intro hle
  rw [hmain, toDouble_natCast _ hle]

/-- Witness of C5: the documented example `$320,800`, and the number `5000`. -/
theorem C5_parseSalary_digits_witness :
    parseSalary (.str "$320,800") = .ok (.fin ((320800 : ℕ) : ℚ))
    ∧ parseSalary (.num (.fin 5000)) = .ok (.fin 5000) :=
  ⟨(C5_parseSalary_digits "$320,800" (.fin 5000) (by decide) (by decide)).2.1 (by decide),
    (C5_parseSalary_digits "$320,800" (.fin 5000) (by decide) (by decide)).2.2⟩

/-- Counterexample to C5 as stated: the digits `9007199254740993` denote
`2 ^ 53 + 1`, and `parseSalary` returns `9007199254740992`. -/
theorem C5_counterexample_large_number :
    parseSalary (.str "9007199254740993") = .ok (.fin 9007199254740992)
    ∧ natOfDigits "9007199254740993".toList = 9007199254740993 := by
  decide!

/-! ## The camera controller -/

theorem cameraInvariant_initial : CameraInvariant Camera.initial := by
  constructor
  · rfl
  · intro _ h; cases h

theorem cameraInvariant_step (s t : Camera) (e : CameraEvent) (hinv : CameraInvariant s)
    (h : s.step e = some t) : CameraInvariant t := by
  obtain ⟨active, err, img, vref, sref, mounted, pending, granted, live⟩ := s
  obtain ⟨hv, hs⟩ := hinv
  unfold Camera.step at h
  split at h
  · cases h
    cases e <;> cases mounted <;> cases active <;> cases sref <;>
      simp_all [CameraInvariant, Camera.handle, Camera.commit, Camera.enabled,
        Camera.startCameraRequest, Camera.startCameraGranted, Camera.startCameraRejected,
        Camera.stopCamera, Camera.capturePhoto, Camera.retake, Camera.unmount,
        Camera.setCameraActive, Camera.setCameraError, Camera.setCapturedImage,
        Camera.hasImage, Camera.toDataURL]
  · cases h

theorem cameraInvariant_run : ∀ (events : List CameraEvent) (s t : Camera),
    CameraInvariant s → s.run events = some t → CameraInvariant t
  | [], s, t, hinv, h => by
    simp only [Camera.run, Option.some.injEq] at h
    exact h ▸ hinv
  | e :: es, s, t, hinv, h => by
    simp only [Camera.run] at h
    split at h
    · next u hu => exact cameraInvariant_run es u t (cameraInvariant_step s u e hinv hu) h
    · cases h

/-- A stream that is live and no longer held can never be stopped: whatever
happens next, it stays live and stays out of `streamRef.current`. -/
theorem lost_stream_step (s t : Camera) (e : CameraEvent) (id : Nat)
    (hlive : id ∈ s.live) (hlost : s.streamRef ≠ some id) (hold : id < s.granted)
    (h : s.step e = some t) :
    id ∈ t.live ∧ t.streamRef ≠ some id ∧ id < t.granted := by
  obtain ⟨active, err, img, vref, sref, mounted, pending, granted, live⟩ := s
  unfold Camera.step at h
  split at h
  · cases h
    cases e <;> cases mounted <;> cases vref <;> cases sref <;>
      simp_all [Camera.handle, Camera.commit, Camera.enabled,
        Camera.startCameraRequest, Camera.startCameraGranted, Camera.startCameraRejected,
        Camera.stopCamera, Camera.capturePhoto, Camera.retake, Camera.unmount,
        Camera.setCameraActive, Camera.setCameraError, Camera.setCapturedImage] <;>
      omega
  · cases h

theorem lost_stream_run : ∀ (events : List CameraEvent) (s t : Camera) (id : Nat),
    id ∈ s.live → s.streamRef ≠ some id → id < s.granted → s.run events = some t →
    id ∈ t.live
  | [], s, t, id, hlive, _, _, h => by
    simp only [Camera.run, Option.some.injEq] at h
    exact h ▸ hlive
  | e :: es, s, t, id, hlive, hlost, hold, h => by
    simp only [Camera.run] at h
    split at h
    · next u hu =>
      obtain ⟨h1, h2, h3⟩ := lost_stream_step s u e id hlive hlost hold hu
      exact lost_stream_run es u t id h1 h2 h3 h
    · cases h

/-- After the page is torn down nothing stops a stream: every stream that is
live stays live, whatever happens next. -/
theorem live_after_teardown_step (s t : Camera) (e : CameraEvent) (id : Nat)
    (hdown : s.mounted = false) (hlive : id ∈ s.live) (h : s.step e = some t) :
    t.mounted = false ∧ id ∈ t.live := by
  obtain ⟨active, err, img, vref, sref, mounted, pending, granted, live⟩ := s
  unfold Camera.step at h
  split at h
  · cases h
    cases e <;>
      simp_all [Camera.handle, Camera.commit, Camera.enabled,
        Camera.startCameraGranted, Camera.startCameraRejected,
        Camera.setCameraActive, Camera.setCameraError]
  · cases h

theorem live_after_teardown_run : ∀ (events : List CameraEvent) (s t : Camera) (id : Nat),
    s.mounted = false → id ∈ s.live → s.run events = some t → id ∈ t.live
  | [], s, t, id, _, hlive, h => by
    simp only [Camera.run, Option.some.injEq] at h
    exact h ▸ hlive
  | e :: es, s, t, id, hdown, hlive, h => by
    simp only [Camera.run] at h
    split at h
    · next u hu =>
      obtain ⟨h1, h2⟩ := live_after_teardown_step s u e id hdown hlive hu
      exact live_after_teardown_run es u t id h1 h2 h
    · cases h

/-- C8, at the failing input. The Open Camera button stays rendered while a
request is pending, so it can be clicked twice; both requests are then granted.
The second grant stores stream 1 over stream 0, which was never stopped: two
streams are live, the handle of the first is lost, and no later event stops
it. -/
theorem C8_second_stream_while_first_live :
    Camera.run Camera.initial [.clickOpenCamera, .clickOpenCamera, .streamGranted]
      = some { cameraActive := true, cameraError := "", capturedImage := none,
               videoRef := true, streamRef := some 0, mounted := true, pending := 1,
               granted := 1, live := [0] }
    ∧ Camera.run Camera.initial
        [.clickOpenCamera, .clickOpenCamera, .streamGranted, .streamGranted]
      = some { cameraActive := true, cameraError := "", capturedImage := none,
               videoRef := true, streamRef := some 1, mounted := true, pending := 0,
               granted := 2, live := [0, 1] }
    ∧ ∀ events t,
        Camera.run { cameraActive := true, cameraError := "", capturedImage := none,
                     videoRef := true, streamRef := some 1, mounted := true, pending := 0,
                     granted := 2, live := [0, 1] } events = some t →
        0 ∈ t.live :=
  ⟨by decide, by decide,
    fun events t h => lost_stream_run events _ t 0 (by decide) (by decide) (by decide) h⟩

/-- C9, at the failing input. The page is left while a request is pending;
the cleanup finds no stream to stop; the request is then granted and its
stream is live on the torn-down page, where no later event stops it. -/
theorem C9_stream_granted_after_teardown :
    Camera.run Camera.initial [.clickOpenCamera, .leavePage, .streamGranted]
      = some { cameraActive := false, cameraError := "", capturedImage := none,
               videoRef := false, streamRef := some 0, mounted := false, pending := 0,
               granted := 1, live := [0] }
    ∧ ∀ events t,
        Camera.run { cameraActive := false, cameraError := "", capturedImage := none,
                     videoRef := false, streamRef := some 0, mounted := false, pending := 0,
                     granted := 1, live := [0] } events = some t →
        0 ∈ t.live :=
  ⟨by decide,
    fun events t h => live_after_teardown_run events _ t 0 (by decide) (by decide) h⟩

/-- C10. In every reachable state of the controller: `capturePhoto` called
while the camera is not active (no live preview surface exists) changes no
state; called in Streaming (page mounted, camera active, no image shown) a
stream is held, and `capturePhoto` stores the encoded frame as the captured
image, stops every track of the held stream, releases the stream handle and
leaves the camera inactive, so that afterwards the captured image is present
and no stream is held; and `stopCamera` itself never clears a captured
image. -/
theorem C10_capturePhoto (events : List CameraEvent) (s : Camera) (frame : String)
    (hreach : Camera.initial.run events = some s) :
    (s.cameraActive = false → s.capturePhoto frame = s)
    ∧ (s.mounted = true → s.cameraActive = true → s.hasImage = false →
        (∃ id, s.streamRef = some id ∧ id ∉ (s.capturePhoto frame).live)
        ∧ (s.capturePhoto frame).capturedImage = some (Camera.toDataURL frame)
        ∧ (s.capturePhoto frame).hasImage = true
        ∧ (s.capturePhoto frame).streamRef = none
        ∧ (s.capturePhoto frame).cameraActive = false)
    ∧ s.stopCamera.capturedImage = s.capturedImage := by
  obtain ⟨hv, hs⟩ := cameraInvariant_run events _ s cameraInvariant_initial hreach
  refine ⟨?_, ?_, ?_⟩
  · intro hidle
    have : s.videoRef = false := by rw [hv, hidle]; simp
    simp [Camera.capturePhoto, this]
  · intro hm ha hi
    have hvid : s.videoRef = true := by rw [hv, hm, ha, hi]; rfl
    obtain ⟨id, hid⟩ := Option.isSome_iff_exists.1 (hs hm ha)
    have hurl : Camera.toDataURL frame ≠ "" := by
      intro h
      have hlen := congrArg String.length h
      simp only [Camera.toDataURL, String.length_append] at hlen
      have h5 : "data:".length = 5 := by decide
      rw [h5] at hlen
      have h0 : "".length = 0 := by decide
      omega
    refine ⟨⟨id, hid, ?_⟩, ?_, ?_, ?_, ?_⟩ <;>
      simp [Camera.capturePhoto, Camera.stopCamera, Camera.setCameraActive,
        Camera.setCapturedImage, Camera.hasImage, hvid, hm, hid, hurl]
  · cases hstream : s.streamRef <;>
      by_cases hm : s.mounted = true <;>
      simp [Camera.stopCamera, Camera.setCameraActive, hstream, hm]

/-- Witness of C10: the controller after Open Camera and a grant, that is, in
Streaming. -/
theorem C10_capturePhoto_witness :
    Camera.initial.run [.clickOpenCamera, .streamGranted]
      = some { cameraActive := true, cameraError := "", capturedImage := none,
               videoRef := true, streamRef := some 0, mounted := true, pending := 0,
               granted := 1, live := [0] }
    ∧ Camera.capturePhoto "iVBORw0KGgo="
        { cameraActive := true, cameraError := "", capturedImage := none,
          videoRef := true, streamRef := some 0, mounted := true, pending := 0,
          granted := 1, live := [0] }
      = { cameraActive := false, cameraError := "",
          capturedImage := some "data:iVBORw0KGgo=", videoRef := true, streamRef := none,
          mounted := true, pending := 0, granted := 1, live := [] }
    ∧ (Camera.capturePhoto "iVBORw0KGgo="
        { cameraActive := true, cameraError := "", capturedImage := none,
          videoRef := true, streamRef := some 0, mounted := true, pending := 0,
          granted := 1, live := [0] }).streamRef = none :=
  ⟨by decide, by decide,
    ((C10_capturePhoto [.clickOpenCamera, .streamGranted]
        { cameraActive := true, cameraError := "", capturedImage := none,
          videoRef := true, streamRef := some 0, mounted := true, pending := 0,
          granted := 1, live := [0] } "iVBORw0KGgo=" (by decide)).2.1
      rfl rfl rfl).2.2.2.1⟩

theorem append_ne_of_data_ne (p m t : String)
    (h : ∀ rest : List Char, p.data ++ rest ≠ t.data) : p ++ m ≠ t := by
  intro heq
  have hd := congrArg String.data heq
  rw [String.data_append] at hd
  exact h _ hd

theorem cameraErrorMessage_ne_empty (name message : String) :
    Camera.cameraErrorMessage name message ≠ "" := by
  unfold Camera.cameraErrorMessage
  split
  · decide
  · split
    · decide
    · exact append_ne_of_data_ne _ _ _ (by intro rest h; simp at h)

/-- When the denial is the next event after the click, a failure of the stream
request that `startCamera` makes from Idle (page mounted, camera not active, no
stream held, no image shown) leaves the controller Idle, without a stream and
with a non-empty error message: the permission-denied text when the error name
is `NotAllowedError` or `PermissionDeniedError`, the no-camera text when it is
`NotFoundError`, and `Camera error: ` followed by the error's own message
otherwise; the three classes get pairwise different messages; and no retry is
made. -/
theorem startCamera_failure_alone (s : Camera) (name message : String)
    (hm : s.mounted = true) (ha : s.cameraActive = false) (hs : s.streamRef = none)
    (hi : s.hasImage = false) :
    ∃ t, s.run [.clickOpenCamera, .streamDenied name message] = some t
      ∧ t.cameraActive = false ∧ t.streamRef = none ∧ t.hasImage = false
      ∧ t.cameraError ≠ ""
      ∧ t.cameraError =
          (if name = "NotAllowedError" ∨ name = "PermissionDeniedError" then
            "Camera permission was denied. Please allow camera access in your browser settings and try again."
          else if name = "NotFoundError" then "No camera found on this device."
          else "Camera error: " ++ message)
      ∧ ("Camera permission was denied. Please allow camera access in your browser settings and try again."
          ≠ "No camera found on this device.")
      ∧ ("Camera error: " ++ message
          ≠ "Camera permission was denied. Please allow camera access in your browser settings and try again.")
      ∧ "Camera error: " ++ message ≠ "No camera found on this device."
      ∧ t.pending = s.pending ∧ t.granted = s.granted ∧ t.live = s.live := by
  obtain ⟨active, err, img, vref, sref, mounted, pending, granted, live⟩ := s
  simp only at hm ha hs hi
  subst hm ha hs
  refine ⟨{ cameraActive := false, cameraError := Camera.cameraErrorMessage name message,
            capturedImage := none, videoRef := false, streamRef := none, mounted := true,
            pending := pending, granted := granted, live := live }, ?_, rfl, rfl, rfl,
          cameraErrorMessage_ne_empty name message, rfl, by decide, ?_, ?_, rfl, rfl, rfl⟩
  · cases img with
    | none =>
      simp [Camera.run, Camera.step, Camera.enabled, Camera.handle, Camera.commit,
        Camera.startCameraRequest, Camera.startCameraRejected, Camera.setCameraError,
        Camera.setCapturedImage, Camera.hasImage]
    | some url =>
      simp only [Camera.hasImage, decide_eq_false_iff_not, not_not] at hi
      subst hi
      simp [Camera.run, Camera.step, Camera.enabled, Camera.handle, Camera.commit,
        Camera.startCameraRequest, Camera.startCameraRejected, Camera.setCameraError,
        Camera.setCapturedImage, Camera.hasImage]
  · exact append_ne_of_data_ne _ _ _ (by intro rest h; simp at h)
  · exact append_ne_of_data_ne _ _ _ (by intro rest h; simp at h)

/-- C11, at the failing input. The button Open Camera stays rendered while a
request is pending, so a second request can be made from Idle (camera not
active, no stream held, no image); the first request is then granted and the
second denied. The `catch` block of `startCamera` only records the error: the
controller does not end Idle, it is Streaming, holds the live stream of the
first grant, and shows the error message of the failure beside it. -/
theorem C11_failure_while_streaming :
    Camera.run Camera.initial [.clickOpenCamera]
      = some { cameraActive := false, cameraError := "", capturedImage := none,
               videoRef := false, streamRef := none, mounted := true, pending := 1,
               granted := 0, live := [] }
    ∧ Camera.enabled
        { cameraActive := false, cameraError := "", capturedImage := none,
          videoRef := false, streamRef := none, mounted := true, pending := 1,
          granted := 0, live := [] } .clickOpenCamera = true
    ∧ Camera.run Camera.initial
        [.clickOpenCamera, .clickOpenCamera, .streamGranted,
          .streamDenied "NotAllowedError" "Permission denied"]
      = some { cameraActive := true,
               cameraError := Camera.cameraErrorMessage "NotAllowedError" "Permission denied",
               capturedImage := none, videoRef := true, streamRef := some 0,
               mounted := true, pending := 0, granted := 1, live := [0] } :=
  ⟨by decide, by decide, by decide⟩

theorem requesting_step (s t : Camera) (e : CameraEvent) (hreq : Requesting s)
    (huser : e.isAnswer = false) (h : s.step e = some t) : Requesting t := by
  obtain ⟨active, err, img, vref, sref, mounted, pending, granted, live⟩ := s
  obtain ⟨h1, h2, h3, h4⟩ := hreq
  simp only at h1 h2 h3 h4
  subst h1 h2 h3
  unfold Camera.step at h
  split at h
  · cases h
    cases e <;> cases mounted <;> cases sref <;>
      simp_all [Requesting, CameraEvent.isAnswer, Camera.handle, Camera.commit, Camera.enabled,
        Camera.startCameraRequest, Camera.stopCamera, Camera.capturePhoto, Camera.retake,
        Camera.unmount, Camera.setCameraActive, Camera.setCameraError,
        Camera.setCapturedImage, Camera.hasImage]
  · cases h

theorem requesting_run : ∀ (events : List CameraEvent) (s t : Camera),
    Requesting s → (∀ e ∈ events, e.isAnswer = false) → s.run events = some t → Requesting t
  | [], s, t, hreq, _, h => by
    simp only [Camera.run, Option.some.injEq] at h
    exact h ▸ hreq
  | e :: es, s, t, hreq, huser, h => by
    simp only [Camera.run] at h
    split at h
    · next u hu =>
      exact requesting_run es u t
        (requesting_step s u e hreq (huser e (List.mem_cons_self _ _)) hu)
        (fun x hx => huser x (List.mem_cons_of_mem _ hx)) h
    · cases h

/-- When `retake` is called with an image shown and the camera not active, it
discards the captured image and issues a new stream request without any grant:
immediately after `retake` the captured image is null, the previous error is
cleared, the camera is not active, one more request is pending and no stream
has been granted; and this lasts until a request is answered, whatever the user
does meanwhile. -/
theorem retake_from_inactive (s : Camera) (events : List CameraEvent) (t : Camera)
    (hm : s.mounted = true) (hi : s.hasImage = true) (ha : s.cameraActive = false)
    (huser : ∀ e ∈ events, e.isAnswer = false)
    (hrun : s.run (.clickRetake :: events) = some t) :
    (∃ r, s.step .clickRetake = some r
      ∧ r.capturedImage = none ∧ r.cameraError = "" ∧ r.cameraActive = false
      ∧ r.pending = s.pending + 1 ∧ r.granted = s.granted ∧ r.streamRef = s.streamRef
      ∧ r.live = s.live)
    ∧ t.capturedImage = none ∧ t.cameraError = "" ∧ t.cameraActive = false
    ∧ 0 < t.pending := by
  have hstep : s.step .clickRetake = some (Camera.commit (s.retake)) := by
    simp [Camera.step, Camera.enabled, Camera.handle, hm, hi]
  have hr : (Camera.commit (s.retake)).capturedImage = none
      ∧ (Camera.commit (s.retake)).cameraError = ""
      ∧ (Camera.commit (s.retake)).cameraActive = false
      ∧ (Camera.commit (s.retake)).pending = s.pending + 1
      ∧ (Camera.commit (s.retake)).granted = s.granted
      ∧ (Camera.commit (s.retake)).streamRef = s.streamRef
      ∧ (Camera.commit (s.retake)).live = s.live := by
    simp [Camera.commit, Camera.retake, Camera.startCameraRequest, Camera.setCameraError,
      Camera.setCapturedImage, hm, ha]
  refine ⟨⟨_, hstep, hr⟩, ?_⟩
  simp only [Camera.run, hstep] at hrun
  exact requesting_run events _ t ⟨hr.1, hr.2.1, hr.2.2.1, by omega⟩ huser hrun

/-- C12, at the failing input. After Open Camera is clicked twice, the first
request granted and a photo captured, the second request is granted while the
captured image is shown: the Retake button is rendered with the camera active
and a live stream held. `retake` then clears the image and the error and makes
a new request, but the camera stays active and the stream of the second grant
stays live: immediately after `retake` the camera is active, before any new
grant. -/
theorem C12_retake_while_active :
    Camera.run Camera.initial
        [.clickOpenCamera, .clickOpenCamera, .streamGranted, .clickCapture "iVBORw0KGgo=",
          .streamGranted]
      = some { cameraActive := true, cameraError := "",
               capturedImage := some "data:iVBORw0KGgo=", videoRef := false,
               streamRef := some 1, mounted := true, pending := 0, granted := 2,
               live := [1] }
    ∧ Camera.enabled
        { cameraActive := true, cameraError := "",
          capturedImage := some "data:iVBORw0KGgo=", videoRef := false,
          streamRef := some 1, mounted := true, pending := 0, granted := 2,
          live := [1] } .clickRetake = true
    ∧ Camera.run Camera.initial
        [.clickOpenCamera, .clickOpenCamera, .streamGranted, .clickCapture "iVBORw0KGgo=",
          .streamGranted, .clickRetake]
      = some { cameraActive := true, cameraError := "", capturedImage := none,
               videoRef := true, streamRef := some 1, mounted := true, pending := 1,
               granted := 2, live := [1] } :=
  ⟨by decide, by decide, by decide⟩

/-! ## The auth store -/

/-- C13. For every username and password, `login` returns success exactly when
the username equals `testuser` and the password equals `Test123` (an exact,
case-sensitive match); on success the session flag is persisted as `'true'` and
`isAuthenticated` becomes true; otherwise `login` returns `success = false`
with the fixed message and leaves the in-memory flag and the persisted flag
unchanged. -/
theorem C13_login (username password : String) (s : AuthState) :
    ((login username password s).1.success = true
      ↔ username = "testuser" ∧ password = "Test123")
    ∧ ((login username password s).1.success = true →
        (login username password s).2.session = some "true"
        ∧ (login username password s).2.authenticated = true)
    ∧ ((login username password s).1.success = false →
        (login username password s).1.message
          = some "Invalid username or password. Please try again."
        ∧ (login username password s).2 = s)
    ∧ (login "TestUser" "Test123" s).1.success = false
    ∧ (login "testuser" "test123" s).1.success = false := by
  have hu : VALID_USERNAME = "testuser" := rfl
  have hp : VALID_PASSWORD = "Test123" := rfl
  refine ⟨?_, ?_, ?_, ?_, ?_⟩
  · unfold login
    rw [hu, hp]
    split <;> simp_all
  · unfold login
    split <;> simp
  · unfold login
    split <;> simp
  · unfold login
    rw [if_neg (by rw [hu]; decide)]
  · unfold login
    rw [if_neg (by rw [hp]; decide)]

theorem authState_call_agree (s : AuthState) (c : AuthCall)
    (h : s.authenticated = true ↔ s.session = some "true") :
    (s.call c).authenticated = true ↔ (s.call c).session = some "true" := by
  cases c with
  | login username password =>
    simp only [AuthState.call, login]
    split
    · simp
    · exact h
  | logout => simp [AuthState.call, logout]

theorem authState_calls_agree : ∀ (cs : List AuthCall) (s : AuthState),
    (s.authenticated = true ↔ s.session = some "true") →
    ((s.calls cs).authenticated = true ↔ (s.calls cs).session = some "true")
  | [], _, h => h
  | c :: cs, s, h => by
    simp only [AuthState.calls, List.foldl_cons]
    exact authState_calls_agree cs (s.call c) (authState_call_agree s c h)

/-- C14. In every state reachable from initialization (which reads the
persisted value once) by any sequence of `login` and `logout` calls,
`isAuthenticated` is true exactly when the persisted session value is `'true'`;
and `logout`, from any prior state, leaves `isAuthenticated` false and the
persisted flag removed. -/
theorem C14_auth_flags_agree (stored : Option String) (calls : List AuthCall)
    (s : AuthState) :
    (((AuthState.init stored).calls calls).authenticated = true
      ↔ ((AuthState.init stored).calls calls).session = some "true")
    ∧ (logout s).authenticated = false ∧ (logout s).session = none := by
  refine ⟨authState_calls_agree calls _ ?_, rfl, rfl⟩
  simp [AuthState.init]

/-! ## The routes -/

theorem splitSlash_of_no_slash : ∀ cs : List Char, '/' ∉ cs → splitSlash cs = [cs]
  | [], _ => rfl
  | c :: cs, h => by
    have hc : c ≠ '/' := fun hc => h (by simp [hc])
    have hcs : '/' ∉ cs := fun hcs => h (List.mem_cons_of_mem _ hcs)
    simp [splitSlash, hc, splitSlash_of_no_slash cs hcs]

theorem dropTrailingEmpty_of_last (segs : List (List Char)) (seg : List Char)
    (hseg : seg ≠ []) : dropTrailingEmpty (segs ++ [seg]) = segs ++ [seg] := by
  unfold dropTrailingEmpty
  simp [List.dropWhile, hseg]

theorem employee_path_segments (id : String) (hid : id ≠ "") (hslash : '/' ∉ id.toList) :
    dropTrailingEmpty (splitSlash ("/employee/" ++ id).toList)
      = [[], ['e', 'm', 'p', 'l', 'o', 'y', 'e', 'e'], id.toList] := by
  have hne : id.toList ≠ [] := by
    intro h
    apply hid
    exact String.ext (by simpa using h)
  have hsplit : splitSlash ("/employee/" ++ id).toList
      = [[], ['e', 'm', 'p', 'l', 'o', 'y', 'e', 'e'], id.toList] := by
    have : ("/employee/" ++ id).toList
        = '/' :: 'e' :: 'm' :: 'p' :: 'l' :: 'o' :: 'y' :: 'e' :: 'e' :: '/' :: id.toList := by
      simp [String.toList, String.data_append]
    have hdata : splitSlash id.data = [id.data] := splitSlash_of_no_slash _ hslash
    rw [this]
    simp [splitSlash, hdata]
  rw [hsplit]
  exact dropTrailingEmpty_of_last [[], ['e', 'm', 'p', 'l', 'o', 'y', 'e', 'e']] _ hne

theorem App_employee (isAuthenticated : Bool) (id : String) (hid : id ≠ "")
    (hslash : '/' ∉ id.toList) :
    App isAuthenticated ("/employee/" ++ id)
      = ProtectedRoute isAuthenticated (.page .employeeDetails) := by
  have hne : id.toList ≠ [] := by
    intro h
    apply hid
    exact String.ext (by simpa using h)
  have hlogin : matchPath "/login" ("/employee/" ++ id) = false := by
    unfold matchPath
    rw [if_neg (by decide), employee_path_segments id hid hslash]
    rfl
  have hdash : matchPath "/dashboard" ("/employee/" ++ id) = false := by
    unfold matchPath
    rw [if_neg (by decide), employee_path_segments id hid hslash]
    rfl
  have hemp : matchPath "/employee/:id" ("/employee/" ++ id) = true := by
    unfold matchPath
    rw [if_neg (by decide), employee_path_segments id hid hslash]
    have : dropTrailingEmpty (splitSlash "/employee/:id".toList)
        = [[], ['e', 'm', 'p', 'l', 'o', 'y', 'e', 'e'], [':', 'i', 'd']] := by decide
    have hdata : ¬ id.data = [] := hne
    rw [this]
    simp [segmentsMatch, segmentMatches, asciiLower, hdata]
  simp [App, routes, firstMatch, hlogin, hdash, hemp]

theorem App_unauthenticated (path : String) :
    App false path = .page .login ∨ App false path = .navigate "/login" := by
  simp only [App, routes, firstMatch, ProtectedRoute, Bool.not_false, if_true]
  split_ifs <;> simp

/-- C15. For every path, when `isAuthenticated` is false the router renders no
protected page: what it renders is the login page or a redirect to `/login`;
`/dashboard`, `/employee/:id`, `/photo-result`, `/salary-chart` and `/city-map`
each redirect to `/login`, where the login page is rendered, and every path
that matches no route also redirects to `/login`; when `isAuthenticated` is true
each of the five protected paths renders its own page. -/
theorem C15_protected_routes (path id : String) (hid : id ≠ "")
    (hslash : '/' ∉ id.toList) :
    (App false path = .page .login ∨ App false path = .navigate "/login")
    ∧ (∀ p, App false path = .page p → p = .login)
    ∧ App false "/dashboard" = .navigate "/login"
    ∧ App false ("/employee/" ++ id) = .navigate "/login"
    ∧ App false "/photo-result" = .navigate "/login"
    ∧ App false "/salary-chart" = .navigate "/login"
    ∧ App false "/city-map" = .navigate "/login"
    ∧ App false "/login" = .page .login
    ∧ (∀ isAuthenticated,
        (∀ pattern ∈ ["/login", "/dashboard", "/employee/:id", "/photo-result",
            "/salary-chart", "/city-map"], matchPath pattern path = false) →
        App isAuthenticated path = .navigate "/login")
    ∧ App true "/dashboard" = .page .dashboard
    ∧ App true ("/employee/" ++ id) = .page .employeeDetails
    ∧ App true "/photo-result" = .page .photoResult
    ∧ App true "/salary-chart" = .page .salaryChart
    ∧ App true "/city-map" = .page .cityMap := by
  refine ⟨App_unauthenticated path, ?_, by decide, ?_, by decide, by decide, by decide,
    by decide, ?_, by decide, ?_, by decide, by decide, by decide⟩
  · intro p hp
    rcases App_unauthenticated path with h | h
    · rw [h] at hp; cases hp; rfl
    · rw [h] at hp; cases hp
  · rw [App_employee false id hid hslash]; rfl
  · intro isAuthenticated hnone
    simp only [List.mem_cons, List.mem_singleton, forall_eq_or_imp, forall_eq,
      List.not_mem_nil, false_implies, implies_true, and_true] at hnone
    obtain ⟨h1, h2, h3, h4, h5, h6⟩ := hnone
    have hstar : matchPath "*" path = true := by simp [matchPath]
    simp [App, routes, firstMatch, h1, h2, h3, h4, h5, h6, hstar]
  · rw [App_employee true id hid hslash]; rfl

/-- Witness of C15: the path `/employee/42`. -/
theorem C15_protected_routes_witness :
    App false "/employee/42" = .navigate "/login"
    ∧ App true "/employee/42" = .page .employeeDetails
    ∧ App true ("/employee/" ++ "42") = .page .employeeDetails :=
  ⟨by decide, by decide,
    (C15_protected_routes "/employee/42" "42" (by decide) (by decide)).2.2.2.2.2.2.2.2.2.2.1⟩

/-! ## The list view -/

theorem mapThrowing_ok {α β : Type} (f : α → Except Thrown β) (g : α → β) :
    ∀ l : List α, (∀ a ∈ l, f a = .ok (g a)) → mapThrowing f l = .ok (l.map g)
  | [], _ => rfl
  | a :: l, h => by
    simp [mapThrowing, h a (List.mem_cons_self _ _),
      mapThrowing_ok f g l fun x hx => h x (List.mem_cons_of_mem _ hx)]

theorem filterThrowing_ok {α : Type} (f : α → Except Thrown Bool) (p : α → Bool) :
    ∀ l : List α, (∀ a ∈ l, f a = .ok (p a)) → filterThrowing f l = .ok (l.filter p)
  | [], _ => rfl
  | a :: l, h => by
    simp only [filterThrowing, h a (List.mem_cons_self _ _),
      filterThrowing_ok f p l fun x hx => h x (List.mem_cons_of_mem _ hx), List.filter_cons]

theorem callToLowerCase_of_string (toLowerCase : String → String) (v : JSVal)
    (h : v.isString = true) :
    (v.or (.str "")).callToLowerCase toLowerCase = .ok (toLowerCase v.asString) := by
  cases v with
  | str s =>
    by_cases hs : s = ""
    · subst hs; rfl
    · simp [JSVal.or, JSVal.truthy, hs, JSVal.callToLowerCase, JSVal.asString]
  | undefined | null | bool _ | num _ | arr _ | obj _ => simp [JSVal.isString] at h

theorem searchFilter_of_strings (toLowerCase : String → String) (searchTerm : String)
    (l : List Employee) (hstr : ∀ e ∈ l, e.name.isString = true) :
    searchFilter toLowerCase searchTerm l
      = .ok (l.filter (matchesSearch toLowerCase searchTerm)) := by
  unfold searchFilter
  by_cases hs : searchTerm = ""
  · subst hs
    have hall : l.filter (matchesSearch toLowerCase "") = l :=
      List.filter_eq_self.2 fun e _ => by simp [matchesSearch]
    rw [hall]
    rfl
  · rw [if_neg hs]
    rw [filterThrowing_ok _ (matchesSearch toLowerCase searchTerm) l]
    intro e he
    simp [callToLowerCase_of_string toLowerCase e.name (hstr e he), matchesSearch, hs]

theorem cityFilterStep_of_strings (toLowerCase : String → String) (cityFilter : String)
    (l : List Employee) (hstr : ∀ e ∈ l, e.city.isString = true) :
    cityFilterStep toLowerCase cityFilter l
      = .ok (l.filter (matchesCity toLowerCase cityFilter)) := by
  unfold cityFilterStep
  by_cases hs : cityFilter = ""
  · subst hs
    have hall : l.filter (matchesCity toLowerCase "") = l :=
      List.filter_eq_self.2 fun e _ => by simp [matchesCity]
    rw [hall]
    rfl
  · rw [if_neg hs]
    rw [filterThrowing_ok _ (matchesCity toLowerCase cityFilter) l]
    intro e he
    simp [callToLowerCase_of_string toLowerCase e.city (hstr e he), matchesCity, hs]

theorem displayedEmployees_of_strings (toLowerCase : String → String)
    (employees : List Employee) (searchTerm cityFilter sortDirection : String)
    (hstr : ∀ e ∈ employees, e.name.isString = true ∧ e.city.isString = true) :
    displayedEmployees toLowerCase employees searchTerm cityFilter sortDirection
      = .ok (salarySort sortDirection
          (employees.filter fun e =>
            matchesSearch toLowerCase searchTerm e && matchesCity toLowerCase cityFilter e)) := by
  unfold displayedEmployees
  rw [searchFilter_of_strings toLowerCase searchTerm employees fun e he => (hstr e he).1]
  simp only
  rw [cityFilterStep_of_strings toLowerCase cityFilter _ fun e he =>
    (hstr e (List.mem_of_mem_filter he)).2]
  simp only [List.filter_filter]
  congr 2
  apply List.filter_congr
  intro e _
  exact Bool.and_comm _ _

/-- C16, as amended. With sorting off, for every employee list whose names and
cities are strings, every search term and every city selection, the displayed
list is exactly the employees, in their original order, whose name contains the
search term as a substring, both lower-cased (every employee when the term is
empty), and whose lower-cased city is the selected option, that is, whose city
equals the selected city ignoring case (every employee when no city is
selected). -/
theorem C16_displayed_filtered (toLowerCase : String → String) (employees : List Employee)
    (searchTerm cityFilter : String)
    (hstr : ∀ e ∈ employees, e.name.isString = true ∧ e.city.isString = true) :
    displayedEmployees toLowerCase employees searchTerm cityFilter ""
      = .ok (employees.filter fun e =>
          matchesSearch toLowerCase searchTerm e && matchesCity toLowerCase cityFilter e) := by
  rw [displayedEmployees_of_strings toLowerCase employees searchTerm cityFilter "" hstr]
  rfl

/-- Witness of C16: a search for `E` among the employees of Tokyo. -/
theorem C16_displayed_filtered_witness :
    displayedEmployees asciiLowerCase
        [employeeWith "Ann Lee" "Tokyo" 50, employeeWith "bob" "london" 10,
         employeeWith "Cy" "TOKYO" 30, employeeWith "Dee" "" 30] "E" "tokyo" ""
      = .ok ([employeeWith "Ann Lee" "Tokyo" 50, employeeWith "bob" "london" 10,
          employeeWith "Cy" "TOKYO" 30, employeeWith "Dee" "" 30].filter fun e =>
            matchesSearch asciiLowerCase "E" e && matchesCity asciiLowerCase "tokyo" e)
    ∧ ([employeeWith "Ann Lee" "Tokyo" 50, employeeWith "bob" "london" 10,
          employeeWith "Cy" "TOKYO" 30, employeeWith "Dee" "" 30].filter fun e =>
            matchesSearch asciiLowerCase "E" e && matchesCity asciiLowerCase "tokyo" e)
      = [employeeWith "Ann Lee" "Tokyo" 50] :=
  ⟨C16_displayed_filtered asciiLowerCase _ "E" "tokyo" (by decide), by decide!⟩

/-- Counterexample to C16 as stated: a row whose name field is the number `5`
is normalized to a record whose name is that number; with the search term `a`
the filter calls `toLowerCase` on it and throws, so no list is displayed. -/
theorem C16_counterexample_numeric_name :
    fetchEmployees (.fulfilled (tablePayload
      [.arr [.num (.fin 5), .str "Dev", .str "Pune", .str "7", .str "2020/01/01",
             .str "$320,800"]]))
      = .ok [{ id := "7", name := .num (.fin 5), position := .str "Dev", city := .str "Pune",
               startDate := .str "2020/01/01", salary := .fin 320800 }]
    ∧ displayedEmployees asciiLowerCase
        [{ id := "7", name := .num (.fin 5), position := .str "Dev", city := .str "Pune",
           startDate := .str "2020/01/01", salary := .fin 320800 }] "a" "" ""
      = .error .typeError := by
  decide!

theorem mem_distinct : ∀ (l : List String) (x : String), x ∈ distinct l ↔ x ∈ l
  | [], x => by simp [distinct]
  | y :: l, x => by
    simp only [distinct, List.mem_cons, List.mem_filter, mem_distinct l x, bne_iff_ne, ne_eq]
    constructor
    · rintro (h | ⟨h, _⟩)
      · exact Or.inl h
      · exact Or.inr h
    · rintro (h | h)
      · exact Or.inl h
      · by_cases hxy : x = y
        · exact Or.inl hxy
        · exact Or.inr ⟨h, hxy⟩

theorem nodup_distinct : ∀ l : List String, (distinct l).Nodup
  | [] => List.nodup_nil
  | y :: l => by
    simp only [distinct, List.nodup_cons, List.mem_filter, bne_iff_ne, ne_eq, not_and,
      not_not]
    exact ⟨fun _ => trivial, (nodup_distinct l).filter _⟩

theorem unitsLe_total : ∀ a b : List Nat, unitsLe a b = true ∨ unitsLe b a = true
  | [], _ => Or.inl (by simp [unitsLe])
  | _ :: _, [] => Or.inr (by simp [unitsLe])
  | x :: xs, y :: ys => by
    simp only [unitsLe]
    rcases Nat.lt_trichotomy x y with h | h | h
    · simp [h]
    · subst h
      simpa using unitsLe_total xs ys
    · simp [h]

theorem unitsLe_trans : ∀ a b c : List Nat,
    unitsLe a b = true → unitsLe b c = true → unitsLe a c = true
  | [], _, _, _, _ => by simp [unitsLe]
  | _ :: _, [], _, h, _ => by simp [unitsLe] at h
  | _ :: _, _ :: _, [], _, h => by simp [unitsLe] at h
  | x :: xs, y :: ys, z :: zs, h1, h2 => by
    simp only [unitsLe] at h1 h2 ⊢
    split_ifs at h1 h2 ⊢ <;> first
      | rfl
      | omega
      | exact unitsLe_trans xs ys zs h1 h2

theorem unitsLe_antisymm : ∀ a b : List Nat,
    unitsLe a b = true → unitsLe b a = true → a = b
  | [], [], _, _ => rfl
  | [], _ :: _, _, h => by simp [unitsLe] at h
  | _ :: _, [], h, _ => by simp [unitsLe] at h
  | x :: xs, y :: ys, h1, h2 => by
    simp only [unitsLe] at h1 h2
    split_ifs at h1 h2 <;> first
      | omega
      | (have hxy : x = y := by omega
         subst hxy
         rw [unitsLe_antisymm xs ys h1 h2])

theorem codeUnits_known_values :
    codeUnits (String.mk ['a', Char.ofNat 0x1F600]) = [97, 0xD83D, 0xDE00]
    ∧ codeUnitLe "london" "tokyo" ∧ ¬ codeUnitLe "tokyo" "london"
    ∧ codeUnitLe (String.mk [Char.ofNat 0x10000]) "\uFFFF"
    ∧ ¬ codeUnitLe "\uFFFF" (String.mk [Char.ofNat 0x10000]) := by
  decide

theorem utf16Units_ne_nil (c : Char) : utf16Units c ≠ [] := by
  unfold utf16Units
  split <;> simp

theorem char_eq_of_toNat_eq (c d : Char) (h : c.toNat = d.toNat) : c = d := by
  have := congrArg Char.ofNat h
  simpa using this

theorem utf16Units_append_inj (c d : Char) (xs ys : List Nat)
    (h : utf16Units c ++ xs = utf16Units d ++ ys) : c = d ∧ xs = ys := by
  have hc := c.valid
  have hd := d.valid
  have hcn : c.val.toNat = c.toNat := rfl
  have hdn : d.val.toNat = d.toNat := rfl
  simp only [UInt32.isValidChar, Nat.isValidChar, hcn, hdn] at hc hd
  unfold utf16Units at h
  split_ifs at h with h1 h2 h2
  · simp only [List.singleton_append, List.cons.injEq] at h
    exact ⟨char_eq_of_toNat_eq c d h.1, h.2⟩
  · simp only [List.singleton_append, List.cons_append, List.nil_append, List.cons.injEq] at h
    omega
  · simp only [List.singleton_append, List.cons_append, List.nil_append, List.cons.injEq] at h
    omega
  · simp only [List.cons_append, List.nil_append, List.cons.injEq] at h
    exact ⟨char_eq_of_toNat_eq c d (by omega), h.2.2⟩

theorem flatten_utf16Units_inj : ∀ cs ds : List Char,
    (cs.map utf16Units).flatten = (ds.map utf16Units).flatten → cs = ds
  | [], [], _ => rfl
  | [], d :: ds, h => by
    simp only [List.map_nil, List.flatten_nil, List.map_cons, List.flatten_cons] at h
    have := utf16Units_ne_nil d
    cases hu : utf16Units d with
    | nil => exact absurd hu this
    | cons x xs => rw [hu] at h; simp at h
  | c :: cs, [], h => by
    simp only [List.map_nil, List.flatten_nil, List.map_cons, List.flatten_cons] at h
    have := utf16Units_ne_nil c
    cases hu : utf16Units c with
    | nil => exact absurd hu this
    | cons x xs => rw [hu] at h; simp at h
  | c :: cs, d :: ds, h => by
    simp only [List.map_cons, List.flatten_cons] at h
    obtain ⟨hcd, hrest⟩ := utf16Units_append_inj c d _ _ h
    rw [hcd, flatten_utf16Units_inj cs ds hrest]

theorem codeUnits_injective (a b : String) (h : codeUnits a = codeUnits b) : a = b := by
  have := flatten_utf16Units_inj a.toList b.toList h
  exact String.ext this

instance : IsTotal String codeUnitLe := ⟨fun _ _ => unitsLe_total _ _⟩

instance : IsTrans String codeUnitLe := ⟨fun _ _ _ => unitsLe_trans _ _ _⟩

/-- A list sorted by code units and without duplicates is strictly
increasing. -/
theorem strictly_increasing_of_sorted (l : List String) (hs : l.Sorted codeUnitLe)
    (hn : l.Nodup) : l.Pairwise fun a b => codeUnitLe a b ∧ ¬ codeUnitLe b a := by
  have hand := List.Pairwise.and hs hn
  refine hand.imp ?_
  rintro a b ⟨hab, hne⟩
  exact ⟨hab, fun hba => hne (codeUnits_injective a b (unitsLe_antisymm _ _ hab hba))⟩

/-- C19, as amended. For every employee list whose city values are strings,
the city options of the filter control are exactly the lower-cased city values
of the employees with empty values excluded, listed without duplicates in
strictly increasing lexicographic order of their code units. -/
theorem C19_city_options (toLowerCase : String → String) (employees : List Employee)
    (hstr : ∀ e ∈ employees, e.city.isString = true) :
    ∃ options, cities toLowerCase employees = .ok options
      ∧ options.Pairwise (fun a b => codeUnitLe a b ∧ ¬ codeUnitLe b a)
      ∧ options.Nodup
      ∧ ∀ o, o ∈ options ↔ o ≠ "" ∧ ∃ e ∈ employees, toLowerCase e.city.asString = o := by
  have hmap : mapThrowing (fun e : Employee => (e.city.or (.str "")).callToLowerCase toLowerCase)
      employees = .ok (employees.map fun e => toLowerCase e.city.asString) :=
    mapThrowing_ok _ _ employees fun e he =>
      callToLowerCase_of_string toLowerCase e.city (hstr e he)
  have hnodup : (List.insertionSort codeUnitLe
      ((distinct (employees.map fun e => toLowerCase e.city.asString)).filter
        fun c => c != "")).Nodup :=
    (List.perm_insertionSort _ _).nodup_iff.2 ((nodup_distinct _).filter _)
  refine ⟨_, by simp only [cities, hmap], ?_, hnodup, ?_⟩
  · exact strictly_increasing_of_sorted _ (List.sorted_insertionSort codeUnitLe _) hnodup
  · intro o
    simp only [List.mem_insertionSort, List.mem_filter, mem_distinct, List.mem_map,
      bne_iff_ne, ne_eq]
    tauto

/-- Witness of C19: four employees, two of them in Tokyo and one without a
city. -/
theorem C19_city_options_witness :
    cities asciiLowerCase
        [employeeWith "Ann Lee" "Tokyo" 50, employeeWith "bob" "london" 10,
         employeeWith "Cy" "TOKYO" 30, employeeWith "Dee" "" 30]
      = .ok ["london", "tokyo"]
    ∧ ∃ options,
        cities asciiLowerCase
          [employeeWith "Ann Lee" "Tokyo" 50, employeeWith "bob" "london" 10,
           employeeWith "Cy" "TOKYO" 30, employeeWith "Dee" "" 30] = .ok options
        ∧ options.Pairwise (fun a b => codeUnitLe a b ∧ ¬ codeUnitLe b a)
        ∧ options.Nodup
        ∧ ∀ o, o ∈ options ↔ o ≠ "" ∧
            ∃ e ∈ [employeeWith "Ann Lee" "Tokyo" 50, employeeWith "bob" "london" 10,
              employeeWith "Cy" "TOKYO" 30, employeeWith "Dee" "" 30],
              asciiLowerCase e.city.asString = o :=
  ⟨by decide!, C19_city_options asciiLowerCase _ (by decide)⟩

/-- Counterexample to C19 as stated: a row whose city field is the number `5`
is normalized to a record whose city is that number, and the computation of the
city options calls `toLowerCase` on it and throws. -/
theorem C19_counterexample_numeric_city :
    fetchEmployees (.fulfilled (tablePayload
      [.arr [.str "Ann", .str "Dev", .num (.fin 5), .str "7", .str "2020/01/01",
             .str "$320,800"]]))
      = .ok [{ id := "7", name := .str "Ann", position := .str "Dev", city := .num (.fin 5),
               startDate := .str "2020/01/01", salary := .fin 320800 }]
    ∧ cities asciiLowerCase
        [{ id := "7", name := .str "Ann", position := .str "Dev", city := .num (.fin 5),
           startDate := .str "2020/01/01", salary := .fin 320800 }]
      = .error .typeError := by
  decide!

theorem diffSign_le_iff (a b : JSNum) (ha : a.isNaN = false) (hb : b.isNaN = false) :
    JSNum.diffSign a b ≤ 0 ↔ JSNum.le a b = true := by
  cases a with
  | nan => simp [JSNum.isNaN] at ha
  | inf n =>
    cases b with
    | nan => simp [JSNum.isNaN] at hb
    | inf m => cases n <;> cases m <;> simp [JSNum.diffSign, JSNum.le]
    | fin y => cases n <;> simp [JSNum.diffSign, JSNum.le]
  | fin x =>
    cases b with
    | nan => simp [JSNum.isNaN] at hb
    | inf m => cases m <;> simp [JSNum.diffSign, JSNum.le]
    | fin y =>
      simp only [JSNum.diffSign, JSNum.le, decide_eq_true_eq]
      split
      · next h => simp [h.le]
      · next h =>
        split
        · next h' => simp [not_le.2 h']
        · next h' => simp [not_lt.1 h']

theorem jsLe_total (a b : JSNum) (ha : a.isNaN = false) (hb : b.isNaN = false) :
    JSNum.le a b = true ∨ JSNum.le b a = true := by
  cases a with
  | nan => simp [JSNum.isNaN] at ha
  | inf n =>
    cases b with
    | nan => simp [JSNum.isNaN] at hb
    | inf m => cases n <;> cases m <;> simp [JSNum.le]
    | fin y => cases n <;> simp [JSNum.le]
  | fin x =>
    cases b with
    | nan => simp [JSNum.isNaN] at hb
    | inf m => cases m <;> simp [JSNum.le]
    | fin y => simpa [JSNum.le] using le_total x y

theorem jsLe_trans (a b c : JSNum) (hab : JSNum.le a b = true)
    (hbc : JSNum.le b c = true) : JSNum.le a c = true := by
  cases a with
  | nan => simp [JSNum.le] at hab
  | inf n =>
    cases b with
    | nan => simp [JSNum.le] at hab
    | inf m =>
      cases c with
      | nan => simp [JSNum.le] at hbc
      | inf k => cases n <;> cases m <;> cases k <;> simp_all [JSNum.le]
      | fin z => cases n <;> cases m <;> simp_all [JSNum.le]
    | fin y =>
      cases c with
      | nan => simp [JSNum.le] at hbc
      | inf k => cases n <;> cases k <;> simp_all [JSNum.le]
      | fin z => cases n <;> simp_all [JSNum.le]
  | fin x =>
    cases b with
    | nan => simp [JSNum.le] at hab
    | inf m =>
      cases c with
      | nan => simp [JSNum.le] at hbc
      | inf k => cases m <;> cases k <;> simp_all [JSNum.le]
      | fin z => cases m <;> simp_all [JSNum.le]
    | fin y =>
      cases c with
      | nan => simp [JSNum.le] at hbc
      | inf k => cases k <;> simp_all [JSNum.le]
      | fin z =>
        simp only [JSNum.le, decide_eq_true_eq] at hab hbc ⊢
        exact le_trans hab hbc

theorem sorted_orderedInsert_on {α : Type} (r : α → α → Prop) [DecidableRel r]
    (P : α → Prop) (htotal : ∀ a b, P a → P b → r a b ∨ r b a)
    (htrans : ∀ a b c, P a → P b → P c → r a b → r b c → r a c) (a : α) (ha : P a) :
    ∀ l : List α, (∀ b ∈ l, P b) → l.Sorted r → (l.orderedInsert r a).Sorted r
  | [], _, _ => List.sorted_singleton a
  | b :: l, hP, hs => by
    have hb : P b := hP b (List.mem_cons_self _ _)
    have hl : ∀ x ∈ l, P x := fun x hx => hP x (List.mem_cons_of_mem _ hx)
    by_cases hab : r a b
    · simp only [List.orderedInsert, if_pos hab]
      refine List.sorted_cons.2 ⟨?_, hs⟩
      intro x hx
      rcases List.mem_cons.1 hx with h | h
      · exact h ▸ hab
      · exact htrans a b x ha hb (hl x h) hab (List.rel_of_sorted_cons hs x h)
    · simp only [List.orderedInsert, if_neg hab]
      refine List.sorted_cons.2 ⟨?_, sorted_orderedInsert_on r P htotal htrans a ha l hl
        hs.of_cons⟩
      intro x hx
      rcases (List.mem_orderedInsert r).1 hx with h | h
      · rcases htotal a b ha hb with h' | h'
        · exact absurd h' hab
        · exact h ▸ h'
      · exact List.rel_of_sorted_cons hs x h

theorem sorted_insertionSort_on {α : Type} (r : α → α → Prop) [DecidableRel r]
    (P : α → Prop) (htotal : ∀ a b, P a → P b → r a b ∨ r b a)
    (htrans : ∀ a b c, P a → P b → P c → r a b → r b c → r a c) :
    ∀ l : List α, (∀ b ∈ l, P b) → (l.insertionSort r).Sorted r
  | [], _ => List.sorted_nil
  | a :: l, hP => by
    simp only [List.insertionSort]
    exact sorted_orderedInsert_on r P htotal htrans a (hP a (List.mem_cons_self _ _)) _
      (fun b hb => hP b (List.mem_cons_of_mem _ ((List.mem_insertionSort r).1 hb)))
      (sorted_insertionSort_on r P htotal htrans l fun b hb =>
        hP b (List.mem_cons_of_mem _ hb))

theorem sorted_salaryAscending (l : List Employee) (hnan : ∀ e ∈ l, e.salary.isNaN = false) :
    (l.insertionSort salaryAscending).Pairwise fun a b => JSNum.le a.salary b.salary = true := by
  have hs := sorted_insertionSort_on salaryAscending (fun e => e.salary.isNaN = false)
    (fun a b ha hb => by
      rcases jsLe_total a.salary b.salary ha hb with h | h
      · exact Or.inl ((diffSign_le_iff _ _ ha hb).2 h)
      · exact Or.inr ((diffSign_le_iff _ _ hb ha).2 h))
    (fun a b c ha hb hc hab hbc =>
      (diffSign_le_iff _ _ ha hc).2
        (jsLe_trans _ _ _ ((diffSign_le_iff _ _ ha hb).1 hab)
          ((diffSign_le_iff _ _ hb hc).1 hbc)))
    l hnan
  have hmem : ∀ e ∈ l.insertionSort salaryAscending, e.salary.isNaN = false :=
    fun e he => hnan e ((List.mem_insertionSort _).1 he)
  exact List.Pairwise.imp_of_mem
    (fun {a b} ha hb h => (diffSign_le_iff _ _ (hmem a ha) (hmem b hb)).1 h) hs

theorem sorted_salaryDescending (l : List Employee) (hnan : ∀ e ∈ l, e.salary.isNaN = false) :
    (l.insertionSort salaryDescending).Pairwise
      fun a b => JSNum.le b.salary a.salary = true := by
  have hs := sorted_insertionSort_on salaryDescending (fun e => e.salary.isNaN = false)
    (fun a b ha hb => by
      rcases jsLe_total a.salary b.salary ha hb with h | h
      · exact Or.inr ((diffSign_le_iff _ _ ha hb).2 h)
      · exact Or.inl ((diffSign_le_iff _ _ hb ha).2 h))
    (fun a b c ha hb hc hab hbc =>
      (diffSign_le_iff _ _ hc ha).2
        (jsLe_trans _ _ _ ((diffSign_le_iff _ _ hc hb).1 hbc)
          ((diffSign_le_iff _ _ hb ha).1 hab)))
    l hnan
  have hmem : ∀ e ∈ l.insertionSort salaryDescending, e.salary.isNaN = false :=
    fun e he => hnan e ((List.mem_insertionSort _).1 he)
  exact List.Pairwise.imp_of_mem
    (fun {a b} ha hb h => (diffSign_le_iff _ _ (hmem b hb) (hmem a ha)).1 h) hs

/-- C17, as amended. For every employee list whose names and cities are
strings and whose salaries are not `NaN` (`parseSalary` yields none from a JSON
payload), and for every filter setting, starting from the unsorted state,
successive sort toggles display: the filtered list in its original order; after
one toggle a permutation of the filtered list in non-decreasing salary order;
after two toggles a permutation of it in non-increasing salary order; after
three toggles the original order again. Filtering is applied before sorting and
the source list is never reordered: every display is computed from the same
`employees`. -/
theorem C17_sort_toggles (toLowerCase : String → String) (employees : List Employee)
    (searchTerm cityFilter : String)
    (hstr : ∀ e ∈ employees, e.name.isString = true ∧ e.city.isString = true)
    (hnan : ∀ e ∈ employees, e.salary.isNaN = false) :
    ∃ filtered ascending descending,
      filtered = (employees.filter fun e =>
        matchesSearch toLowerCase searchTerm e && matchesCity toLowerCase cityFilter e)
      ∧ displayedEmployees toLowerCase employees searchTerm cityFilter "" = .ok filtered
      ∧ displayedEmployees toLowerCase employees searchTerm cityFilter (toggleSort "")
          = .ok ascending
      ∧ ascending.Perm filtered
      ∧ ascending.Pairwise (fun a b => JSNum.le a.salary b.salary = true)
      ∧ displayedEmployees toLowerCase employees searchTerm cityFilter
          (toggleSort (toggleSort "")) = .ok descending
      ∧ descending.Perm filtered
      ∧ descending.Pairwise (fun a b => JSNum.le b.salary a.salary = true)
      ∧ displayedEmployees toLowerCase employees searchTerm cityFilter
          (toggleSort (toggleSort (toggleSort ""))) = .ok filtered := by
  have hfn : ∀ e ∈ (employees.filter fun e =>
      matchesSearch toLowerCase searchTerm e && matchesCity toLowerCase cityFilter e),
      e.salary.isNaN = false := fun e he => hnan e (List.mem_of_mem_filter he)
  have h1 : toggleSort "" = "asc" := by decide
  have h2 : toggleSort (toggleSort "") = "desc" := by decide
  have h3 : toggleSort (toggleSort (toggleSort "")) = "" := by decide
  refine ⟨_, _, _, rfl, ?_, ?_, List.perm_insertionSort salaryAscending _,
    sorted_salaryAscending _ hfn, ?_, List.perm_insertionSort salaryDescending _,
    sorted_salaryDescending _ hfn, ?_⟩
  · rw [displayedEmployees_of_strings _ _ _ _ _ hstr]; rfl
  · rw [h1, displayedEmployees_of_strings _ _ _ _ _ hstr]; rfl
  · rw [h2, displayedEmployees_of_strings _ _ _ _ _ hstr]; rfl
  · rw [h3, displayedEmployees_of_strings _ _ _ _ _ hstr]; rfl

/-- Witness of C17: the salaries `[50, 10, 30]` are displayed as `[10, 30,
50]`, then `[50, 30, 10]`, then `[50, 10, 30]` again. -/
theorem C17_sort_toggles_witness :
    (displayedEmployees asciiLowerCase
        [employeeWith "Ann" "Tokyo" 50, employeeWith "Bob" "London" 10,
         employeeWith "Cy" "Tokyo" 30] "" "" "asc"
      = .ok [employeeWith "Bob" "London" 10, employeeWith "Cy" "Tokyo" 30,
             employeeWith "Ann" "Tokyo" 50]
    ∧ displayedEmployees asciiLowerCase
        [employeeWith "Ann" "Tokyo" 50, employeeWith "Bob" "London" 10,
         employeeWith "Cy" "Tokyo" 30] "" "" "desc"
      = .ok [employeeWith "Ann" "Tokyo" 50, employeeWith "Cy" "Tokyo" 30,
             employeeWith "Bob" "London" 10]
    ∧ displayedEmployees asciiLowerCase
        [employeeWith "Ann" "Tokyo" 50, employeeWith "Bob" "London" 10,
         employeeWith "Cy" "Tokyo" 30] "" "" ""
      = .ok [employeeWith "Ann" "Tokyo" 50, employeeWith "Bob" "London" 10,
             employeeWith "Cy" "Tokyo" 30])
    ∧ ∃ filtered ascending descending,
      filtered = ([employeeWith "Ann" "Tokyo" 50, employeeWith "Bob" "London" 10,
          employeeWith "Cy" "Tokyo" 30].filter fun e =>
        matchesSearch asciiLowerCase "" e && matchesCity asciiLowerCase "" e)
      ∧ displayedEmployees asciiLowerCase
          [employeeWith "Ann" "Tokyo" 50, employeeWith "Bob" "London" 10,
           employeeWith "Cy" "Tokyo" 30] "" "" "" = .ok filtered
      ∧ displayedEmployees asciiLowerCase
          [employeeWith "Ann" "Tokyo" 50, employeeWith "Bob" "London" 10,
           employeeWith "Cy" "Tokyo" 30] "" "" (toggleSort "") = .ok ascending
      ∧ ascending.Perm filtered
      ∧ ascending.Pairwise (fun a b => JSNum.le a.salary b.salary = true)
      ∧ displayedEmployees asciiLowerCase
          [employeeWith "Ann" "Tokyo" 50, employeeWith "Bob" "London" 10,
           employeeWith "Cy" "Tokyo" 30] "" "" (toggleSort (toggleSort "")) = .ok descending
      ∧ descending.Perm filtered
      ∧ descending.Pairwise (fun a b => JSNum.le b.salary a.salary = true)
      ∧ displayedEmployees asciiLowerCase
          [employeeWith "Ann" "Tokyo" 50, employeeWith "Bob" "London" 10,
           employeeWith "Cy" "Tokyo" 30] "" "" (toggleSort (toggleSort (toggleSort "")))
        = .ok filtered :=
  ⟨by decide!, C17_sort_toggles asciiLowerCase _ "" "" (by decide) (by decide)⟩

/-- Counterexample to C17 as stated: with a record whose name is the number
`5` (as `fetchEmployees` yields for such a row) and the search term `a`, no
list is displayed in any sort direction. -/
theorem C17_counterexample_numeric_name :
    displayedEmployees asciiLowerCase
        [{ id := "7", name := .num (.fin 5), position := .str "Dev", city := .str "Pune",
           startDate := .str "2020/01/01", salary := .fin 50 },
         employeeWith "Bob" "London" 10] "a" "" ""
      = .error .typeError
    ∧ displayedEmployees asciiLowerCase
        [{ id := "7", name := .num (.fin 5), position := .str "Dev", city := .str "Pune",
           startDate := .str "2020/01/01", salary := .fin 50 },
         employeeWith "Bob" "London" 10] "a" "" (toggleSort "")
      = .error .typeError := by
  decide!

/-! ## Rounding to a double: error and exactness -/

theorem bitLenAux_lt : ∀ fuel n : Nat, n ≤ fuel → n < 2 ^ bitLenAux fuel n
  | 0, n, hle => by
    have : n = 0 := by omega
    subst this
    simp [bitLenAux]
  | fuel + 1, n, hle => by
    by_cases hn : n = 0
    · subst hn; simp [bitLenAux]
    · simp only [bitLenAux, hn, if_false]
      have ih := bitLenAux_lt fuel (n / 2) (by omega)
      rw [Nat.pow_succ]
      omega

theorem bitLen_lt (n : Nat) : n < 2 ^ bitLen n :=
  bitLenAux_lt n n (Nat.le_refl n)

theorem floorLog2_le (q : ℚ) (hq : 0 < q) : (2 : ℚ) ^ floorLog2 q ≤ q := by
  unfold floorLog2
  simp only
  split
  · next h => exact h
  · have hnum : 0 < q.num := Rat.num_pos.2 hq
    have hnat : 0 < q.num.natAbs := Int.natAbs_pos.2 hnum.ne'
    obtain ⟨h1, hlow⟩ := bitLen_spec q.num.natAbs hnat
    have hup := bitLen_lt q.den
    have hden : (0 : ℚ) < (q.den : ℚ) := by exact_mod_cast q.den_pos
    have hq' : q = (q.num.natAbs : ℚ) / (q.den : ℚ) := by
      have hcast : ((q.num.natAbs : ℕ) : ℚ) = (q.num : ℚ) := by
        rw [Nat.cast_natAbs, abs_of_pos hnum]
      rw [hcast]
      exact (Rat.num_div_den q).symm
    have he : ((bitLen q.num.natAbs : ℤ) - (bitLen q.den : ℤ) - 1)
        = ((bitLen q.num.natAbs - 1 : ℕ) : ℤ) - (bitLen q.den : ℤ) := by
      omega
    rw [he, zpow_sub₀ (by norm_num : (2 : ℚ) ≠ 0), zpow_natCast, zpow_natCast]
    conv_rhs => rw [hq']
    have hlow' : (2 : ℚ) ^ (bitLen q.num.natAbs - 1) ≤ (q.num.natAbs : ℚ) := by
      exact_mod_cast hlow
    have hup' : (q.den : ℚ) ≤ (2 : ℚ) ^ bitLen q.den := by
      exact_mod_cast hup.le
    have hpow : (0 : ℚ) < (2 : ℚ) ^ bitLen q.den := by positivity
    rw [div_le_div_iff₀ hpow hden]
    calc (2 : ℚ) ^ (bitLen q.num.natAbs - 1) * (q.den : ℚ)
        ≤ (q.num.natAbs : ℚ) * (q.den : ℚ) := by
          exact mul_le_mul_of_nonneg_right hlow' hden.le
      _ ≤ (q.num.natAbs : ℚ) * (2 : ℚ) ^ bitLen q.den := by
          exact mul_le_mul_of_nonneg_left hup' (by positivity)

theorem roundHalfEven_error (x : ℚ) : |(roundHalfEven x : ℚ) - x| ≤ 1 / 2 := by
  unfold roundHalfEven
  have h0 : (0 : ℚ) ≤ x - ⌊x⌋ := sub_nonneg.2 (Int.floor_le x)
  have h1 : x - ⌊x⌋ < 1 := by
    have := Int.lt_floor_add_one x
    linarith
  simp only
  split
  · next h => rw [abs_le]; constructor <;> linarith
  · split
    · next h h' => rw [abs_le]; push_cast; constructor <;> linarith
    · next h h' =>
      have heq : x - ⌊x⌋ = 1 / 2 := le_antisymm (not_lt.1 h') (not_lt.1 h)
      split
      · rw [abs_le]; constructor <;> linarith
      · rw [abs_le]; push_cast; constructor <;> linarith

theorem roundHalfEven_nonneg (x : ℚ) (hx : 0 ≤ x) : 0 ≤ roundHalfEven x := by
  have hf : 0 ≤ ⌊x⌋ := Int.floor_nonneg.2 hx
  unfold roundHalfEven
  simp only
  split
  · exact hf
  · split
    · omega
    · split
      · exact hf
      · omega

/-- The double of a positive rational in the normal range, spelled out, with
its error bound. -/
theorem toDouble_pos (q : ℚ) (hq : 0 < q) (hlow : (2 : ℚ) ^ (-1022 : ℤ) ≤ q)
    (hhigh : q < (2 : ℚ) ^ (1023 : ℤ)) :
    ∃ (m : ℤ) (u : ℤ), u = max (floorLog2 q - 52) (-1074)
      ∧ m = roundHalfEven (q / (2 : ℚ) ^ u)
      ∧ toDouble q = .fin ((m : ℚ) * (2 : ℚ) ^ u)
      ∧ |(m : ℚ) * (2 : ℚ) ^ u - q| ≤ q / 2 ^ 53 := by
  have hq0 : q ≠ 0 := hq.ne'
  have h2 : ∀ u : ℤ, (0 : ℚ) < (2 : ℚ) ^ u := fun u => zpow_pos (by norm_num) u
  set u : ℤ := max (floorLog2 q - 52) (-1074) with hu
  set m : ℤ := roundHalfEven (q / (2 : ℚ) ^ u) with hm
  have hpow : (2 : ℚ) ^ u ≤ q / 2 ^ 52 := by
    rcases max_cases (floorLog2 q - 52) (-1074) with ⟨h, _⟩ | ⟨h, _⟩
    · rw [hu, h, zpow_sub₀ (by norm_num : (2 : ℚ) ≠ 0)]
      have := floorLog2_le q hq
      have h52 : ((2 : ℚ) ^ (52 : ℤ)) = 2 ^ 52 := by norm_num
      rw [h52]
      exact div_le_div_of_nonneg_right this (by positivity)
    · rw [hu, h]
      have h1 : (2 : ℚ) ^ (-1074 : ℤ) = (2 : ℚ) ^ (-1022 : ℤ) / 2 ^ 52 := by
        rw [show (-1074 : ℤ) = -1022 - 52 by norm_num, zpow_sub₀ (by norm_num : (2 : ℚ) ≠ 0)]
        norm_num
      rw [h1]
      exact div_le_div_of_nonneg_right hlow (by positivity)
  have herr : |(m : ℚ) * (2 : ℚ) ^ u - q| ≤ q / 2 ^ 53 := by
    have hr := roundHalfEven_error (q / (2 : ℚ) ^ u)
    have heq : (m : ℚ) * (2 : ℚ) ^ u - q = ((m : ℚ) - q / (2 : ℚ) ^ u) * (2 : ℚ) ^ u := by
      field_simp
    rw [heq, abs_mul, abs_of_pos (h2 u)]
    calc |(m : ℚ) - q / (2 : ℚ) ^ u| * (2 : ℚ) ^ u
        ≤ 1 / 2 * (2 : ℚ) ^ u := mul_le_mul_of_nonneg_right hr (h2 u).le
      _ ≤ 1 / 2 * (q / 2 ^ 52) := mul_le_mul_of_nonneg_left hpow (by norm_num)
      _ = q / 2 ^ 53 := by ring
  refine ⟨m, u, rfl, rfl, ?_, herr⟩
  have hbig : ¬ ((2 : ℚ) ^ (1024 : ℤ) ≤ (m : ℚ) * (2 : ℚ) ^ u) := by
    have hle : (m : ℚ) * (2 : ℚ) ^ u ≤ q + q / 2 ^ 53 := by
      have := (abs_le.1 herr).2
      linarith
    have h1024 : (2 : ℚ) ^ (1024 : ℤ) = 2 * (2 : ℚ) ^ (1023 : ℤ) := by norm_num
    have hsmall : q / 2 ^ 53 ≤ q := div_le_self hq.le (by norm_num)
    rw [h1024]
    linarith
  unfold toDouble
  simp only [hq0, if_false, abs_of_pos hq, ← hu, ← hm, hbig, not_lt.2 hq.le]

theorem toDouble_neg (q : ℚ) :
    toDouble (-q) =
      match toDouble q with
      | .nan => .nan
      | .inf s => .inf (!s)
      | .fin v => .fin (-v) := by
  by_cases hq : q = 0
  · subst hq; simp [toDouble]
  · have hnq : -q ≠ 0 := neg_ne_zero.2 hq
    unfold toDouble
    simp only [hq, hnq, if_false, abs_neg]
    rcases lt_or_gt_of_ne hq with h | h
    · have h1 : ¬ (-q < 0) := by linarith
      simp only [h, h1, if_true, if_false]
      split <;> simp
    · have h1 : -q < 0 := by linarith
      have h2 : ¬ (q < 0) := by linarith
      simp only [h2, h1, if_true, if_false]
      split <;> simp

theorem toDouble_intCast (z : ℤ) (hz : |z| ≤ 2 ^ 53) : toDouble (z : ℚ) = .fin (z : ℚ) := by
  rcases le_or_lt 0 z with h | h
  · lift z to ℕ using h
    have hle : z ≤ 2 ^ 53 := by
      have := hz
      rw [abs_of_nonneg (by positivity)] at this
      exact_mod_cast this
    simpa using toDouble_natCast z hle
  · obtain ⟨n, hn⟩ : ∃ n : ℕ, z = -(n : ℤ) := ⟨(-z).toNat, by omega⟩
    subst hn
    have hle : n ≤ 2 ^ 53 := by
      rw [abs_neg, abs_of_nonneg (by positivity)] at hz
      exact_mod_cast hz
    have := toDouble_neg (n : ℚ)
    rw [toDouble_natCast n hle] at this
    simpa using this

/-- A positive half-integer below `2 ^ 52` is a double. -/
theorem toDouble_half_pos (h : ℤ) (hpos : 0 < h) (hlt : (h : ℚ) / 2 < 2 ^ 52) :
    toDouble ((h : ℚ) / 2) = .fin ((h : ℚ) / 2) := by
  have hq : (0 : ℚ) < (h : ℚ) / 2 := by
    have : (0 : ℚ) < (h : ℚ) := by exact_mod_cast hpos
    positivity
  have hlow : (2 : ℚ) ^ (-1022 : ℤ) ≤ (h : ℚ) / 2 := by
    have h1 : (2 : ℚ) ^ (-1022 : ℤ) ≤ 1 / 2 := by
      rw [show (1 / 2 : ℚ) = (2 : ℚ) ^ (-1 : ℤ) by norm_num]
      exact zpow_le_zpow_right₀ (by norm_num) (by norm_num)
    have h2 : (1 : ℚ) ≤ (h : ℚ) := by exact_mod_cast hpos
    linarith
  have hhigh : (h : ℚ) / 2 < (2 : ℚ) ^ (1023 : ℤ) := by
    have : (2 : ℚ) ^ 52 < (2 : ℚ) ^ (1023 : ℤ) := by norm_num
    linarith
  obtain ⟨m, u, hu, hm, hval, -⟩ := toDouble_pos _ hq hlow hhigh
  have he : floorLog2 ((h : ℚ) / 2) < 52 := by
    have h1 := floorLog2_le _ hq
    have h2 : (2 : ℚ) ^ floorLog2 ((h : ℚ) / 2) < (2 : ℚ) ^ (52 : ℤ) := by
      have : (2 : ℚ) ^ (52 : ℤ) = 2 ^ 52 := by norm_num
      rw [this]
      linarith
    exact (zpow_lt_zpow_iff_right₀ (by norm_num : (1 : ℚ) < 2)).1 h2
  have hu1 : u ≤ -1 := by
    rw [hu]
    exact max_le (by omega) (by norm_num)
  obtain ⟨j, hj⟩ : ∃ j : ℕ, u = -((j : ℤ) + 1) := ⟨(-u - 1).toNat, by omega⟩
  have hquot : (h : ℚ) / 2 / (2 : ℚ) ^ u = ((h * 2 ^ j : ℤ) : ℚ) := by
    rw [hj, zpow_neg, zpow_add₀ (by norm_num : (2 : ℚ) ≠ 0), zpow_natCast]
    push_cast
    field_simp
    ring
  rw [hquot, roundHalfEven_intCast] at hm
  rw [hval, hm, hj, zpow_neg, zpow_add₀ (by norm_num : (2 : ℚ) ≠ 0), zpow_natCast]
  push_cast
  congr 1
  field_simp
  ring

/-- Between `2 ^ (-1022)` and `2 ^ 52` in absolute value, the nearest double is
finite, within a relative error of `2 ^ (-53)`, and exact on half-integers. -/
theorem toDouble_approx (q : ℚ) (hlow : (2 : ℚ) ^ (-1022 : ℤ) ≤ |q|) (hhigh : |q| < 2 ^ 52) :
    ∃ v : ℚ, toDouble q = .fin v ∧ |v - q| ≤ |q| / 2 ^ 53 ∧
      ∀ h : ℤ, q = (h : ℚ) / 2 → v = q := by
  have h1023 : (2 : ℚ) ^ 52 < (2 : ℚ) ^ (1023 : ℤ) := by norm_num
  have hpos0 : (0 : ℚ) < (2 : ℚ) ^ (-1022 : ℤ) := by positivity
  rcases lt_trichotomy q 0 with hq | hq | hq
  · have hq' : 0 < -q := by linarith
    rw [abs_of_neg hq] at hlow hhigh
    obtain ⟨m, u, -, -, hval, herr⟩ := toDouble_pos (-q) hq' hlow (by linarith)
    have hneg := toDouble_neg (-q)
    rw [neg_neg, hval] at hneg
    refine ⟨-((m : ℚ) * 2 ^ u), hneg, ?_, ?_⟩
    · rw [abs_of_neg hq]
      have : -((m : ℚ) * 2 ^ u) - q = -((m : ℚ) * 2 ^ u - -q) := by ring
      rw [this, abs_neg]
      exact herr
    · intro h hh
      have hhalf : -q = ((-h : ℤ) : ℚ) / 2 := by
        rw [hh]
        push_cast
        ring
      have hhpos : 0 < -h := by
        have : (0 : ℚ) < ((-h : ℤ) : ℚ) := by
          rw [hhalf] at hq'
          linarith
        exact_mod_cast this
      have hex := toDouble_half_pos (-h) hhpos (by rw [← hhalf]; exact hhigh)
      rw [← hhalf, hval] at hex
      have := JSNum.fin.inj hex
      linarith
  · subst hq
    simp at hlow
    linarith
  · rw [abs_of_pos hq] at hlow hhigh
    obtain ⟨m, u, -, -, hval, herr⟩ := toDouble_pos q hq hlow (by linarith)
    refine ⟨(m : ℚ) * 2 ^ u, hval, ?_, ?_⟩
    · rw [abs_of_pos hq]
      exact herr
    · intro h hh
      have hhpos : 0 < h := by
        have : (0 : ℚ) < (h : ℚ) := by
          rw [hh] at hq
          linarith
        exact_mod_cast this
      have hex := toDouble_half_pos h hhpos (by rw [← hh]; exact hhigh)
      rw [← hh, hval] at hex
      exact JSNum.fin.inj hex

/-- Rounding the double nearest to a ratio `s / n` of integers gives the
nearest integer of the exact ratio (a tie going up), as long as
`|s| + n < 2 ^ 52`. -/
theorem mathRound_toDouble_ratio (s : ℤ) (n : ℕ) (hn : 0 < n)
    (hbound : |s| + (n : ℤ) < 2 ^ 52) :
    mathRound (toDouble ((s : ℚ) / (n : ℚ))) = .fin ⌊(s : ℚ) / (n : ℚ) + 1 / 2⌋ := by
  have hnq : (0 : ℚ) < (n : ℚ) := by exact_mod_cast hn
  have hn1 : (1 : ℚ) ≤ (n : ℚ) := by exact_mod_cast hn
  by_cases hs : s = 0
  · subst hs
    have h0 : toDouble (0 : ℚ) = .fin 0 := by simpa using toDouble_intCast 0 (by norm_num)
    have hfl : ⌊(1 / 2 : ℚ)⌋ = 0 := by
      rw [Int.floor_eq_iff]
      norm_num
    simp [h0, mathRound, hfl]
  have hsabs : (1 : ℤ) ≤ |s| := Int.one_le_abs hs
  have hsq : (1 : ℚ) ≤ |(s : ℚ)| := by
    have : ((1 : ℤ) : ℚ) ≤ ((|s| : ℤ) : ℚ) := by exact_mod_cast hsabs
    simpa using this
  have hboundq : |(s : ℚ)| + (n : ℚ) < 2 ^ 52 := by
    have : ((|s| + (n : ℤ) : ℤ) : ℚ) < ((2 ^ 52 : ℤ) : ℚ) := by exact_mod_cast hbound
    simpa using this
  have habs : |(s : ℚ) / (n : ℚ)| = |(s : ℚ)| / (n : ℚ) := by
    rw [abs_div, abs_of_pos hnq]
  have hqle : |(s : ℚ) / (n : ℚ)| ≤ |(s : ℚ)| := by
    rw [habs]
    exact div_le_self (abs_nonneg _) hn1
  have hlow : (2 : ℚ) ^ (-1022 : ℤ) ≤ |(s : ℚ) / (n : ℚ)| := by
    rw [habs, le_div_iff₀ hnq]
    have h1 : (2 : ℚ) ^ (-1022 : ℤ) ≤ (2 : ℚ) ^ (-52 : ℤ) :=
      zpow_le_zpow_right₀ (by norm_num) (by norm_num)
    have h2 : (2 : ℚ) ^ (-52 : ℤ) * (n : ℚ) ≤ 1 := by
      have : (n : ℚ) ≤ 2 ^ 52 := by linarith [abs_nonneg (s : ℚ)]
      have h3 : (2 : ℚ) ^ (-52 : ℤ) * 2 ^ 52 = 1 := by norm_num
      nlinarith [show (0 : ℚ) < (2 : ℚ) ^ (-52 : ℤ) by positivity]
    have h4 : (2 : ℚ) ^ (-1022 : ℤ) * (n : ℚ) ≤ (2 : ℚ) ^ (-52 : ℤ) * (n : ℚ) :=
      mul_le_mul_of_nonneg_right h1 hnq.le
    linarith
  have hhigh : |(s : ℚ) / (n : ℚ)| < 2 ^ 52 := by linarith
  obtain ⟨v, hv, herr, hexact⟩ := toDouble_approx _ hlow hhigh
  have herr2 : |v - (s : ℚ) / (n : ℚ)| < 1 / (2 * (n : ℚ)) := by
    refine lt_of_le_of_lt herr ?_
    rw [habs, div_div, div_lt_div_iff₀ (by positivity) (by positivity)]
    have : |(s : ℚ)| < 2 ^ 52 := by linarith
    nlinarith
  rw [hv]
  simp only [mathRound]
  set k : ℤ := ⌊(s : ℚ) / (n : ℚ) + 1 / 2⌋ with hk
  have hk1 : (k : ℚ) ≤ (s : ℚ) / (n : ℚ) + 1 / 2 := Int.floor_le _
  have hk2 : (s : ℚ) / (n : ℚ) + 1 / 2 < (k : ℚ) + 1 := Int.lt_floor_add_one _
  have hi1 : 2 * (n : ℤ) * k ≤ 2 * s + n := by
    have : (2 * (n : ℚ) * (k : ℚ)) ≤ 2 * (s : ℚ) + (n : ℚ) := by
      have h := mul_le_mul_of_nonneg_left hk1 (show (0 : ℚ) ≤ 2 * (n : ℚ) by positivity)
      have e : 2 * (n : ℚ) * ((s : ℚ) / (n : ℚ) + 1 / 2) = 2 * (s : ℚ) + (n : ℚ) := by
        field_simp
        ring
      linarith
    exact_mod_cast this
  have hi2 : 2 * s + n < 2 * (n : ℤ) * (k + 1) := by
    have : 2 * (s : ℚ) + (n : ℚ) < (2 * (n : ℚ) * ((k : ℚ) + 1)) := by
      have h := mul_lt_mul_of_pos_left hk2 (show (0 : ℚ) < 2 * (n : ℚ) by positivity)
      have e : 2 * (n : ℚ) * ((s : ℚ) / (n : ℚ) + 1 / 2) = 2 * (s : ℚ) + (n : ℚ) := by
        field_simp
        ring
      linarith
    exact_mod_cast this
  have hq2 : (s : ℚ) / (n : ℚ) + 1 / 2 ≤ (k : ℚ) + 1 - 1 / (2 * (n : ℚ)) := by
    have hi2' : 2 * s + (n : ℤ) + 1 ≤ 2 * (n : ℤ) * (k + 1) := by omega
    have : 2 * (s : ℚ) + (n : ℚ) + 1 ≤ 2 * (n : ℚ) * ((k : ℚ) + 1) := by exact_mod_cast hi2'
    have e : (s : ℚ) / (n : ℚ) + 1 / 2 = (2 * (s : ℚ) + (n : ℚ)) / (2 * (n : ℚ)) := by
      field_simp
      ring
    have e2 : (k : ℚ) + 1 - 1 / (2 * (n : ℚ)) =
        (2 * (n : ℚ) * ((k : ℚ) + 1) - 1) / (2 * (n : ℚ)) := by
      field_simp
      ring
    rw [e, e2]
    exact div_le_div_of_nonneg_right (by linarith) (by positivity)
  have habs2 := abs_lt.1 herr2
  suffices hfl : ⌊v + 1 / 2⌋ = k by rw [hfl]
  rw [Int.floor_eq_iff]
  refine ⟨?_, by linarith [habs2.2]⟩
  rcases eq_or_lt_of_le hi1 with htie | hgt
  · have hhalf : (s : ℚ) / (n : ℚ) = ((2 * k - 1 : ℤ) : ℚ) / 2 := by
      have : 2 * (n : ℚ) * (k : ℚ) = 2 * (s : ℚ) + (n : ℚ) := by exact_mod_cast htie
      push_cast
      field_simp
      linarith
    have hvq := hexact (2 * k - 1) hhalf
    rw [hvq, hhalf]
    push_cast
    linarith
  · have hi1' : 2 * (n : ℤ) * k + 1 ≤ 2 * s + n := by omega
    have : 2 * (n : ℚ) * (k : ℚ) + 1 ≤ 2 * (s : ℚ) + (n : ℚ) := by exact_mod_cast hi1'
    have e : (s : ℚ) / (n : ℚ) + 1 / 2 = (2 * (s : ℚ) + (n : ℚ)) / (2 * (n : ℚ)) := by
      field_simp
      ring
    have e2 : (k : ℚ) + 1 / (2 * (n : ℚ)) =
        (2 * (n : ℚ) * (k : ℚ) + 1) / (2 * (n : ℚ)) := by
      field_simp
      ring
    have hq1 : (k : ℚ) + 1 / (2 * (n : ℚ)) ≤ (s : ℚ) / (n : ℚ) + 1 / 2 := by
      rw [e, e2]
      exact div_le_div_of_nonneg_right (by linarith) (by positivity)
    linarith [habs2.1]

theorem numberOrZero_fin (q : ℚ) : numberOrZero (.fin q) = .fin q := by
  by_cases hq : q = 0
  · subst hq
    simp [numberOrZero]
  · simp [numberOrZero, JSVal.truthy, hq]

theorem natAbs_sum_cast (zs : List ℤ) : |zs.sum| ≤ ((zs.map Int.natAbs).sum : ℤ) := by
  induction zs with
  | nil => simp
  | cons z zs ih =>
    simp only [List.sum_cons, List.map_cons, Nat.cast_add, Int.natCast_natAbs]
    exact (abs_add _ _).trans (by linarith)

/-- The left-to-right sum of integer doubles is exact while the absolute values
add up to at most `2 ^ 53`. -/
theorem foldl_add_int (zs : List ℤ) : ∀ a : ℤ,
    a.natAbs + (zs.map Int.natAbs).sum ≤ 2 ^ 53 →
    (zs.map fun z : ℤ => JSNum.fin (z : ℚ)).foldl JSNum.add (.fin (a : ℚ))
      = .fin ((a + zs.sum : ℤ) : ℚ) := by
  induction zs with
  | nil => intro a _; simp
  | cons z zs ih =>
    intro a h
    simp only [List.map_cons, List.sum_cons, List.foldl_cons] at h ⊢
    have hstep : JSNum.add (.fin (a : ℚ)) (.fin (z : ℚ)) = .fin ((a + z : ℤ) : ℚ) := by
      simp only [JSNum.add]
      rw [← Int.cast_add]
      apply toDouble_intCast
      have h1 : (a + z).natAbs ≤ a.natAbs + z.natAbs := Int.natAbs_add_le a z
      rw [Int.abs_eq_natAbs]
      exact_mod_cast (by omega : (a + z).natAbs ≤ 2 ^ 53)
    rw [hstep, ih (a + z)]
    · rw [add_assoc]
    · have : (a + z).natAbs ≤ a.natAbs + z.natAbs := Int.natAbs_add_le a z
      omega

/-- The running maximum of `Math.max` over integer doubles. -/
theorem foldl_max2_int (zs : List ℤ) : ∀ a : ℤ,
    ∃ m : ℤ, (zs.map fun z : ℤ => JSNum.fin (z : ℚ)).foldl JSNum.max2 (.fin (a : ℚ)) = .fin (m : ℚ)
      ∧ (m = a ∨ m ∈ zs) ∧ a ≤ m ∧ ∀ z ∈ zs, z ≤ m := by
  induction zs with
  | nil => intro a; exact ⟨a, by simp⟩
  | cons z zs ih =>
    intro a
    simp only [List.map_cons, List.foldl_cons]
    by_cases haz : a ≤ z
    · have hstep : JSNum.max2 (.fin (a : ℚ)) (.fin (z : ℚ)) = .fin (z : ℚ) := by
        simp [JSNum.max2, JSNum.le, haz]
      obtain ⟨m, hm, hin, hle, hall⟩ := ih z
      refine ⟨m, by rw [hstep, hm], ?_, by omega, ?_⟩
      · rcases hin with h | h
        · exact Or.inr (by simp [h])
        · exact Or.inr (by simp [h])
      · intro x hx
        rcases List.mem_cons.1 hx with h | h
        · omega
        · exact hall x h
    · have hstep : JSNum.max2 (.fin (a : ℚ)) (.fin (z : ℚ)) = .fin (a : ℚ) := by
        simp [JSNum.max2, JSNum.le, haz]
      obtain ⟨m, hm, hin, hle, hall⟩ := ih a
      refine ⟨m, by rw [hstep, hm], ?_, hle, ?_⟩
      · rcases hin with h | h
        · exact Or.inl h
        · exact Or.inr (by simp [h])
      · intro x hx
        rcases List.mem_cons.1 hx with h | h
        · omega
        · exact hall x h

theorem mathMax_int (z : ℤ) (zs : List ℤ) :
    ∃ m ∈ z :: zs, mathMax ((z :: zs).map fun z : ℤ => JSNum.fin (z : ℚ)) = .fin (m : ℚ)
      ∧ ∀ x ∈ z :: zs, x ≤ m := by
  obtain ⟨m, hm, hin, hle, hall⟩ := foldl_max2_int zs z
  refine ⟨m, ?_, ?_, ?_⟩
  · rcases hin with h | h
    · simp [h]
    · simp [h]
  · simp only [mathMax, List.map_cons, List.foldl_cons]
    have : JSNum.max2 (.inf true) (.fin (z : ℚ)) = .fin (z : ℚ) := by
      simp [JSNum.max2, JSNum.le]
    rw [this, hm]
  · intro x hx
    rcases List.mem_cons.1 hx with h | h
    · omega
    · exact hall x h

/-- C18, as amended. The summary figures are computed from the full employee
list alone, so they are the same for every search term, city filter and sort
direction; for the empty list all three are `0`; for a non-empty list whose
salaries are integers with the sum of their absolute values plus the number of
employees below `2 ^ 52`, total is the number of employees, avg is the exact
mean salary rounded to the nearest integer (a tie going up) and max is the
largest salary. -/
theorem C18_summary_statistics (employees : List Employee) (zs : List ℤ)
    (hsal : (employees.map fun e => e.salary) = zs.map fun z : ℤ => JSNum.fin (z : ℚ))
    (hbound : (zs.map Int.natAbs).sum + zs.length < 2 ^ 52)
    (searchTerm cityFilter sortDirection : String) :
    (∀ searchTerm' cityFilter' sortDirection' : String,
        summaryCards employees searchTerm cityFilter sortDirection
          = summaryCards employees searchTerm' cityFilter' sortDirection')
    ∧ (employees = [] →
        summaryCards employees searchTerm cityFilter sortDirection
          = { total := 0, avg := .fin 0, max := .fin 0 })
    ∧ (employees ≠ [] →
        (summaryCards employees searchTerm cityFilter sortDirection).total = employees.length
        ∧ (summaryCards employees searchTerm cityFilter sortDirection).avg
            = .fin ⌊(zs.sum : ℚ) / (zs.length : ℚ) + 1 / 2⌋
        ∧ ∃ m ∈ zs, (summaryCards employees searchTerm cityFilter sortDirection).max
            = .fin (m : ℚ) ∧ ∀ z ∈ zs, z ≤ m) := by
  refine ⟨fun _ _ _ => rfl, ?_, ?_⟩
  · intro h
    subst h
    rfl
  · intro hne
    have hlen : employees.length = zs.length := by
      have := congrArg List.length hsal
      simpa using this
    have hpos : 0 < employees.length := List.length_pos.2 hne
    have hsalaries : (employees.map fun e => numberOrZero e.salary)
        = zs.map fun z : ℤ => JSNum.fin (z : ℚ) := by
      have : (employees.map fun e => numberOrZero e.salary)
          = (employees.map fun e => e.salary).map numberOrZero := by
        simp [List.map_map, Function.comp_def]
      rw [this, hsal, List.map_map]
      apply List.map_congr_left
      intro z _
      exact numberOrZero_fin _
    have hstats : stats employees =
        { total := employees.length
          avg := mathRound (((zs.map fun z : ℤ => JSNum.fin (z : ℚ)).foldl JSNum.add
            (.fin 0)).divCount zs.length)
          max := mathMax (zs.map fun z : ℤ => JSNum.fin (z : ℚ)) } := by
      simp only [stats, if_neg (Nat.pos_iff_ne_zero.1 hpos), hsalaries, List.length_map]
    simp only [summaryCards, hstats]
    refine ⟨trivial, ?_, ?_⟩
    · have hfold := foldl_add_int zs 0 (by simp; omega)
      simp only [Int.cast_zero, zero_add] at hfold
      rw [hfold]
      have hzpos : 0 < zs.length := hlen ▸ hpos
      simp only [JSNum.divCount, if_neg (Nat.pos_iff_ne_zero.1 hzpos)]
      apply mathRound_toDouble_ratio zs.sum zs.length hzpos
      have h1 := natAbs_sum_cast zs
      have h2 : (((zs.map Int.natAbs).sum : ℕ) : ℤ) + (zs.length : ℤ) < 2 ^ 52 := by
        exact_mod_cast hbound
      linarith
    · cases zs with
      | nil => exact absurd (List.length_eq_zero.1 hlen) hne
      | cons z zs => exact mathMax_int z zs

/-- Witness of C18: salaries 100, 200 and 300 give total 3, average 200 and
max 300, also while a search for `ann` leaves one row visible. -/
theorem C18_summary_statistics_witness :
    displayedEmployees asciiLowerCase
        [employeeWith "Ann" "Pune" 100, employeeWith "Bob" "Delhi" 200,
         employeeWith "Cy" "Goa" 300] "ann" "" ""
      = .ok [employeeWith "Ann" "Pune" 100]
    ∧ summaryCards [employeeWith "Ann" "Pune" 100, employeeWith "Bob" "Delhi" 200,
         employeeWith "Cy" "Goa" 300] "ann" "" ""
      = { total := 3, avg := .fin 200, max := .fin 300 }
    ∧ ((∀ searchTerm' cityFilter' sortDirection' : String,
        summaryCards [employeeWith "Ann" "Pune" 100, employeeWith "Bob" "Delhi" 200,
            employeeWith "Cy" "Goa" 300] "ann" "" ""
          = summaryCards [employeeWith "Ann" "Pune" 100, employeeWith "Bob" "Delhi" 200,
            employeeWith "Cy" "Goa" 300] searchTerm' cityFilter' sortDirection')
      ∧ ([employeeWith "Ann" "Pune" 100, employeeWith "Bob" "Delhi" 200,
            employeeWith "Cy" "Goa" 300] = [] →
          summaryCards [employeeWith "Ann" "Pune" 100, employeeWith "Bob" "Delhi" 200,
            employeeWith "Cy" "Goa" 300] "ann" "" ""
            = { total := 0, avg := .fin 0, max := .fin 0 })
      ∧ ([employeeWith "Ann" "Pune" 100, employeeWith "Bob" "Delhi" 200,
            employeeWith "Cy" "Goa" 300] ≠ [] →
          (summaryCards [employeeWith "Ann" "Pune" 100, employeeWith "Bob" "Delhi" 200,
            employeeWith "Cy" "Goa" 300] "ann" "" "").total = 3
          ∧ (summaryCards [employeeWith "Ann" "Pune" 100, employeeWith "Bob" "Delhi" 200,
            employeeWith "Cy" "Goa" 300] "ann" "" "").avg
              = .fin ⌊(([100, 200, 300] : List ℤ).sum : ℚ) / (3 : ℕ) + 1 / 2⌋
          ∧ ∃ m ∈ ([100, 200, 300] : List ℤ),
              (summaryCards [employeeWith "Ann" "Pune" 100, employeeWith "Bob" "Delhi" 200,
                employeeWith "Cy" "Goa" 300] "ann" "" "").max = .fin (m : ℚ)
              ∧ ∀ z ∈ ([100, 200, 300] : List ℤ), z ≤ m)) :=
  ⟨by decide!, by decide!,
    C18_summary_statistics
      [employeeWith "Ann" "Pune" 100, employeeWith "Bob" "Delhi" 200,
        employeeWith "Cy" "Goa" 300] [100, 200, 300] (by simp [employeeWith]) (by decide)
      "ann" "" ""⟩

/-- Counterexample to C18 as stated: with the salaries 9007199254740992, 1, 1
and 1 the mean is 2251799813685248.75, which rounds to 2251799813685249, but
the sum is accumulated in double precision and stays at 9007199254740992, so
the average shown is 2251799813685248. -/
theorem C18_counterexample_large_salaries :
    (summaryCards [employeeWith "Ann" "Pune" 9007199254740992, employeeWith "Bob" "Delhi" 1,
        employeeWith "Cy" "Goa" 1, employeeWith "Dee" "Goa" 1] "" "" "").avg
      = .fin 2251799813685248
    ∧ ⌊((9007199254740992 + 1 + 1 + 1 : ℚ)) / 4 + 1 / 2⌋ = 2251799813685249 := by
  decide!

/-! ## The city coordinates -/

deriving instance DecidableEq for Marker

/-- Outside the property names inherited from `Object.prototype` the lookup is
as documented: the default for the empty name, else the entry the table lists
for the trimmed, lower-cased name, or the default if it lists none. -/
theorem getCityCoords_of_plain_key (toLowerCase : String → String) (s : String)
    (hplain : toLowerCase (String.mk (trimWhiteSpace s.toList)) ∉ OBJECT_PROTOTYPE_KEYS) :
    getCityCoords toLowerCase (.str s)
      = .ok (if s = "" then DEFAULT_COORDS
          else (CITY_COORDS.lookup (toLowerCase (String.mk (trimWhiteSpace s.toList)))).getD
            DEFAULT_COORDS) := by
  by_cases hs : s = ""
  · subst hs
    rfl
  · have : ((JSVal.str s).truthy) = true := by simp [JSVal.truthy, hs]
    simp only [getCityCoords, this, Bool.not_true, cityCoordsGet, if_neg hs]
    cases hl : CITY_COORDS.lookup (toLowerCase (String.mk (trimWhiteSpace s.toList))) with
    | none => simp only [if_neg hplain, Option.getD_none, Bool.false_eq_true, if_false]
    | some c => simp only [Option.getD_some, Bool.false_eq_true, if_false]

theorem getCityCoords_known_values :
    getCityCoords asciiLowerCase (.str "TOKYO")
        = .ok (.point (toDouble 35.6762) (toDouble 139.6503))
    ∧ getCityCoords asciiLowerCase (.str " tokyo ")
        = .ok (.point (toDouble 35.6762) (toDouble 139.6503))
    ∧ getCityCoords asciiLowerCase (.str "Atlantis") = .ok DEFAULT_COORDS
    ∧ getCityCoords asciiLowerCase (.str "") = .ok DEFAULT_COORDS
    ∧ getCityCoords asciiLowerCase .undefined = .ok DEFAULT_COORDS
    ∧ DEFAULT_COORDS = .point (.fin 30) (.fin 10) := by
  decide!

/-- C20 fails in the code. The city name `constructor` is not listed in the
table, yet `getCityCoords` does not return the default coordinate for it: the
read `CITY_COORDS[key]` finds the member `constructor` that the table inherits
from `Object.prototype`, a function, which is truthy and is returned; its `lat`
and `lng` are `undefined`, and so are those of the marker of a record with that
city. The same holds for `__proto__`, with any case and surrounding blanks. -/
theorem C20_inherited_name_not_default :
    CITY_COORDS.lookup "constructor" = none
    ∧ getCityCoords asciiLowerCase (.str "constructor") = .ok (.inherited "constructor")
    ∧ getCityCoords asciiLowerCase (.str "constructor") ≠ .ok DEFAULT_COORDS
    ∧ getCityCoords asciiLowerCase (.str " Constructor ") = .ok (.inherited "constructor")
    ∧ getCityCoords asciiLowerCase (.str "__PROTO__") = .ok (.inherited "__proto__")
    ∧ markers asciiLowerCase [employeeWith "Ann" "constructor" 100]
        = .ok [{ employee := employeeWith "Ann" "constructor" 100, lat := none, lng := none }]
    ∧ markers asciiLowerCase [employeeWith "Ann" "Tokyo" 100, employeeWith "Bob" "" 100]
        = .ok [{ employee := employeeWith "Ann" "Tokyo" 100,
                 lat := some (toDouble 35.6762), lng := some (toDouble 139.6503) }] := by
  decide!

/-! ## The chart series -/

theorem takeWhile_congr_mem {α : Type} (p q : α → Bool) :
    ∀ l : List α, (∀ a ∈ l, p a = q a) → l.takeWhile p = l.takeWhile q
  | [], _ => rfl
  | a :: l, h => by
    simp only [List.takeWhile_cons, h a (List.mem_cons_self _ _),
      takeWhile_congr_mem p q l fun x hx => h x (List.mem_cons_of_mem _ hx)]

/-- On a name that is not empty, does not begin with a space and has no white
space other than the space character, the part before the first space is the
first whitespace-delimited token, and it is not empty. -/
theorem splitSpaceFirst_eq_firstToken (s : String) (hne : s ≠ "")
    (hhead : s.toList.head? ≠ some ' ')
    (hws : ∀ c ∈ s.toList, isStrWhiteSpaceChar c = true → c = ' ') :
    splitSpaceFirst s = firstToken s ∧ splitSpaceFirst s ≠ "" := by
  have hsp : isStrWhiteSpaceChar ' ' = true := by decide
  have hagree : ∀ c ∈ s.toList, (c != ' ') = !isStrWhiteSpaceChar c := by
    intro c hc
    by_cases hw : isStrWhiteSpaceChar c = true
    · have := hws c hc hw
      subst this
      rfl
    · have hcs : c ≠ ' ' := fun h => hw (h ▸ hsp)
      simp [hw, hcs]
  cases hl : s.toList with
  | nil =>
    exfalso
    apply hne
    exact String.ext (by simpa using hl)
  | cons c cs =>
    rw [hl] at hhead hagree
    have hc : c ≠ ' ' := by simpa using hhead
    have h2 : (c != ' ') = true := by simp [hc]
    have hcw : isStrWhiteSpaceChar c = false := by
      have h1 := hagree c (List.mem_cons_self _ _)
      rw [h2] at h1
      cases hx : isStrWhiteSpaceChar c
      · rfl
      · rw [hx] at h1
        cases h1
    have hdrop : (c :: cs).dropWhile isStrWhiteSpaceChar = c :: cs := by
      simp [List.dropWhile_cons, hcw]
    constructor
    · simp only [splitSpaceFirst, firstToken, hl, hdrop]
      rw [takeWhile_congr_mem _ _ (c :: cs) hagree]
    · intro h
      have htw : s.toList.takeWhile (fun c => c != ' ')
          = c :: cs.takeWhile (fun c => c != ' ') := by
        rw [hl, List.takeWhile_cons, h2]
        rfl
      have hd := congrArg String.data h
      simp only [splitSpaceFirst, htw] at hd
      simp at hd

theorem chartData_of_strings (employees : List Employee)
    (hstr : ∀ e ∈ employees, e.name.isString = true) :
    chartData employees = .ok (employees.map fun e =>
      { name := if splitSpaceFirst e.name.asString = "" then "N/A"
          else splitSpaceFirst e.name.asString,
        salary := numberOrZero e.salary }) := by
  apply mapThrowing_ok
  intro e he
  have := hstr e he
  cases hn : e.name <;> simp [hn, JSVal.isString] at this
  simp [chartLabel, JSVal.asString]

theorem numberOrZero_of_not_nan (n : JSNum) (h : n.isNaN = false) : numberOrZero n = n := by
  cases n with
  | nan => simp [JSNum.isNaN] at h
  | inf s => simp [numberOrZero, JSVal.truthy]
  | fin q => exact numberOrZero_fin q

/-- The series of a fetched employee list of length `n` whose first ten names
are strings: exactly `min(10, n)` points, point `i` being derived from record
`i` of the list (a prefix, in order), with label equal to the part of that
record's name before its first space character, or `N/A` when that part is
empty, and value equal to its numeric salary; the label is the first
whitespace-delimited token of the name whenever the name is not empty, does not
begin with a space and contains no white space other than the space character;
switching between the bar and pie renderings does not change the series. -/
theorem chart_series_of_string_names (data : List Employee) (typeErrorText chartType : String)
    (hstr : ∀ e ∈ data.take 10, e.name.isString = true) :
    (SalaryChart.load typeErrorText (.ok data) PageView.initial).employees = data.take 10
    ∧ (∃ series,
        SalaryChartView.series
            { page := SalaryChart.load typeErrorText (.ok data) PageView.initial,
              chartType := chartType } = .ok series
        ∧ series.length = min 10 data.length
        ∧ series = (data.take 10).map fun e =>
            { name := if splitSpaceFirst e.name.asString = "" then "N/A"
                else splitSpaceFirst e.name.asString,
              salary := numberOrZero e.salary })
    ∧ (∀ e ∈ data.take 10, e.name.asString ≠ "" →
        e.name.asString.toList.head? ≠ some ' ' →
        (∀ c ∈ e.name.asString.toList, isStrWhiteSpaceChar c = true → c = ' ') →
        (if splitSpaceFirst e.name.asString = "" then "N/A"
          else splitSpaceFirst e.name.asString) = firstToken e.name.asString)
    ∧ (∀ e ∈ data.take 10, e.salary.isNaN = false → numberOrZero e.salary = e.salary)
    ∧ ∀ (v : SalaryChartView) (t : String), (v.setChartType t).series = v.series := by
  have hload : (SalaryChart.load typeErrorText (.ok data) PageView.initial).employees
      = data.take 10 := rfl
  refine ⟨hload, ⟨_, ?_, ?_, rfl⟩, ?_, ?_, fun _ _ => rfl⟩
  · simp only [SalaryChartView.series, hload]
    exact chartData_of_strings _ hstr
  · simp [List.length_take]
  · intro e _ hne hhead hws
    obtain ⟨heq, hnonempty⟩ := splitSpaceFirst_eq_firstToken _ hne hhead hws
    rw [if_neg hnonempty, heq]
  · intro e _ h
    exact numberOrZero_of_not_nan _ h

theorem chartData_known_values :
    SalaryChartView.series
        { page := SalaryChart.load "" (.ok
            [employeeWith "Ann Lee" "Pune" 100, employeeWith "Bob" "Delhi" 200,
             employeeWith "Cy Young" "Goa" 300, employeeWith "D" "Goa" 1,
             employeeWith "E" "Goa" 2, employeeWith "F" "Goa" 3, employeeWith "G" "Goa" 4,
             employeeWith "H" "Goa" 5, employeeWith "I" "Goa" 6, employeeWith "J" "Goa" 7,
             employeeWith "K" "Goa" 8, employeeWith "L" "Goa" 9]) PageView.initial,
          chartType := "pie" }
      = .ok [⟨"Ann", .fin 100⟩, ⟨"Bob", .fin 200⟩, ⟨"Cy", .fin 300⟩, ⟨"D", .fin 1⟩,
          ⟨"E", .fin 2⟩, ⟨"F", .fin 3⟩, ⟨"G", .fin 4⟩, ⟨"H", .fin 5⟩, ⟨"I", .fin 6⟩,
          ⟨"J", .fin 7⟩] := by
  decide!

/-- C21 fails in the code. The label is meant to be the first name; for the
name ` Ann Lee`, which begins with a space, `split(' ')[0]` is the empty string
and the label is `N/A`, and for the name `Ann<TAB>Lee` the label is the whole
name; the first whitespace-delimited token of either is `Ann`. -/
theorem C21_label_not_first_name :
    chartData [employeeWith " Ann Lee" "Pune" 100, employeeWith "Ann\tLee" "Pune" 200]
      = .ok [⟨"N/A", .fin 100⟩, ⟨"Ann\tLee", .fin 200⟩]
    ∧ firstToken " Ann Lee" = "Ann" ∧ firstToken "Ann\tLee" = "Ann" := by
  decide!

/-! ## The function `titleCase` -/

theorem capitalizeFrom_length : ∀ (l : List Char) (p : Bool),
    (capitalizeFrom p l).length = l.length
  | [], _ => rfl
  | c :: cs, p => by simp [capitalizeFrom, capitalizeFrom_length cs]

/-- What `capitalizeFrom` does at each position: a word character that does
not follow a word character is upper-cased, every other character is kept. -/
theorem capitalizeFrom_getElem? : ∀ (l : List Char) (p : Bool) (i : Nat),
    (capitalizeFrom p l)[i]? = (l[i]?).map fun c =>
      if isWordChar c && !(if i = 0 then p else ((l[i - 1]?).map isWordChar).getD false)
      then c.toUpper else c
  | [], _, _ => by simp [capitalizeFrom]
  | c :: cs, p, 0 => by simp [capitalizeFrom]
  | c :: cs, p, i + 1 => by
    simp only [capitalizeFrom, List.getElem?_cons_succ, capitalizeFrom_getElem? cs (isWordChar c) i,
      Nat.add_sub_cancel, Nat.add_one_ne_zero, if_false]
    cases i with
    | zero => simp
    | succ j => simp

/-- The function `titleCase` on a string: the lower-cased string in which the
first character of every maximal run of ASCII letters, digits and underscores
is upper-cased. -/
theorem titleCase_str (toLowerCase : String → String) (s : String) :
    ∃ out, titleCase toLowerCase (.str s) = .ok out
      ∧ out.length = (if s = "" then 0 else (toLowerCase s).length)
      ∧ (s ≠ "" → ∀ i, out.toList[i]? = ((toLowerCase s).toList[i]?).map fun c =>
          if isWordChar c &&
            !(if i = 0 then false
              else (((toLowerCase s).toList[i - 1]?).map isWordChar).getD false)
          then c.toUpper else c) := by
  by_cases hs : s = ""
  · subst hs
    exact ⟨"", rfl, rfl, fun h => absurd rfl h⟩
  · have ht : (JSVal.str s).truthy = true := by simp [JSVal.truthy, hs]
    refine ⟨String.mk (capitalizeFrom false (toLowerCase s).toList), ?_, ?_, ?_⟩
    · simp [titleCase, ht]
    · rw [if_neg hs]
      show (capitalizeFrom false (toLowerCase s).toList).length = (toLowerCase s).toList.length
      exact capitalizeFrom_length _ _
    · intro _ i
      exact capitalizeFrom_getElem? _ false i

theorem titleCase_known_values :
    titleCase asciiLowerCase (.str "san francisco") = .ok "San Francisco"
    ∧ titleCase asciiLowerCase (.str "NEW YORK") = .ok "New York"
    ∧ titleCase asciiLowerCase (.str "o'brien-smith 3rd") = .ok "O'Brien-Smith 3rd"
    ∧ titleCase asciiLowerCase (.str "") = .ok ""
    ∧ titleCase asciiLowerCase .undefined = .ok ""
    ∧ titleCase asciiLowerCase .null = .ok "" := by
  decide

/-- C22 fails in the code. In `münchen` the letter `ü` is no word character of
the regular expression `/\b\w/g`, so the `n` after it counts as the start of a
word and is upper-cased: `titleCase` returns `MüNchen`, with an upper-case
letter that is not the first of its word; in `écosse` the first letter is left
in lower case and the second is upper-cased. Lower-casing leaves both strings
as they are. -/
theorem C22_titleCase_non_ascii_letter :
    asciiLowerCase "münchen" = "münchen"
    ∧ titleCase asciiLowerCase (.str "münchen") = .ok "MüNchen"
    ∧ asciiLowerCase "écosse" = "écosse"
    ∧ titleCase asciiLowerCase (.str "écosse") = .ok "éCosse" := by
  decide

/-! ## The fetching page views -/

deriving instance DecidableEq for PageView
deriving instance DecidableEq for Screen

/-- C23. For each page view that fetches (dashboard, salary chart, city map),
once the view has been left and its flag `cancelled` set, a fetch that
completes afterwards, with a result or with an error, changes none of the
state of that view: `employees`, `error` and `loading` are what they were;
whereas a fetch that completes on the live view stores its data and ends the
loading. -/
theorem C23_stale_fetch_discarded (v : PageView) (typeErrorText : String)
    (outcome : Except Thrown (List Employee)) (data : List Employee) :
    Dashboard.load typeErrorText outcome v.cleanup = v.cleanup
    ∧ SalaryChart.load typeErrorText outcome v.cleanup = v.cleanup
    ∧ CityMap.load typeErrorText outcome v.cleanup = v.cleanup
    ∧ v.cleanup.employees = v.employees ∧ v.cleanup.error = v.error
    ∧ v.cleanup.loading = v.loading
    ∧ Dashboard.load typeErrorText (.ok data) PageView.initial
        = { employees := data, loading := false, error := "", cancelled := false }
    ∧ SalaryChart.load typeErrorText (.ok data) PageView.initial
        = { employees := data.take 10, loading := false, error := "", cancelled := false }
    ∧ CityMap.load typeErrorText (.ok data) PageView.initial
        = { employees := data, loading := false, error := "", cancelled := false } := by
  have h : ∀ keep, PageView.load keep typeErrorText outcome v.cleanup = v.cleanup := by
    intro keep
    cases outcome <;> simp [PageView.load, PageView.cleanup]
  exact ⟨h _, h _, h _, rfl, rfl, rfl, rfl, rfl, rfl⟩

/-! ## The login form -/

theorem handleSubmit_empty (username password : String) (s : AuthState)
    (h : jsTrim username = "" ∨ jsTrim password = "") :
    handleSubmit username password s
      = { loginCalled := false, error := "Please fill in both fields.", navigated := false,
          auth := s } := by
  unfold handleSubmit
  rw [if_pos h]

theorem handleSubmit_valid (username password : String) (s : AuthState)
    (h : jsTrim username = "testuser" ∧ password = "Test123") :
    handleSubmit username password s
      = { loginCalled := true, error := "", navigated := true,
          auth := { authenticated := true, session := some "true" } } := by
  have hne : ¬ (jsTrim username = "" ∨ jsTrim password = "") := by
    rw [h.1, h.2]
    decide
  have hlogin : login (jsTrim username) password s
      = ({ success := true, message := none },
          { authenticated := true, session := some "true" }) := by
    have hu : VALID_USERNAME = "testuser" := rfl
    have hp : VALID_PASSWORD = "Test123" := rfl
    unfold login
    rw [hu, hp, if_pos h]
  unfold handleSubmit
  rw [if_neg hne]
  simp only [hlogin, if_true]

theorem handleSubmit_invalid (username password : String) (s : AuthState)
    (hne : ¬ (jsTrim username = "" ∨ jsTrim password = ""))
    (h : ¬ (jsTrim username = "testuser" ∧ password = "Test123")) :
    handleSubmit username password s
      = { loginCalled := true, error := "Invalid username or password. Please try again.",
          navigated := false, auth := s } := by
  have hlogin : login (jsTrim username) password s
      = ({ success := false, message := some "Invalid username or password. Please try again." },
          s) := by
    have hu : VALID_USERNAME = "testuser" := rfl
    have hp : VALID_PASSWORD = "Test123" := rfl
    unfold login
    rw [hu, hp, if_neg h]
  unfold handleSubmit
  rw [if_neg hne]
  simp only [hlogin, Bool.false_eq_true, if_false, Option.getD_some]

/-- C26. Submitting the login form authenticates (the auth store's `login`
succeeds, the session is persisted and the form navigates to the dashboard)
exactly when the username with leading and trailing white space removed equals
`testuser` and the password, taken untrimmed, equals `Test123`; when the trimmed
username or the trimmed password is empty, `login` is not called, the message
`Please fill in both fields.` is shown and the authentication state is
unchanged; and a submit that does not authenticate never changes the
authentication state. -/
theorem C26_handleSubmit (username password : String) (s : AuthState) :
    ((handleSubmit username password s).navigated = true
      ↔ jsTrim username = "testuser" ∧ password = "Test123")
    ∧ ((handleSubmit username password s).navigated = true →
        (handleSubmit username password s).loginCalled = true
        ∧ (handleSubmit username password s).auth
            = { authenticated := true, session := some "true" })
    ∧ ((handleSubmit username password s).navigated = false →
        (handleSubmit username password s).auth = s
        ∧ (handleSubmit username password s).error ≠ "")
    ∧ (jsTrim username = "" ∨ jsTrim password = "" →
        (handleSubmit username password s).loginCalled = false
        ∧ (handleSubmit username password s).error = "Please fill in both fields."
        ∧ (handleSubmit username password s).auth = s)
    ∧ (handleSubmit " testuser\n" "Test123" s).navigated = true
    ∧ (handleSubmit "testuser" " Test123" s).navigated = false := by
  have hex1 : (handleSubmit " testuser\n" "Test123" s).navigated = true := by
    rw [handleSubmit_valid _ _ s (by decide)]
  have hex2 : (handleSubmit "testuser" " Test123" s).navigated = false := by
    rw [handleSubmit_invalid _ _ s (by decide) (by decide)]
  have hfill : ("Please fill in both fields." : String) ≠ "" := by decide
  have hinvalid : ("Invalid username or password. Please try again." : String) ≠ "" := by
    decide
  by_cases hempty : jsTrim username = "" ∨ jsTrim password = ""
  · have hno : ¬ (jsTrim username = "testuser" ∧ password = "Test123") := by
      rintro ⟨h1, h2⟩
      rw [h1, h2] at hempty
      revert hempty
      decide
    rw [handleSubmit_empty _ _ s hempty]
    exact ⟨⟨(fun h => by cases h), fun h => absurd h hno⟩, (fun h => by cases h),
      fun _ => ⟨rfl, hfill⟩, fun _ => ⟨rfl, rfl, rfl⟩, hex1, hex2⟩
  · by_cases hok : jsTrim username = "testuser" ∧ password = "Test123"
    · rw [handleSubmit_valid _ _ s hok]
      exact ⟨⟨fun _ => hok, fun _ => rfl⟩, fun _ => ⟨rfl, rfl⟩, (fun h => by cases h),
        fun h => absurd h hempty, hex1, hex2⟩
    · rw [handleSubmit_invalid _ _ s hempty hok]
      exact ⟨⟨(fun h => by cases h), fun h => absurd h hok⟩, (fun h => by cases h),
        fun _ => ⟨rfl, hinvalid⟩, fun h => absurd h hempty, hex1, hex2⟩

/-! ## Failed loads -/

theorem fallbackMessage_ne_empty : fallbackMessage ≠ "" := by decide

/-- C27, as amended. Every failure raised by `fetchEmployees`, for every
transport error and every shape of server error response except a message
field that is truthy and whose string form is empty (such as the empty array),
carries a non-empty message: the fixed text when the message field is absent
or falsy, the string form of the field when it is truthy, and the text of the
engine's `TypeError`, taken to be non-empty, when that conversion throws. The
load then puts the dashboard, the chart and the map in their error state, with
that text and Retry, not in the normal view. -/
theorem C27_failed_load_shows_error (r : HttpResult) (e : Thrown) (typeErrorText : String)
    (htry : fetchEmployeesTry r = .error e) (htext : typeErrorText ≠ "")
    (hmsg : ¬ ((serverMessage e).truthy = true ∧ (serverMessage e).toStr = .ok "")) :
    ∃ err, fetchEmployees r = .error err ∧ err.message typeErrorText ≠ ""
      ∧ ((serverMessage e).truthy = false → err = .error fallbackMessage)
      ∧ (∀ text, (serverMessage e).truthy = true → (serverMessage e).toStr = .ok text →
          err = .error text)
      ∧ (Dashboard.load typeErrorText (fetchEmployees r) PageView.initial).render
          = .errorWithRetry (err.message typeErrorText)
      ∧ (SalaryChart.load typeErrorText (fetchEmployees r) PageView.initial).render
          = .errorWithRetry (err.message typeErrorText)
      ∧ (CityMap.load typeErrorText (fetchEmployees r) PageView.initial).render
          = .errorWithRetry (err.message typeErrorText) := by
  have hview : ∀ (keep : List Employee → List Employee) (err : Thrown),
      err.message typeErrorText ≠ "" →
      (PageView.load keep typeErrorText (.error err) PageView.initial).render
        = .errorWithRetry (err.message typeErrorText) := by
    intro keep err hne
    simp [PageView.load, PageView.initial, PageView.render, hne]
  have hfetch : fetchEmployees r = fetchEmployeesCatch e := by
    simp [fetchEmployees, htry]
  have hdone : ∀ err : Thrown, fetchEmployees r = .error err →
      err.message typeErrorText ≠ "" →
      ((serverMessage e).truthy = false → err = .error fallbackMessage) →
      (∀ text, (serverMessage e).truthy = true → (serverMessage e).toStr = .ok text →
          err = .error text) →
      ∃ err, fetchEmployees r = .error err ∧ err.message typeErrorText ≠ ""
        ∧ ((serverMessage e).truthy = false → err = .error fallbackMessage)
        ∧ (∀ text, (serverMessage e).truthy = true → (serverMessage e).toStr = .ok text →
            err = .error text)
        ∧ (Dashboard.load typeErrorText (fetchEmployees r) PageView.initial).render
            = .errorWithRetry (err.message typeErrorText)
        ∧ (SalaryChart.load typeErrorText (fetchEmployees r) PageView.initial).render
            = .errorWithRetry (err.message typeErrorText)
        ∧ (CityMap.load typeErrorText (fetchEmployees r) PageView.initial).render
            = .errorWithRetry (err.message typeErrorText) := by
    intro err hres hne h1 h2
    refine ⟨err, hres, hne, h1, h2, ?_, ?_, ?_⟩ <;>
      · rw [hres]
        exact hview _ _ hne
  by_cases htruthy : (serverMessage e).truthy = true
  · have hor : (serverMessage e).or (.str fallbackMessage) = serverMessage e := by
      simp [JSVal.or, htruthy]
    have hcases : (∃ x, (serverMessage e).toStr = .error x)
        ∨ ∃ text, (serverMessage e).toStr = .ok text := by
      cases (serverMessage e).toStr with
      | error x => exact Or.inl ⟨x, rfl⟩
      | ok text => exact Or.inr ⟨text, rfl⟩
    rcases hcases with ⟨x, hstr⟩ | ⟨text, hstr⟩
    · have hx := JSVal.toStr_error_eq _ _ hstr
      subst hx
      have hres : fetchEmployees r = .error .typeError := by
        rw [hfetch]
        simp [fetchEmployeesCatch, hor, hstr]
      exact hdone _ hres htext (fun hf => absurd htruthy (by rw [hf]; decide))
        (fun _ _ h => by rw [hstr] at h; cases h)
    · have hne : text ≠ "" := by
        intro h
        subst h
        exact hmsg ⟨htruthy, hstr⟩
      have hres : fetchEmployees r = .error (.error text) := by
        rw [hfetch]
        simp [fetchEmployeesCatch, hor, hstr]
      exact hdone _ hres hne (fun hf => absurd htruthy (by rw [hf]; decide))
        (fun t _ h => by rw [hstr] at h; cases h; rfl)
  · have hfalsy : (serverMessage e).truthy = false := by
      cases h : (serverMessage e).truthy
      · rfl
      · exact absurd h htruthy
    have hor : (serverMessage e).or (.str fallbackMessage) = .str fallbackMessage := by
      simp [JSVal.or, hfalsy]
    have hres : fetchEmployees r = .error (.error fallbackMessage) := by
      rw [hfetch]
      simp [fetchEmployeesCatch, hor, JSVal.toStr]
    exact hdone _ hres fallbackMessage_ne_empty (fun _ => rfl)
      (fun _ ht _ => absurd ht htruthy)

/-- Witness of C27: a response with status 500 whose message field is the
number 500, and a timeout without a response. -/
theorem C27_failed_load_shows_error_witness :
    (Dashboard.load "TypeError" (fetchEmployees (.rejected (.requestError
        "Request failed with status code 500"
        (some (.obj [("message", .num (.fin 500))]))))) PageView.initial).render
      = .errorWithRetry "500"
    ∧ (Dashboard.load "TypeError" (fetchEmployees (.rejected (.requestError
          "timeout of 10000ms exceeded" none))) PageView.initial).render
        = .errorWithRetry "Unable to load employee data. Please try again later."
    ∧ ∃ err,
      fetchEmployees (.rejected (.requestError "Request failed with status code 500"
          (some (.obj [("message", .num (.fin 500))])))) = .error err
      ∧ err.message "TypeError" ≠ "" :=
  ⟨by decide!, by decide,
    (C27_failed_load_shows_error
      (.rejected (.requestError "Request failed with status code 500"
        (some (.obj [("message", .num (.fin 500))]))))
      (.requestError "Request failed with status code 500"
        (some (.obj [("message", .num (.fin 500))])))
      "TypeError" (by decide) (by decide) (by decide!)).imp fun _ h => ⟨h.1, h.2.1⟩⟩

/-- Counterexample to C27 as stated: an error response whose message field is
the empty array. The array is truthy and its string form is empty, so
`fetchEmployees` fails with the empty message; the views then store the empty
string as their error, which is falsy, and show the normal view with an empty
list. -/
theorem C27_counterexample_empty_array_message :
    fetchEmployees (.rejected (.requestError "Request failed with status code 500"
        (some (.obj [("message", .arr [])])))) = .error (.error "")
    ∧ (Dashboard.load "TypeError" (fetchEmployees (.rejected (.requestError
          "Request failed with status code 500" (some (.obj [("message", .arr [])])))))
        PageView.initial).render = .content []
    ∧ (SalaryChart.load "TypeError" (fetchEmployees (.rejected (.requestError
          "Request failed with status code 500" (some (.obj [("message", .arr [])])))))
        PageView.initial).render = .content []
    ∧ (CityMap.load "TypeError" (fetchEmployees (.rejected (.requestError
          "Request failed with status code 500" (some (.obj [("message", .arr [])])))))
        PageView.initial).render = .content [] := by
  decide

/-! ## The city options and the list they select -/

theorem mapThrowing_eq_ok {α β : Type} (f : α → Except Thrown β) :
    ∀ (l : List α) (bs : List β), mapThrowing f l = .ok bs →
      (∀ a ∈ l, ∃ b, f a = .ok b) ∧ ∀ b ∈ bs, ∃ a ∈ l, f a = .ok b
  | [], bs, h => by
    simp only [mapThrowing, Except.ok.injEq] at h
    subst h
    simp
  | a :: l, bs, h => by
    simp only [mapThrowing] at h
    cases hfa : f a with
    | error e => simp [hfa] at h
    | ok b =>
      cases hrest : mapThrowing f l with
      | error e => simp [hfa, hrest] at h
      | ok rest =>
        simp only [hfa, hrest, Except.ok.injEq] at h
        subst h
        obtain ⟨h1, h2⟩ := mapThrowing_eq_ok f l rest hrest
        constructor
        · intro x hx
          rcases List.mem_cons.1 hx with hxa | hxl
          · exact ⟨b, hxa ▸ hfa⟩
          · exact h1 x hxl
        · intro y hy
          rcases List.mem_cons.1 hy with hyb | hyr
          · exact ⟨a, List.mem_cons_self _ _, hyb ▸ hfa⟩
          · obtain ⟨x, hx, hfx⟩ := h2 y hyr
            exact ⟨x, List.mem_cons_of_mem _ hx, hfx⟩

theorem mem_salarySort (sortDirection : String) (l : List Employee) (e : Employee) :
    e ∈ salarySort sortDirection l ↔ e ∈ l := by
  unfold salarySort
  split_ifs <;> simp [List.mem_insertionSort]

/-- C24. For every employee list and every city offered by the filter
control, selecting that city with an empty search term displays at least one
employee, in whatever sort direction, and every displayed employee is one of
the list whose lower-cased city equals the selected option; so no option of the
control gives the empty state by itself. -/
theorem C24_city_option_selects (toLowerCase : String → String) (employees : List Employee)
    (options : List String) (option sortDirection : String)
    (hoptions : cities toLowerCase employees = .ok options) (hoption : option ∈ options) :
    ∃ shown, displayedEmployees toLowerCase employees "" option sortDirection = .ok shown
      ∧ shown ≠ []
      ∧ ∀ e ∈ shown, e ∈ employees
          ∧ (e.city.or (.str "")).callToLowerCase toLowerCase = .ok option := by
  unfold cities at hoptions
  cases hm : mapThrowing (fun e : Employee => (e.city.or (.str "")).callToLowerCase toLowerCase)
      employees with
  | error x => simp [hm] at hoptions
  | ok lowered =>
    simp only [hm, Except.ok.injEq] at hoptions
    subst hoptions
    simp only [List.mem_insertionSort, List.mem_filter, mem_distinct, bne_iff_ne, ne_eq] at hoption
    obtain ⟨hmem, hne⟩ := hoption
    obtain ⟨hall, hback⟩ := mapThrowing_eq_ok _ employees lowered hm
    obtain ⟨e₀, he₀, hfe₀⟩ := hback option hmem
    have hfilter : cityFilterStep toLowerCase option employees
        = .ok (employees.filter fun e =>
            decide ((e.city.or (.str "")).callToLowerCase toLowerCase = .ok option)) := by
      unfold cityFilterStep
      rw [if_neg hne]
      apply filterThrowing_ok
      intro a ha
      obtain ⟨b, hb⟩ := hall a ha
      simp [hb]
    have hshown : displayedEmployees toLowerCase employees "" option sortDirection
        = .ok (salarySort sortDirection (employees.filter fun e =>
            decide ((e.city.or (.str "")).callToLowerCase toLowerCase = .ok option))) := by
      simp [displayedEmployees, searchFilter, hfilter]
    refine ⟨_, hshown, ?_, ?_⟩
    · have : e₀ ∈ salarySort sortDirection (employees.filter fun e =>
          decide ((e.city.or (.str "")).callToLowerCase toLowerCase = .ok option)) := by
        rw [mem_salarySort]
        simp [he₀, hfe₀]
      exact List.ne_nil_of_mem this
    · intro e he
      rw [mem_salarySort] at he
      simpa using he

/-- Witness of C24: the option `tokyo` selects the two employees of Tokyo. -/
theorem C24_city_option_selects_witness :
    displayedEmployees asciiLowerCase
        [employeeWith "Ann Lee" "Tokyo" 50, employeeWith "bob" "london" 10,
         employeeWith "Cy" "TOKYO" 30, employeeWith "Dee" "" 30] "" "tokyo" ""
      = .ok [employeeWith "Ann Lee" "Tokyo" 50, employeeWith "Cy" "TOKYO" 30]
    ∧ ∃ shown,
        displayedEmployees asciiLowerCase
          [employeeWith "Ann Lee" "Tokyo" 50, employeeWith "bob" "london" 10,
           employeeWith "Cy" "TOKYO" 30, employeeWith "Dee" "" 30] "" "tokyo" "" = .ok shown
        ∧ shown ≠ []
        ∧ ∀ e ∈ shown,
            e ∈ [employeeWith "Ann Lee" "Tokyo" 50, employeeWith "bob" "london" 10,
              employeeWith "Cy" "TOKYO" 30, employeeWith "Dee" "" 30]
            ∧ (e.city.or (.str "")).callToLowerCase asciiLowerCase = .ok "tokyo" :=
  ⟨by decide!,
    C24_city_option_selects asciiLowerCase
      [employeeWith "Ann Lee" "Tokyo" 50, employeeWith "bob" "london" 10,
       employeeWith "Cy" "TOKYO" 30, employeeWith "Dee" "" 30]
      ["london", "tokyo"] "tokyo" "" (by decide!) (by decide)⟩

/-! ## Bounds on the summary figures -/

/-- The summary figures of a non-empty list with integer salaries, before any
evaluation of the sum. -/
theorem stats_of_int_salaries (employees : List Employee) (zs : List ℤ)
    (hsal : (employees.map fun e => e.salary) = zs.map fun z : ℤ => JSNum.fin (z : ℚ))
    (hne : employees ≠ []) :
    zs ≠ [] ∧ stats employees =
      { total := employees.length
        avg := mathRound (((zs.map fun z : ℤ => JSNum.fin (z : ℚ)).foldl JSNum.add
          (.fin 0)).divCount zs.length)
        max := mathMax (zs.map fun z : ℤ => JSNum.fin (z : ℚ)) } := by
  have hlen : employees.length = zs.length := by
    have := congrArg List.length hsal
    simpa using this
  have hpos : 0 < employees.length := List.length_pos.2 hne
  have hsalaries : (employees.map fun e => numberOrZero e.salary)
      = zs.map fun z : ℤ => JSNum.fin (z : ℚ) := by
    have : (employees.map fun e => numberOrZero e.salary)
        = (employees.map fun e => e.salary).map numberOrZero := by
      simp [List.map_map, Function.comp_def]
    rw [this, hsal, List.map_map]
    apply List.map_congr_left
    intro z _
    exact numberOrZero_fin _
  refine ⟨?_, ?_⟩
  · intro h
    subst h
    simp at hlen
    exact hne hlen
  · simp only [stats, if_neg (Nat.pos_iff_ne_zero.1 hpos), hsalaries, List.length_map]

theorem exists_least_of_ne_nil : ∀ zs : List ℤ, zs ≠ [] → ∃ lo ∈ zs, ∀ z ∈ zs, lo ≤ z
  | [], h => absurd rfl h
  | [z], _ => ⟨z, by simp, by simp⟩
  | z :: y :: zs, _ => by
    obtain ⟨lo, hlo, hall⟩ := exists_least_of_ne_nil (y :: zs) (by simp)
    by_cases hz : z ≤ lo
    · refine ⟨z, by simp, ?_⟩
      intro x hx
      rcases List.mem_cons.1 hx with h | h
      · omega
      · exact hz.trans (hall x h)
    · refine ⟨lo, List.mem_cons_of_mem _ hlo, ?_⟩
      intro x hx
      rcases List.mem_cons.1 hx with h | h
      · omega
      · exact hall x h

theorem sum_bounds (zs : List ℤ) (lo hi : ℤ) (hlo : ∀ z ∈ zs, lo ≤ z) (hhi : ∀ z ∈ zs, z ≤ hi) :
    (zs.length : ℤ) * lo ≤ zs.sum ∧ zs.sum ≤ (zs.length : ℤ) * hi := by
  induction zs with
  | nil => simp
  | cons z zs ih =>
    obtain ⟨h1, h2⟩ := ih (fun x hx => hlo x (List.mem_cons_of_mem _ hx))
      (fun x hx => hhi x (List.mem_cons_of_mem _ hx))
    have hz1 := hlo z (List.mem_cons_self _ _)
    have hz2 := hhi z (List.mem_cons_self _ _)
    simp only [List.length_cons, List.sum_cons, Nat.cast_add, Nat.cast_one]
    constructor <;> nlinarith

/-- C25, as amended. For every non-empty employee list with integer salaries,
the maximum shown is the salary of some employee and is greater than or equal
to every employee's salary; and when the sum of the absolute values of the
salaries plus the number of employees is below `2 ^ 52`, the average shown is
an integer lying between the smallest and the largest salary inclusive. -/
theorem C25_average_between (employees : List Employee) (zs : List ℤ)
    (hsal : (employees.map fun e => e.salary) = zs.map fun z : ℤ => JSNum.fin (z : ℚ))
    (hne : employees ≠ []) :
    (∃ m ∈ zs, (stats employees).max = .fin (m : ℚ) ∧ ∀ z ∈ zs, z ≤ m)
    ∧ ((zs.map Int.natAbs).sum + zs.length < 2 ^ 52 →
        ∃ a lo hi : ℤ, (stats employees).avg = .fin (a : ℚ)
          ∧ lo ∈ zs ∧ hi ∈ zs ∧ (∀ z ∈ zs, lo ≤ z ∧ z ≤ hi) ∧ lo ≤ a ∧ a ≤ hi) := by
  obtain ⟨hzs, hstats⟩ := stats_of_int_salaries employees zs hsal hne
  have hmax : ∃ m ∈ zs, mathMax (zs.map fun z : ℤ => JSNum.fin (z : ℚ)) = .fin (m : ℚ)
      ∧ ∀ z ∈ zs, z ≤ m := by
    cases zs with
    | nil => exact absurd rfl hzs
    | cons z zs => exact mathMax_int z zs
  rw [hstats]
  refine ⟨hmax, ?_⟩
  intro hbound
  obtain ⟨hi, hhi, -, hle⟩ := hmax
  obtain ⟨lo, hlo, hge⟩ := exists_least_of_ne_nil zs hzs
  have hzpos : 0 < zs.length := List.length_pos.2 hzs
  have hfold := foldl_add_int zs 0 (by simp; omega)
  simp only [Int.cast_zero, zero_add] at hfold
  have habs : |zs.sum| + (zs.length : ℤ) < 2 ^ 52 := by
    have h1 := natAbs_sum_cast zs
    have h2 : (((zs.map Int.natAbs).sum : ℕ) : ℤ) + (zs.length : ℤ) < 2 ^ 52 := by
      exact_mod_cast hbound
    linarith
  have havg : mathRound (((zs.map fun z : ℤ => JSNum.fin (z : ℚ)).foldl JSNum.add
      (.fin 0)).divCount zs.length) = .fin ⌊(zs.sum : ℚ) / (zs.length : ℚ) + 1 / 2⌋ := by
    rw [hfold]
    simp only [JSNum.divCount, if_neg (Nat.pos_iff_ne_zero.1 hzpos)]
    exact mathRound_toDouble_ratio zs.sum zs.length hzpos habs
  obtain ⟨hs1, hs2⟩ := sum_bounds zs lo hi hge hle
  have hnq : (0 : ℚ) < (zs.length : ℚ) := by exact_mod_cast hzpos
  have hq1 : (lo : ℚ) ≤ (zs.sum : ℚ) / (zs.length : ℚ) := by
    rw [le_div_iff₀ hnq]
    have : ((lo * (zs.length : ℤ) : ℤ) : ℚ) ≤ ((zs.sum : ℤ) : ℚ) := by
      exact_mod_cast (by linarith : lo * (zs.length : ℤ) ≤ zs.sum)
    simpa using this
  have hq2 : (zs.sum : ℚ) / (zs.length : ℚ) ≤ (hi : ℚ) := by
    rw [div_le_iff₀ hnq]
    have : ((zs.sum : ℤ) : ℚ) ≤ ((hi * (zs.length : ℤ) : ℤ) : ℚ) := by
      exact_mod_cast (by linarith : zs.sum ≤ hi * (zs.length : ℤ))
    simpa using this
  refine ⟨⌊(zs.sum : ℚ) / (zs.length : ℚ) + 1 / 2⌋, lo, hi, havg, hlo, hhi,
    fun z hz => ⟨hge z hz, hle z hz⟩, ?_, ?_⟩
  · rw [Int.le_floor]
    linarith
  · have : ⌊(zs.sum : ℚ) / (zs.length : ℚ) + 1 / 2⌋ < hi + 1 := by
      rw [Int.floor_lt, Int.cast_add, Int.cast_one]
      linarith
    omega

/-- Witness of C25: the salaries 100, 200 and 301 give the average 200 and the
maximum 301. -/
theorem C25_average_between_witness :
    stats [employeeWith "Ann" "Pune" 100, employeeWith "Bob" "Delhi" 200,
        employeeWith "Cy" "Goa" 301] = { total := 3, avg := .fin 200, max := .fin 301 }
    ∧ (∃ m ∈ ([100, 200, 301] : List ℤ),
        (stats [employeeWith "Ann" "Pune" 100, employeeWith "Bob" "Delhi" 200,
          employeeWith "Cy" "Goa" 301]).max = .fin (m : ℚ)
        ∧ ∀ z ∈ ([100, 200, 301] : List ℤ), z ≤ m)
    ∧ ((([100, 200, 301] : List ℤ).map Int.natAbs).sum + ([100, 200, 301] : List ℤ).length
          < 2 ^ 52 →
        ∃ a lo hi : ℤ,
          (stats [employeeWith "Ann" "Pune" 100, employeeWith "Bob" "Delhi" 200,
            employeeWith "Cy" "Goa" 301]).avg = .fin (a : ℚ)
          ∧ lo ∈ ([100, 200, 301] : List ℤ) ∧ hi ∈ ([100, 200, 301] : List ℤ)
          ∧ (∀ z ∈ ([100, 200, 301] : List ℤ), lo ≤ z ∧ z ≤ hi) ∧ lo ≤ a ∧ a ≤ hi) :=
  ⟨by decide!,
    C25_average_between
      [employeeWith "Ann" "Pune" 100, employeeWith "Bob" "Delhi" 200,
        employeeWith "Cy" "Goa" 301] [100, 200, 301] (by simp [employeeWith]) (by simp)⟩

/-- Counterexample to C25 as stated: five employees with the salary
9007199254740991 each. The sum is accumulated in double precision, where it
loses its last digits, and the average shown is 9007199254740990, below the
smallest salary. -/
theorem C25_counterexample_equal_large_salaries :
    (stats [employeeWith "Ann" "Pune" 9007199254740991,
        employeeWith "Bob" "Pune" 9007199254740991, employeeWith "Cy" "Pune" 9007199254740991,
        employeeWith "Dee" "Pune" 9007199254740991,
        employeeWith "Eve" "Pune" 9007199254740991]).avg = .fin 9007199254740990
    ∧ (9007199254740990 : ℚ) < 9007199254740991 := by
  decide!

/-! ## Stability of the salary sort -/

theorem diffSign_self (s : JSNum) : JSNum.diffSign s s ≤ 0 := by
  cases s with
  | nan => simp [JSNum.diffSign]
  | inf n => simp [JSNum.diffSign]
  | fin q => simp [JSNum.diffSign]

theorem jsLe_antisymm (a b : JSNum) (hab : JSNum.le a b = true) (hba : JSNum.le b a = true) :
    a = b := by
  cases a with
  | nan => simp [JSNum.le] at hab
  | inf n =>
    cases b with
    | nan => simp [JSNum.le] at hab
    | inf m => cases n <;> cases m <;> simp_all [JSNum.le]
    | fin y => cases n <;> simp_all [JSNum.le]
  | fin x =>
    cases b with
    | nan => simp [JSNum.le] at hab
    | inf m => cases m <;> simp_all [JSNum.le]
    | fin y =>
      simp only [JSNum.le, decide_eq_true_eq] at hab hba
      rw [le_antisymm hab hba]

/-- A stable sort keeps, for each salary, the employees with that salary in the
order they had. -/
theorem insertionSort_filter_salary (r : Employee → Employee → Prop) [DecidableRel r]
    (hr : ∀ a b : Employee, a.salary = b.salary → r a b) (l : List Employee) (s : JSNum) :
    (l.insertionSort r).filter (fun e => decide (e.salary = s))
      = l.filter fun e => decide (e.salary = s) := by
  have hpair : (l.filter fun e => decide (e.salary = s)).Pairwise r := by
    rw [List.pairwise_iff_forall_sublist]
    intro a b hab
    have ha : a ∈ l.filter fun e => decide (e.salary = s) := hab.subset (by simp)
    have hb : b ∈ l.filter fun e => decide (e.salary = s) := hab.subset (by simp)
    simp only [List.mem_filter, decide_eq_true_eq] at ha hb
    exact hr a b (ha.2.trans hb.2.symm)
  have hsub : List.Sublist (l.filter fun e => decide (e.salary = s)) (l.insertionSort r) :=
    List.sublist_insertionSort hpair (List.filter_sublist l)
  have hsub2 := hsub.filter fun e => decide (e.salary = s)
  rw [List.filter_filter] at hsub2
  simp only [Bool.and_self] at hsub2
  have hlen : ((l.insertionSort r).filter fun e => decide (e.salary = s)).length
      = (l.filter fun e => decide (e.salary = s)).length :=
    ((List.perm_insertionSort r l).filter _).length_eq
  exact (hsub2.eq_of_length hlen.symm).symm

theorem displayed_sorted (toLowerCase : String → String) (employees : List Employee)
    (searchTerm cityFilter sortDirection : String) (filtered : List Employee)
    (h : displayedEmployees toLowerCase employees searchTerm cityFilter "" = .ok filtered) :
    displayedEmployees toLowerCase employees searchTerm cityFilter sortDirection
      = .ok (salarySort sortDirection filtered) := by
  unfold displayedEmployees at h ⊢
  cases hs : searchFilter toLowerCase searchTerm employees with
  | error x => simp [hs] at h
  | ok found =>
    cases hc : cityFilterStep toLowerCase cityFilter found with
    | error x => simp [hs, hc] at h
    | ok inCity =>
      simp only [hs, hc, Except.ok.injEq] at h ⊢
      have : salarySort "" inCity = inCity := by simp [salarySort]
      rw [← h, this]

/-- C28. When the list is sorted by salary, in the ascending and in the
descending direction alike, the employees with equal salaries keep their
original relative order: for each salary, the employees with that salary come
in the sorted list in the order they have in the filtered list. So for every
displayed list whose salaries are pairwise distinct (and are numbers, none
`NaN`), the descending list is the reverse of the ascending list, while with
ties it need not be: two employees with the salary 10 are displayed in the same
order in both directions. -/
theorem C28_sort_stable (toLowerCase : String → String) (employees : List Employee)
    (searchTerm cityFilter : String) (filtered : List Employee)
    (hshown : displayedEmployees toLowerCase employees searchTerm cityFilter ""
      = .ok filtered) :
    ∃ ascending descending,
      displayedEmployees toLowerCase employees searchTerm cityFilter "asc" = .ok ascending
      ∧ displayedEmployees toLowerCase employees searchTerm cityFilter "desc" = .ok descending
      ∧ (∀ s : JSNum, ascending.filter (fun e => decide (e.salary = s))
          = filtered.filter fun e => decide (e.salary = s))
      ∧ (∀ s : JSNum, descending.filter (fun e => decide (e.salary = s))
          = filtered.filter fun e => decide (e.salary = s))
      ∧ ((∀ e ∈ filtered, e.salary.isNaN = false) →
          filtered.Pairwise (fun a b => a.salary ≠ b.salary) →
          descending = ascending.reverse)
      ∧ displayedEmployees asciiLowerCase
          [employeeWith "Ann" "Pune" 10, employeeWith "Bob" "Pune" 10] "" "" "asc"
          = .ok [employeeWith "Ann" "Pune" 10, employeeWith "Bob" "Pune" 10]
      ∧ displayedEmployees asciiLowerCase
          [employeeWith "Ann" "Pune" 10, employeeWith "Bob" "Pune" 10] "" "" "desc"
          = .ok [employeeWith "Ann" "Pune" 10, employeeWith "Bob" "Pune" 10] := by
  have hasc := displayed_sorted toLowerCase employees searchTerm cityFilter "asc" filtered hshown
  have hdesc := displayed_sorted toLowerCase employees searchTerm cityFilter "desc" filtered hshown
  have e1 : salarySort "asc" filtered = filtered.insertionSort salaryAscending := by
    simp [salarySort]
  have e2 : salarySort "desc" filtered = filtered.insertionSort salaryDescending := by
    simp [salarySort]
  rw [e1] at hasc
  rw [e2] at hdesc
  refine ⟨_, _, hasc, hdesc, ?_, ?_, ?_, by decide!, by decide!⟩
  · intro s
    exact insertionSort_filter_salary salaryAscending
      (fun a b h => by unfold salaryAscending; rw [h]; exact diffSign_self _) filtered s
  · intro s
    exact insertionSort_filter_salary salaryDescending
      (fun a b h => by unfold salaryDescending; rw [h]; exact diffSign_self _) filtered s
  · intro hnan hdistinct
    have hsymm : Symmetric fun a b : Employee => a.salary ≠ b.salary := fun _ _ h => h.symm
    have hpa := sorted_salaryAscending filtered hnan
    have hpd := sorted_salaryDescending filtered hnan
    have hda : (filtered.insertionSort salaryAscending).Pairwise
        fun a b => a.salary ≠ b.salary :=
      ((List.perm_insertionSort salaryAscending filtered).pairwise_iff
        (fun {_ _} h => hsymm h)).2 hdistinct
    have hdd : (filtered.insertionSort salaryDescending).Pairwise
        fun a b => a.salary ≠ b.salary :=
      ((List.perm_insertionSort salaryDescending filtered).pairwise_iff
        (fun {_ _} h => hsymm h)).2 hdistinct
    have hsa : (filtered.insertionSort salaryAscending).Pairwise
        fun a b => JSNum.le a.salary b.salary = true ∧ a.salary ≠ b.salary := hpa.and hda
    have hsd : (filtered.insertionSort salaryDescending).reverse.Pairwise
        fun a b => JSNum.le a.salary b.salary = true ∧ a.salary ≠ b.salary := by
      rw [List.pairwise_reverse]
      exact (hpd.and hdd).imp fun {a b} h => ⟨h.1, fun heq => h.2 heq.symm⟩
    haveI : IsAntisymm Employee
        fun a b => JSNum.le a.salary b.salary = true ∧ a.salary ≠ b.salary :=
      ⟨fun a b hab hba => absurd (jsLe_antisymm _ _ hab.1 hba.1) hab.2⟩
    have hperm : (filtered.insertionSort salaryDescending).reverse.Perm
        (filtered.insertionSort salaryAscending) :=
      (List.reverse_perm _).trans
        ((List.perm_insertionSort salaryDescending filtered).trans
          (List.perm_insertionSort salaryAscending filtered).symm)
    have heq := List.eq_of_perm_of_sorted hperm hsd hsa
    rw [← heq, List.reverse_reverse]

/-- Witness of C28: the salaries 50, 10, 30 and 10 again. -/
theorem C28_sort_stable_witness :
    displayedEmployees asciiLowerCase
        [employeeWith "Ann" "Pune" 50, employeeWith "Bob" "Pune" 10,
         employeeWith "Cy" "Pune" 30, employeeWith "Dee" "Pune" 10] "" "" "asc"
      = .ok [employeeWith "Bob" "Pune" 10, employeeWith "Dee" "Pune" 10,
          employeeWith "Cy" "Pune" 30, employeeWith "Ann" "Pune" 50]
    ∧ displayedEmployees asciiLowerCase
        [employeeWith "Ann" "Pune" 50, employeeWith "Bob" "Pune" 10,
         employeeWith "Cy" "Pune" 30, employeeWith "Dee" "Pune" 10] "" "" "desc"
      = .ok [employeeWith "Ann" "Pune" 50, employeeWith "Cy" "Pune" 30,
          employeeWith "Bob" "Pune" 10, employeeWith "Dee" "Pune" 10]
    ∧ ∃ ascending descending,
      displayedEmployees asciiLowerCase
          [employeeWith "Ann" "Pune" 50, employeeWith "Bob" "Pune" 10,
           employeeWith "Cy" "Pune" 30, employeeWith "Dee" "Pune" 10] "" "" "asc"
        = .ok ascending
      ∧ displayedEmployees asciiLowerCase
          [employeeWith "Ann" "Pune" 50, employeeWith "Bob" "Pune" 10,
           employeeWith "Cy" "Pune" 30, employeeWith "Dee" "Pune" 10] "" "" "desc"
        = .ok descending
      ∧ (∀ s : JSNum, ascending.filter (fun e => decide (e.salary = s))
          = [employeeWith "Ann" "Pune" 50, employeeWith "Bob" "Pune" 10,
             employeeWith "Cy" "Pune" 30, employeeWith "Dee" "Pune" 10].filter
              fun e => decide (e.salary = s))
      ∧ (∀ s : JSNum, descending.filter (fun e => decide (e.salary = s))
          = [employeeWith "Ann" "Pune" 50, employeeWith "Bob" "Pune" 10,
             employeeWith "Cy" "Pune" 30, employeeWith "Dee" "Pune" 10].filter
              fun e => decide (e.salary = s)) :=
  ⟨by decide!, by decide!,
    (C28_sort_stable asciiLowerCase
      [employeeWith "Ann" "Pune" 50, employeeWith "Bob" "Pune" 10,
       employeeWith "Cy" "Pune" 30, employeeWith "Dee" "Pune" 10] "" ""
      [employeeWith "Ann" "Pune" 50, employeeWith "Bob" "Pune" 10,
       employeeWith "Cy" "Pune" 30, employeeWith "Dee" "Pune" 10] (by decide!)).imp
      fun _ h => h.imp fun _ h => ⟨h.1, h.2.1, h.2.2.1, h.2.2.2.1⟩⟩

end EmployeeDashboard
